import Mathlib

/-! The library libmpq: archive opener, file resolver and multi-codec pipeline.

A shallow embedding of `src/libmpq/extract.c` (`libmpq__decompress_multi`) and
`src/libmpq/mpq.c` (`libmpq__archive_open`, `libmpq__archive_info`,
`libmpq__file_info`, `libmpq__file_name`, `libmpq__file_number`,
`libmpq__file_extract`), followed by theorems about them.

Conventions of the embedding.

* C `unsigned int` values are `Nat`s kept below `2 ^ 32`; every C operation that
  can leave that range is written with an explicit `% 2 ^ 32`.
* C `int` values are `Int`s; an `unsigned int` returned through an `int` goes
  through `toInt32`.
* Memory is a map from block identifiers to byte lists; a pointer is a block
  together with an offset, or `NULL`.
* Calls into code that is not part of the two source files (the codec bodies,
  `malloc`, `open`, `write`, `close`, `libmpq__read_file_mpq`, the table readers)
  are parameters of the definitions.
* Functions that the claims observe "from outside" (which codecs ran, whether a
  buffer was allocated, whether a file was created) carry a trace of events.
* A file name is kept as the text `snprintf` formats; the size of the element
  allocated for it is not part of the model.
* `off_t` is 64 bits wide, so `lseek` reaches every `unsigned int` offset; the
  host is little-endian, as the on-disk format is.
-/

namespace Libmpq

set_option autoImplicit false

/-! ## Machine integers -/

/-- The modulus of C `unsigned int` on the targets of the library. -/
def U32 : Nat := 2 ^ 32

/-- Conversion of an `unsigned int` bit pattern to C `int` (two's complement). -/
def toInt32 (n : Nat) : Int :=
  if n % U32 < 2 ^ 31 then ((n % U32 : Nat) : Int) else ((n % U32 : Nat) : Int) - (U32 : Int)

/-- Conversion of a C `int` to `unsigned int`. -/
def toU32 (i : Int) : Nat := (i % (U32 : Int)).toNat

/-! ## Constants of `mpq.h`

`mpq.h` is not among the source files, so the named constants the two files use
are gathered in a record that the definitions take as a parameter. -/

/-- The named constants of `mpq.h` used by `mpq.c` and `extract.c`. -/
structure MpqH where
  LIBMPQ_SUCCESS : Int
  LIBMPQ_ARCHIVE_ERROR_OPEN : Int
  LIBMPQ_ARCHIVE_ERROR_CLOSE : Int
  LIBMPQ_ARCHIVE_ERROR_FORMAT : Int
  LIBMPQ_ARCHIVE_ERROR_HASHTABLE : Int
  LIBMPQ_ARCHIVE_ERROR_BLOCKTABLE : Int
  LIBMPQ_ARCHIVE_ERROR_MALLOC : Int
  LIBMPQ_FILE_ERROR_OPEN : Int
  LIBMPQ_FILE_ERROR_CLOSE : Int
  LIBMPQ_FILE_ERROR_CORRUPT : Int
  LIBMPQ_FILE_ERROR_EXIST : Int
  LIBMPQ_FILE_ERROR_RANGE : Int
  LIBMPQ_FILE_ERROR_MALLOC : Int
  LIBMPQ_FILE_ERROR_DECOMPRESS : Int
  LIBMPQ_MPQ_HEADER_ID : Nat
  LIBMPQ_MPQ_HEADER_W3M : Nat
  LIBMPQ_MPQ_FLAG_PROTECTED : Nat
  LIBMPQ_FILE_EXISTS : Nat
  LIBMPQ_FILE_COMPRESSED : Nat
  LIBMPQ_FILE_COMPRESS_PKWARE : Nat
  LIBMPQ_FILE_COMPRESS_MULTI : Nat
  LIBMPQ_FILE_COMPRESSED_SIZE : Nat
  LIBMPQ_FILE_UNCOMPRESSED_SIZE : Nat
  LIBMPQ_FILE_COMPRESSION_TYPE : Nat
  deriving Repr

/-- Modelled from the spec: the values of the `mpq.h` constants, which is not among
the source files. The specification fixes the signature word `0x1A51504D`,
`SUCCESS (0)` and that the error kinds are negative integers; the remaining
values are those of the released header and serve only as a concrete instance. -/
def mpqh : MpqH where
  LIBMPQ_SUCCESS := 0
  LIBMPQ_ARCHIVE_ERROR_OPEN := -1
  LIBMPQ_ARCHIVE_ERROR_CLOSE := -2
  LIBMPQ_ARCHIVE_ERROR_FORMAT := -3
  LIBMPQ_ARCHIVE_ERROR_HASHTABLE := -4
  LIBMPQ_ARCHIVE_ERROR_BLOCKTABLE := -5
  LIBMPQ_ARCHIVE_ERROR_MALLOC := -6
  LIBMPQ_FILE_ERROR_OPEN := -1
  LIBMPQ_FILE_ERROR_CLOSE := -2
  LIBMPQ_FILE_ERROR_CORRUPT := -3
  LIBMPQ_FILE_ERROR_EXIST := -4
  LIBMPQ_FILE_ERROR_RANGE := -5
  LIBMPQ_FILE_ERROR_MALLOC := -6
  LIBMPQ_FILE_ERROR_DECOMPRESS := -7
  LIBMPQ_MPQ_HEADER_ID := 0x1A51504D
  LIBMPQ_MPQ_HEADER_W3M := 0x6D9E4B86
  LIBMPQ_MPQ_FLAG_PROTECTED := 0x00000002
  LIBMPQ_FILE_EXISTS := 0x80000000
  LIBMPQ_FILE_COMPRESSED := 0x0000FF00
  LIBMPQ_FILE_COMPRESS_PKWARE := 0x00000100
  LIBMPQ_FILE_COMPRESS_MULTI := 0x00000200
  LIBMPQ_FILE_COMPRESSED_SIZE := 1
  LIBMPQ_FILE_UNCOMPRESSED_SIZE := 2
  LIBMPQ_FILE_COMPRESSION_TYPE := 3

/-! ## Memory -/

/-- A C pointer: `NULL`, or a byte offset into an allocated block. -/
inductive Ptr where
  | null : Ptr
  | block (blk : Nat) (off : Nat) : Ptr
  deriving DecidableEq, Repr

/-- Pointer arithmetic `p + k`. -/
def Ptr.add : Ptr → Nat → Ptr
  | Ptr.null, _ => Ptr.null
  | Ptr.block b o, k => Ptr.block b (o + k)

/-- Memory: the bytes held by each block. -/
abbrev Mem := Nat → List Nat

/-- The byte `*p`. -/
def readByte (m : Mem) : Ptr → Nat
  | Ptr.null => 0
  | Ptr.block b o => (m b).getD o 0 % 256

/-- The `n` bytes that start at `p`. -/
def readBytes (m : Mem) : Ptr → Nat → List Nat
  | Ptr.null, _ => []
  | Ptr.block b o, n => ((m b).drop o).take n

/-- Store `bs` at `p`, leaving the rest of the block as it was. -/
def writeBytes (m : Mem) : Ptr → List Nat → Mem
  | Ptr.null, _ => m
  | Ptr.block b o, bs =>
    Function.update m b ((m b).take o ++ bs ++ (m b).drop (o + bs.length))

/-- C `memcpy(dst, src, n)`. -/
def memcpy (m : Mem) (dst src : Ptr) (n : Int) : Mem :=
  writeBytes m dst (readBytes m src n.toNat)

/-- C `memset(p, 0, n)` on a block that `malloc(n)` just returned: the block holds
exactly `n` zero bytes afterwards. -/
def memset_zero (m : Mem) : Ptr → Int → Mem
  | Ptr.null, _ => m
  | Ptr.block b _, n => Function.update m b (List.replicate n.toNat 0)

/-! ## `extract.c`: the pipeline -/

/-- A decompression routine of `dcmp_table`:
`decompress(out_buf, out_size, in_buf, in_size)` run on a memory returns its `int`
result and the memory it leaves. -/
abbrev Codec := Mem → Ptr → Int → Ptr → Int → Int × Mem

/-- The six routines named in `dcmp_table`; their bodies live outside `extract.c`. -/
structure Codecs where
  libmpq__decompress_huffman : Codec
  libmpq__decompress_zlib : Codec
  libmpq__decompress_pkzip : Codec
  libmpq__decompress_bzip2 : Codec
  libmpq__decompress_wave_mono : Codec
  libmpq__decompress_wave_stereo : Codec

/-- The table with decompression bits and functions (`extract.c`, lines 39-46). -/
def dcmp_table (c : Codecs) : List (Nat × Codec) :=
  [ (0x01, c.libmpq__decompress_huffman),
    (0x02, c.libmpq__decompress_zlib),
    (0x08, c.libmpq__decompress_pkzip),
    (0x10, c.libmpq__decompress_bzip2),
    (0x40, c.libmpq__decompress_wave_mono),
    (0x80, c.libmpq__decompress_wave_stereo) ]

/-- What `libmpq__decompress_multi` does that is visible from outside, in order. -/
inductive Event where
  /-- The method byte `*in_buf` was read. -/
  | method (p : Ptr) (value : Nat) : Event
  /-- The call `malloc(size)` was made and returned `result`. -/
  | malloc (size : Int) (result : Ptr) : Event
  /-- The routine with this mask was called with these arguments and returned `tb`. -/
  | codec (mask : Nat) (out_buf : Ptr) (out_size : Int) (in_buf : Ptr) (in_size : Int)
      (tb : Int) : Event
  /-- The call `memcpy(dst, src, n)`. -/
  | memcpy (dst src : Ptr) (n : Int) : Event
  /-- The call `free(p)`. -/
  | free (p : Ptr) : Event
  deriving DecidableEq, Repr

/-- The event is a call of a decompression routine. -/
def Event.isCodec : Event → Bool
  | Event.codec _ _ _ _ _ _ => true
  | _ => false

/-- The event is a call of `malloc`. -/
def Event.isMalloc : Event → Bool
  | Event.malloc _ _ => true
  | _ => false

/-- The masks of the routines called in a trace, in call order. -/
def codecMasks : List Event → List Nat
  | [] => []
  | Event.codec mask _ _ _ _ _ :: es => mask :: codecMasks es
  | _ :: es => codecMasks es

/-- The first loop of `libmpq__decompress_multi` (lines 295-303): count the table
entries whose mask meets the method byte. -/
def count_loop (decompress_flag : Nat) : List (Nat × Codec) → Nat → Nat
  | [], count => count
  | (mask, _) :: rest, count =>
    if decompress_flag &&& mask ≠ 0 then count_loop decompress_flag rest (count + 1)
    else count_loop decompress_flag rest count

/-- The local variables of `libmpq__decompress_multi` that the second loop changes,
with the memory and the trace. `work_buf` is `none` while unassigned. -/
structure LoopState where
  mem : Mem
  in_buf : Ptr
  in_size : Int
  work_buf : Option Ptr
  count : Nat
  tb : Int
  trace : List Event

/-- The `free(temp_buf)` guarded by `temp_buf != NULL`. -/
def free_temp (temp_buf : Ptr) : List Event :=
  if temp_buf ≠ Ptr.null then [Event.free temp_buf] else []

/-- The second loop of `libmpq__decompress_multi` (lines 327-364) over the remaining
table entries. `Sum.inl` is the early `return tb` of a failed routine, `Sum.inr` the
state with which the loop is left normally. -/
def apply_loop (decompress_flag : Nat) (out_buf : Ptr) (out_size : Int) (temp_buf : Ptr) :
    List (Nat × Codec) → LoopState → LoopState ⊕ LoopState
  | [], s => Sum.inr s
  | (mask, decompress) :: rest, s =>
    if decompress_flag &&& mask ≠ 0 then
      let work_buf := if s.count = 0 then out_buf else temp_buf
      let r := decompress s.mem work_buf out_size s.in_buf s.in_size
      let ev := Event.codec mask work_buf out_size s.in_buf s.in_size r.1
      if r.1 < 0 then
        Sum.inl { s with mem := r.2, work_buf := some work_buf, tb := r.1,
                         trace := s.trace ++ ev :: free_temp temp_buf }
      else
        apply_loop decompress_flag out_buf out_size temp_buf rest
          { mem := r.2, in_buf := work_buf, in_size := out_size, work_buf := some work_buf,
            count := s.count + 1, tb := r.1, trace := s.trace ++ [ev] }
    else apply_loop decompress_flag out_buf out_size temp_buf rest s

/-- The outcome of `libmpq__decompress_multi`: the returned `int`, the memory, the
trace, and whether the final comparison read `work_buf` before any assignment. -/
structure MultiResult where
  ret : Int
  mem : Mem
  trace : List Event
  uninit_read : Bool

/-- The tail of `libmpq__decompress_multi` (lines 366-381), entered when the second
loop is left normally. -/
def finish_multi (out_buf : Ptr) (out_size : Int) (temp_buf : Ptr) (s : LoopState) :
    MultiResult :=
  match s.work_buf with
  | none =>
    { ret := s.tb, mem := s.mem, trace := s.trace ++ free_temp temp_buf, uninit_read := true }
  | some w =>
    if w ≠ out_buf then
      { ret := s.tb, mem := memcpy s.mem out_buf s.in_buf out_size,
        trace := s.trace ++ Event.memcpy out_buf s.in_buf out_size :: free_temp temp_buf,
        uninit_read := false }
    else
      { ret := s.tb, mem := s.mem, trace := s.trace ++ free_temp temp_buf,
        uninit_read := false }

/-- The second loop followed by its two exits (lines 326-381): the `return tb` of
a failed routine, or the tail of the function. -/
def run_chain (c : Codecs) (decompress_flag : Nat) (out_buf : Ptr) (out_size : Int)
    (temp_buf : Ptr) (s0 : LoopState) : MultiResult :=
  match apply_loop decompress_flag out_buf out_size temp_buf (dcmp_table c) s0 with
  | Sum.inl s => { ret := s.tb, mem := s.mem, trace := s.trace, uninit_read := false }
  | Sum.inr s => finish_multi out_buf out_size temp_buf s

/-- The function `libmpq__decompress_multi` (`extract.c`, lines 260-382).
`malloc` is the pointer the call `malloc(out_size)` returns if it is made
(`Ptr.null` when the allocation fails). -/
def libmpq__decompress_multi (K : MpqH) (c : Codecs) (malloc : Ptr) (mem : Mem)
    (out_buf : Ptr) (out_size : Int) (in_buf : Ptr) (in_size : Int) : MultiResult :=
  if in_size = out_size then
    if in_buf = out_buf then
      { ret := out_size, mem := mem, trace := [], uninit_read := false }
    else
      { ret := out_size, mem := memcpy mem out_buf in_buf in_size,
        trace := [Event.memcpy out_buf in_buf in_size], uninit_read := false }
  else
    let decompress_flag := readByte mem in_buf
    let t0 := [Event.method in_buf decompress_flag]
    let in_buf1 := in_buf.add 1
    let in_size1 := in_size - 1
    let count := count_loop decompress_flag (dcmp_table c) 0
    if count = 0 then
      { ret := K.LIBMPQ_FILE_ERROR_DECOMPRESS, mem := mem, trace := t0, uninit_read := false }
    else if 1 < count then
      if malloc = Ptr.null then
        { ret := K.LIBMPQ_ARCHIVE_ERROR_MALLOC, mem := mem,
          trace := t0 ++ [Event.malloc out_size malloc], uninit_read := false }
      else
        run_chain c decompress_flag out_buf out_size malloc
          { mem := memset_zero mem malloc out_size, in_buf := in_buf1, in_size := in_size1,
            work_buf := none, count := 0, tb := 0,
            trace := t0 ++ [Event.malloc out_size malloc] }
    else
      run_chain c decompress_flag out_buf out_size Ptr.null
        { mem := mem, in_buf := in_buf1, in_size := in_size1, work_buf := none,
          count := 0, tb := 0, trace := t0 }

/-- A routine that copies its input to its output and reports the input length
(sample data for the concrete instances below). -/
def copyCodec : Codec :=
  fun m out_buf _ in_buf in_size => (in_size, memcpy m out_buf in_buf in_size)

/-- A routine that fails with the code `e` and touches nothing (sample data). -/
def failCodec (e : Int) : Codec := fun m _ _ _ _ => (e, m)

/-- Sample routines: all copy, except the bzip2 slot, which fails with `-7`. -/
def sampleCodecs : Codecs :=
  ⟨copyCodec, copyCodec, copyCodec, failCodec (-7), copyCodec, copyCodec⟩

/-- Sample memory: block 0 is an input of four bytes that starts with the method
byte `M`; every other block holds eight zero bytes. -/
def sampleMem (M : Nat) : Mem := fun b => if b = 0 then [M, 10, 20, 30] else List.replicate 8 0

/-! ## `mpq.c`: data model -/

/-- Modelled from the spec: the header record `mpq_header`, declared in `mpq.h`,
which is not among the source files. The layout is that of the specification, section 6
(32 bytes, little-endian: `u32 magic`, `u32 header_length`, `u32 archive_size`,
`u16 format_version`, `u16 block_size_shift`, `u32 hashtable_offset`,
`u32 blocktable_offset`, `u32 hashtable_count`, `u32 blocktable_count`); the field
names are the ones `mpq.c` uses. -/
structure mpq_header where
  id : Nat
  offset : Nat
  archivesize : Nat
  version : Nat
  blocksize : Nat
  hashtablepos : Nat
  blocktablepos : Nat
  hashtablesize : Nat
  blocktablesize : Nat
  deriving DecidableEq, Repr, Inhabited

/-- Modelled from the spec: a hash-table entry `mpq_hash` of `mpq.h` (16 bytes:
two name hashes, language, platform, block index); `blockindex` holds the stored
32-bit pattern. -/
structure mpq_hash where
  name1 : Nat
  name2 : Nat
  lang : Nat
  platform : Nat
  blockindex : Nat
  deriving DecidableEq, Repr, Inhabited

/-- Modelled from the spec: a block-table entry `mpq_block` of `mpq.h` (16 bytes:
`u32 filepos, u32 csize, u32 usize, u32 flags`); `fsize` is the name `mpq.c` uses
for the uncompressed size. -/
structure mpq_block where
  filepos : Nat
  csize : Nat
  fsize : Nat
  flags : Nat
  deriving DecidableEq, Repr, Inhabited

/-- Modelled from the spec: `sizeof(mpq_header)`, 32 bytes by section 6. -/
def header_size : Nat := 32

/-- Modelled from the spec: the handle `mpq_archive`, declared in `mpq.h`, which is
not among the source files. The fields are those `mpq.c` reads or writes, under
the names it uses; the integer fields are `unsigned int`, 32 bits wide (the
format is 32-bit throughout, specification sections 6 and 9). -/
structure mpq_archive where
  mpqpos : Nat
  blocksize : Nat
  flags : Nat
  maxblockindex : Nat
  header : mpq_header
  hashtable : List mpq_hash
  blocktable : List mpq_block
  mpq_files : List String
  deriving DecidableEq, Repr, Inhabited

/-- The host file behind the descriptor: its length and its bytes. -/
structure HostFile where
  size : Nat
  byte : Nat → Nat

/-- A little-endian 16-bit word of the host file. -/
def le16 (f : HostFile) (p : Nat) : Nat :=
  f.byte p % 256 + 256 * (f.byte (p + 1) % 256)

/-- A little-endian 32-bit word of the host file. -/
def le32 (f : HostFile) (p : Nat) : Nat :=
  f.byte p % 256 + 256 * (f.byte (p + 1) % 256) + 65536 * (f.byte (p + 2) % 256)
    + 16777216 * (f.byte (p + 3) % 256)

/-- The pair `lseek(fd, pos, SEEK_SET); rb = read(fd, header, sizeof(mpq_header))`
(lines 105-108): `none` when fewer than `sizeof(mpq_header)` bytes are left at
`pos`, else the header record made of the 32 bytes there. -/
def read_header (f : HostFile) (pos : Nat) : Option mpq_header :=
  if pos + header_size ≤ f.size then
    some { id := le32 f pos, offset := le32 f (pos + 4), archivesize := le32 f (pos + 8),
           version := le16 f (pos + 12), blocksize := le16 f (pos + 14),
           hashtablepos := le32 f (pos + 16), blocktablepos := le32 f (pos + 20),
           hashtablesize := le32 f (pos + 24), blocktablesize := le32 f (pos + 28) }
  else none

/-! ## `mpq.c`: `libmpq__archive_open` -/

/-- The test of lines 126-129 on the header held by the handle. -/
def header_accepted (K : MpqH) (h : mpq_header) : Bool :=
  decide (h.id = K.LIBMPQ_MPQ_HEADER_ID) && decide (h.offset = header_size) &&
    decide (h.hashtablepos < h.archivesize) && decide (h.blocktablepos < h.archivesize)

/-- The special case of lines 117-123 for protected archives, on flags and header. -/
def protect_fixup (K : MpqH) (flags : Nat) (h : mpq_header) : Nat × mpq_header :=
  if h.offset = K.LIBMPQ_MPQ_HEADER_W3M then
    (flags ||| K.LIBMPQ_MPQ_FLAG_PROTECTED, { h with offset := header_size })
  else (flags, h)

/-- How one pass through the body of the `while (!ncnt)` loop ends. -/
inductive ScanStep where
  /-- The read was short: `return LIBMPQ_ARCHIVE_ERROR_FORMAT`. -/
  | short : ScanStep
  /-- The header was accepted: `ncnt = TRUE`. -/
  | found (a : mpq_archive) : ScanStep
  /-- The header was rejected: `mpqpos += 0x200` and the loop goes on. -/
  | next (a : mpq_archive) : ScanStep

/-- One pass through the body of the `while (!ncnt)` loop (lines 101-140). -/
def scan_step (K : MpqH) (f : HostFile) (a : mpq_archive) : ScanStep :=
  match read_header f a.mpqpos with
  | none => ScanStep.short
  | some h =>
    let fh := protect_fixup K a.flags h
    if header_accepted K fh.2 then
      ScanStep.found { a with flags := fh.1, header := fh.2 }
    else
      ScanStep.next { a with flags := fh.1, header := fh.2,
                             mpqpos := (a.mpqpos + 0x200) % U32 }

/-- How the `while (!ncnt)` loop ends, with the handle as it is then. -/
inductive ScanResult where
  /-- The function returned this error from inside the loop (what a short read
  leaves in the header record is not modelled). -/
  | error (e : Int) (a : mpq_archive) : ScanResult
  /-- The loop was left with `ncnt == TRUE`. -/
  | found (a : mpq_archive) : ScanResult

/-- The `while (!ncnt)` loop (lines 98-141), run for at most `fuel` passes: `none`
when the loop is still running after `fuel` passes. -/
def header_scan (K : MpqH) (f : HostFile) : Nat → mpq_archive → Option ScanResult
  | 0, _ => none
  | fuel + 1, a =>
    match scan_step K f a with
    | ScanStep.short => some (ScanResult.error K.LIBMPQ_ARCHIVE_ERROR_FORMAT a)
    | ScanStep.found a1 => some (ScanResult.found a1)
    | ScanStep.next a1 => header_scan K f fuel a1

/-- Left-pad a string with zeros to the given width. -/
def pad_zeros (width : Nat) (s : String) : String :=
  String.mk (List.replicate (width - s.length) '0') ++ s

/-- The text `snprintf` produces for the format `file%06i.xxx`. -/
def synthetic_name (n : Int) : String :=
  "file" ++ (if n < 0 then "-" ++ pad_zeros 5 (toString n.natAbs)
             else pad_zeros 6 (toString n.toNat)) ++ ".xxx"

/-- What `libmpq__archive_open` gets from outside `mpq.c`. -/
structure OpenEnv where
  /-- Whether `malloc(sizeof(mpq_header))` succeeds. -/
  malloc_header : Bool
  /-- The file `open(mpq_filename, O_RDONLY)` finds; `none` when it returns `-1`. -/
  host : Option HostFile
  /-- The function `libmpq__read_table_hash`: its result and the table it stores. -/
  libmpq__read_table_hash : HostFile → mpq_archive → Int × List mpq_hash
  /-- The function `libmpq__read_table_block`: its result and the table it stores. -/
  libmpq__read_table_block : HostFile → mpq_archive → Int × List mpq_block
  /-- Whether the `malloc` of the file list succeeds. -/
  malloc_files : Bool
  /-- Whether the `malloc` of the `i`-th file-list element succeeds. -/
  malloc_file_name : Nat → Bool

/-- The file-list loop of lines 185-200 from index `i`, for `n` more elements:
`none` when a `malloc` fails, else the names created. -/
def name_loop (env : OpenEnv) : Nat → Nat → Option (List String)
  | 0, _ => some []
  | n + 1, i =>
    if env.malloc_file_name i then
      (name_loop env n (i + 1)).map (fun rest => synthetic_name (toInt32 (i + 1)) :: rest)
    else none

/-- The part of `libmpq__archive_open` after the header scan (lines 143-203). -/
def open_tables (K : MpqH) (env : OpenEnv) (f : HostFile) (a : mpq_archive) :
    Int × mpq_archive :=
  let a1 := { a with blocksize := (0x200 <<< a.header.blocksize) % U32 }
  if (a1.header.hashtablepos + a1.mpqpos) % U32 < f.size ∧
      (a1.header.blocktablepos + a1.mpqpos) % U32 < f.size then
    let a2 := { a1 with header := { a1.header with
                  hashtablepos := (a1.header.hashtablepos + a1.mpqpos) % U32,
                  blocktablepos := (a1.header.blocktablepos + a1.mpqpos) % U32 } }
    let rh := env.libmpq__read_table_hash f a2
    let a3 := { a2 with hashtable := rh.2 }
    if rh.1 ≠ 0 then (K.LIBMPQ_ARCHIVE_ERROR_HASHTABLE, a3)
    else
      let rb := env.libmpq__read_table_block f a3
      let a4 := { a3 with blocktable := rb.2 }
      if rb.1 ≠ 0 then (K.LIBMPQ_ARCHIVE_ERROR_BLOCKTABLE, a4)
      else if env.malloc_files = false then (K.LIBMPQ_ARCHIVE_ERROR_MALLOC, a4)
      else
        match name_loop env a4.header.blocktablesize 0 with
        | none => (K.LIBMPQ_ARCHIVE_ERROR_MALLOC, a4)
        | some names => (K.LIBMPQ_SUCCESS, { a4 with mpq_files := names })
  else (K.LIBMPQ_ARCHIVE_ERROR_FORMAT, a1)

/-- The function `libmpq__archive_open` (`mpq.c`, lines 46-204) on the handle `a` as
the caller passes it, the scan being run for at most `fuel` passes (`none`: the
scan is still running). The result is the returned `int` and the handle left. -/
def libmpq__archive_open (K : MpqH) (env : OpenEnv) (fuel : Nat) (a : mpq_archive) :
    Option (Int × mpq_archive) :=
  if env.malloc_header = false then some (K.LIBMPQ_ARCHIVE_ERROR_MALLOC, a)
  else
    let a0 := { a with header := { (default : mpq_header) with id := 0 } }
    match env.host with
    | none => some (K.LIBMPQ_ARCHIVE_ERROR_OPEN, a0)
    | some f =>
      let a1 := { a0 with maxblockindex := 0 }
      match header_scan K f fuel a1 with
      | none => none
      | some (ScanResult.error e a2) => some (e, a2)
      | some (ScanResult.found a2) => some (open_tables K env f a2)

/-! ## `mpq.c`: the file resolver, `libmpq__file_info`, `libmpq__file_extract` -/

/-- The search loop of lines 322-332, with its `unsigned int i`: the first
`i < hashtablesize` with `(number - 1) == hashtable[i].blockindex`. -/
def hash_search (a : mpq_archive) (number : Nat) : Option Nat :=
  (List.range a.header.hashtablesize).find?
    (fun i => decide (number - 1 = (a.hashtable.getD i default).blockindex))

/-- The local `int blockindex` after the search loop: `-1` when nothing was
found, else the stored index read as a C `int`. -/
def found_blockindex (a : mpq_archive) (number : Nat) : Int :=
  match hash_search a number with
  | none => -1
  | some i => toInt32 (a.hashtable.getD i default).blockindex

/-- The entry `blocktable + blockindex` for a C `int` index. An index outside the
table is undefined behaviour in C; the model reads a zero entry there. -/
def block_at (blocktable : List mpq_block) (blockindex : Int) : mpq_block :=
  if blockindex < 0 then default else blocktable.getD blockindex.toNat default

/-- The entry `hashtable[i]` for a C `int` index. An index outside the table is
undefined behaviour in C; the model reads a zero entry there. -/
def hash_at (hashtable : List mpq_hash) (i : Int) : mpq_hash :=
  if i < 0 then default else hashtable.getD i.toNat default

/-- The search loop of lines 457-467 in `libmpq__file_extract`. It is the loop of
`libmpq__file_info` except for its loop variable, declared `int i`: the test
`i < hashtablesize` converts `i` to `unsigned int`, so the loop makes the same
passes, and in pass `k` the variable holds `k` read as a C `int` (past `INT_MAX`
the increment overflows, which is undefined in C and wraps in the model). The
result is the value of `i` at the `break`. -/
def hash_search_int (a : mpq_archive) (number : Nat) : Option Int :=
  ((List.range a.header.hashtablesize).find?
    (fun k => decide (number - 1 = (hash_at a.hashtable (toInt32 k)).blockindex))).map toInt32

/-- The local `int blockindex` of `libmpq__file_extract` after its search loop. -/
def found_blockindex_int (a : mpq_archive) (number : Nat) : Int :=
  match hash_search_int a number with
  | none => -1
  | some i => toInt32 (hash_at a.hashtable i).blockindex

/-- The `switch (infotype)` of `libmpq__file_info` (lines 356-388); the
`unsigned int` sizes leave through the `int` return type. -/
def file_info_switch (K : MpqH) (infotype : Nat) (mpq_b : mpq_block) : Int :=
  if infotype = K.LIBMPQ_FILE_COMPRESSED_SIZE then toInt32 mpq_b.csize
  else if infotype = K.LIBMPQ_FILE_UNCOMPRESSED_SIZE then toInt32 mpq_b.fsize
  else if infotype = K.LIBMPQ_FILE_COMPRESSION_TYPE then
    if mpq_b.flags &&& K.LIBMPQ_FILE_COMPRESS_PKWARE ≠ 0 then
      toInt32 K.LIBMPQ_FILE_COMPRESS_PKWARE
    else if mpq_b.flags &&& K.LIBMPQ_FILE_COMPRESS_MULTI ≠ 0 then
      toInt32 K.LIBMPQ_FILE_COMPRESS_MULTI
    else K.LIBMPQ_SUCCESS
  else K.LIBMPQ_SUCCESS

/-- The function `libmpq__file_info` (`mpq.c`, lines 306-389). -/
def libmpq__file_info (K : MpqH) (a : mpq_archive) (infotype number : Nat) : Int :=
  if number < 1 ∨ number > a.header.blocktablesize then K.LIBMPQ_FILE_ERROR_RANGE
  else
    let blockindex := found_blockindex a number
    if blockindex = -1 ∨ toU32 blockindex > a.header.blocktablesize then
      K.LIBMPQ_FILE_ERROR_EXIST
    else
      let mpq_b := block_at a.blocktable blockindex
      if mpq_b.filepos > (a.header.archivesize + a.mpqpos) % U32 ∨
          mpq_b.csize > a.header.archivesize then
        K.LIBMPQ_FILE_ERROR_CORRUPT
      else if mpq_b.flags &&& K.LIBMPQ_FILE_EXISTS = 0 then K.LIBMPQ_FILE_ERROR_EXIST
      else file_info_switch K infotype mpq_b

/-- What `libmpq__file_extract` does that is visible from outside, in order. -/
inductive Effect where
  /-- The call `open(name, O_RDWR|O_CREAT|O_TRUNC, 0644)` returned `fd`. -/
  | create (name : String) (fd : Int) : Effect
  /-- The hash table was searched. -/
  | hash_lookup : Effect
  /-- The block-table entry with this index was loaded. -/
  | block_load (blockindex : Int) : Effect
  /-- The file read state was initialised (lines 499-507) with this `nblocks`. -/
  | file_state (nblocks : Nat) : Effect
  /-- The call `libmpq__read_file_mpq(.., filepos, buffer, 0x1000)` returned `result`. -/
  | read_file (filepos : Nat) (result : Int) : Effect
  /-- The call `write(fd, buffer, count)` returned `result`. -/
  | write (count : Int) (result : Int) : Effect
  /-- The call `close(fd)` returned `result`. -/
  | close (fd : Int) (result : Int) : Effect
  deriving DecidableEq, Repr

/-- What `libmpq__file_extract` gets from outside `mpq.c`. -/
structure ExtractEnv where
  /-- The descriptor the `open` of the output file returns (`-1` on failure). -/
  create_fd : Int
  /-- Whether `malloc(sizeof(mpq_file))` succeeds. -/
  malloc_file : Bool
  /-- Whether the `malloc` of the block-position buffer succeeds. -/
  malloc_blockpos : Bool
  /-- The value the `k`-th call of `libmpq__read_file_mpq` returns at `filepos`. -/
  libmpq__read_file_mpq : Nat → Nat → Int
  /-- The value the `k`-th call of `write` returns for the byte count `count`. -/
  write_ret : Nat → Int → Int
  /-- The value `close(fd)` returns. -/
  close_ret : Int

/-- What a call of `libmpq__file_extract` that returns leaves: the returned `int`
and the effects. -/
structure ExtractResult where
  ret : Int
  effects : List Effect
  deriving DecidableEq, Repr

/-- How a call of `libmpq__file_extract` ends. -/
inductive ExtractOutcome where
  /-- The function returned. -/
  | returned (r : ExtractResult) : ExtractOutcome
  /-- The division of line 503 was a division by zero (`blocksize == 0`, undefined
  in C): the process is killed there by the arithmetic trap and nothing is
  returned. -/
  | killed (effects : List Effect) : ExtractOutcome
  deriving DecidableEq, Repr

/-- The effects of a call, however it ends. -/
def ExtractOutcome.effects : ExtractOutcome → List Effect
  | ExtractOutcome.returned r => r.effects
  | ExtractOutcome.killed t => t

/-- The value returned, if the call returns. -/
def ExtractOutcome.ret : ExtractOutcome → Option Int
  | ExtractOutcome.returned r => some r.ret
  | ExtractOutcome.killed _ => none

/-- The quotient of line 503, `(fsize + blocksize - 1) / blocksize` in
`unsigned int` arithmetic, for a block size other than 0: the number of logical
blocks stored in `mpq_f->nblocks`. -/
def nblocks (a : mpq_archive) (mpq_b : mpq_block) : Nat :=
  ((mpq_b.fsize + a.blocksize - 1) % U32) / a.blocksize

/-- The loop `while (transferred > 0)` of lines 520-547, entered at its `k`-th
pass with `mpq_f->filepos == filepos`, run for at most `fuel` passes (`none`: it is
still running). The result is the effects of the passes made. -/
def extract_loop (env : ExtractEnv) : Nat → Nat → Nat → Option (List Effect)
  | 0, _, _ => none
  | fuel + 1, k, filepos =>
    let transferred := env.libmpq__read_file_mpq k filepos
    let e1 := Effect.read_file filepos transferred
    if transferred = 0 then some [e1]
    else
      let filepos1 := toU32 ((filepos : Int) + transferred)
      let written := env.write_ret k transferred
      let e2 := Effect.write transferred written
      if written = 0 then some [e1, e2]
      else if written > 0 then
        (extract_loop env fuel (k + 1) filepos1).map (fun rest => e1 :: e2 :: rest)
      else some [e1, e2]

/-- The function `libmpq__file_extract` (`mpq.c`, lines 427-561), the extraction
loop being run for at most `fuel` passes (`none`: it is still running). -/
def libmpq__file_extract (K : MpqH) (env : ExtractEnv) (a : mpq_archive) (number : Nat)
    (fuel : Nat) : Option ExtractOutcome :=
  if number < 1 ∨ number > a.header.blocktablesize then
    some (ExtractOutcome.returned ⟨K.LIBMPQ_FILE_ERROR_RANGE, []⟩)
  else
    let t0 := [Effect.create (a.mpq_files.getD (number - 1) "") env.create_fd]
    if env.create_fd = -1 then some (ExtractOutcome.returned ⟨K.LIBMPQ_FILE_ERROR_OPEN, t0⟩)
    else
      let blockindex := found_blockindex_int a number
      let t1 := t0 ++ [Effect.hash_lookup]
      if blockindex = -1 ∨ toU32 blockindex > a.header.blocktablesize then
        some (ExtractOutcome.returned ⟨K.LIBMPQ_FILE_ERROR_EXIST, t1⟩)
      else
        let mpq_b := block_at a.blocktable blockindex
        let t2 := t1 ++ [Effect.block_load blockindex]
        if mpq_b.filepos > (a.header.archivesize + a.mpqpos) % U32 ∨
            mpq_b.csize > a.header.archivesize then
          some (ExtractOutcome.returned ⟨K.LIBMPQ_FILE_ERROR_CORRUPT, t2⟩)
        else if mpq_b.flags &&& K.LIBMPQ_FILE_EXISTS = 0 then
          some (ExtractOutcome.returned ⟨K.LIBMPQ_FILE_ERROR_EXIST, t2⟩)
        else if env.malloc_file = false then
          some (ExtractOutcome.returned ⟨K.LIBMPQ_FILE_ERROR_MALLOC, t2⟩)
        else if a.blocksize = 0 then some (ExtractOutcome.killed t2)
        else
          let t3 := t2 ++ [Effect.file_state (nblocks a mpq_b)]
          if mpq_b.flags &&& K.LIBMPQ_FILE_COMPRESSED ≠ 0 ∧ env.malloc_blockpos = false then
            some (ExtractOutcome.returned ⟨K.LIBMPQ_FILE_ERROR_MALLOC, t3⟩)
          else
            match extract_loop env fuel 0 0 with
            | none => none
            | some t4 =>
              let t5 := t3 ++ t4 ++ [Effect.close env.create_fd env.close_ret]
              if env.close_ret = -1 then
                some (ExtractOutcome.returned ⟨K.LIBMPQ_FILE_ERROR_CLOSE, t5⟩)
              else some (ExtractOutcome.returned ⟨K.LIBMPQ_SUCCESS, t5⟩)

/-! ## Predicates used in the statements, and sample data -/

/-- The buffer `p` holds at least `n` bytes in memory `m`. -/
def validBuf (m : Mem) : Ptr → Int → Prop
  | Ptr.null, _ => False
  | Ptr.block b o, n => o + n.toNat ≤ (m b).length

instance (m : Mem) (p : Ptr) (n : Int) : Decidable (validBuf m p n) := by
  cases p <;> unfold validBuf <;> infer_instance


/-- The masks of `dcmp_table` selected by a method byte, in table order. -/
def selectedMasks (decompress_flag : Nat) (table : List (Nat × Codec)) : List Nat :=
  (table.map Prod.fst).filter (fun mask => decompress_flag &&& mask ≠ 0)

/-- The event is not a routine call that returned a negative value. -/
def Event.succeeded : Event → Bool
  | Event.codec _ _ _ _ _ tb => decide (0 ≤ tb)
  | _ => true

/-- Every routine call recorded in the trace returned a non-negative value. -/
def allSucceeded (t : List Event) : Prop := ∀ ev ∈ t, ev.succeeded = true

instance (t : List Event) : Decidable (allSucceeded t) := by
  unfold allSucceeded; infer_instance

/-- The header fields are those of a valid header, in the words of the
specification: signature `0x1A51504D`, header-length field equal to the header
size or to the protected sentinel, both table offsets below the archive size. -/
def header_fields_valid (K : MpqH) (h : mpq_header) : Prop :=
  h.id = 0x1A51504D ∧ (h.offset = 32 ∨ h.offset = K.LIBMPQ_MPQ_HEADER_W3M) ∧
    h.hashtablepos < h.archivesize ∧ h.blocktablepos < h.archivesize

instance (K : MpqH) (h : mpq_header) : Decidable (header_fields_valid K h) := by
  unfold header_fields_valid; infer_instance

/-- At offset `p` the host file holds 32 bytes that form a valid header. -/
def valid_header_at (K : MpqH) (f : HostFile) (p : Nat) : Prop :=
  match read_header f p with
  | none => False
  | some h => header_fields_valid K h

instance (K : MpqH) (f : HostFile) (p : Nat) : Decidable (valid_header_at K f p) := by
  unfold valid_header_at; split <;> infer_instance

/-- At offset `p` the host file holds a full 32-byte header that is not valid. -/
def invalid_header_at (K : MpqH) (f : HostFile) (p : Nat) : Prop :=
  match read_header f p with
  | none => False
  | some h => ¬ header_fields_valid K h

instance (K : MpqH) (f : HostFile) (p : Nat) : Decidable (invalid_header_at K f p) := by
  unfold invalid_header_at; split <;> infer_instance

/-- The 32 bytes of the header of the first end-to-end scenario of the
specification: table offsets `0x20` and `0x30`, one entry in each table, archive size
`0x1000`, block-size shift 3. -/
def scenarioHeader : List Nat :=
  [0x4D, 0x50, 0x51, 0x1A, 0x20, 0, 0, 0, 0x00, 0x10, 0, 0, 0, 0, 3, 0,
   0x20, 0, 0, 0, 0x30, 0, 0, 0, 1, 0, 0, 0, 1, 0, 0, 0]

/-- The host file of the second scenario: `0x600` zero bytes, then the archive. -/
def scenarioHost : HostFile :=
  { size := 0x600 + 0x1000,
    byte := fun p => if p < 0x600 then 0 else scenarioHeader.getD (p - 0x600) 0 }

/-- A host file of the given length that holds only zero bytes. -/
def zeroHost (size : Nat) : HostFile := { size := size, byte := fun _ => 0 }

/-- An opened archive with one file: one hash entry for block 0 and one block
entry of ten stored bytes with the `EXISTS` flag. -/
def sampleArchive : mpq_archive :=
  { mpqpos := 0, blocksize := 4096, flags := 0, maxblockindex := 0,
    header := { id := 0x1A51504D, offset := 32, archivesize := 0x1000, version := 0,
                blocksize := 3, hashtablepos := 0x20, blocktablepos := 0x30,
                hashtablesize := 1, blocktablesize := 1 },
    hashtable := [⟨0, 0, 0, 0, 0⟩],
    blocktable := [⟨0x40, 10, 10, 0x80000000⟩],
    mpq_files := ["file000001.xxx"] }

/-- The archive `sampleArchive` found at offset `0x200` of its host file, with the
header field `archivesize` set to `0xFFFFFFFF` and the file data at `0x400`. -/
def wrapArchive : mpq_archive :=
  { sampleArchive with
    mpqpos := 0x200,
    header := { sampleArchive.header with archivesize := 0xFFFFFFFF },
    blocktable := [⟨0x400, 10, 10, 0x80000000⟩] }

/-- An environment of `libmpq__file_extract` in which every call of
`libmpq__read_file_mpq` fails with `-7` and `write` then fails with `-1`. -/
def failingReadEnv : ExtractEnv :=
  { create_fd := 3, malloc_file := true, malloc_blockpos := true,
    libmpq__read_file_mpq := fun _ _ => -7, write_ret := fun _ _ => -1, close_ret := 0 }

/-! ## `mpq.c`: `libmpq__archive_info` -/

/-- The information kinds of `libmpq__archive_info`, named constants of `mpq.h`,
which is not among the source files; they are the case labels of its `switch`. -/
structure ArchiveInfoKinds where
  LIBMPQ_ARCHIVE_SIZE : Nat
  LIBMPQ_ARCHIVE_HASHTABLE_SIZE : Nat
  LIBMPQ_ARCHIVE_BLOCKTABLE_SIZE : Nat
  LIBMPQ_ARCHIVE_BLOCKSIZE : Nat
  LIBMPQ_ARCHIVE_NUMFILES : Nat
  LIBMPQ_ARCHIVE_COMPRESSED_SIZE : Nat
  LIBMPQ_ARCHIVE_UNCOMPRESSED_SIZE : Nat
  deriving Repr

/-- Modelled from the spec: values for the seven information kinds of
`archive_info` (section 6 lists the kinds; `mpq.h`, which numbers them, is not
among the source files). They serve only as a concrete instance. -/
def infoKinds : ArchiveInfoKinds :=
  { LIBMPQ_ARCHIVE_SIZE := 1, LIBMPQ_ARCHIVE_HASHTABLE_SIZE := 2,
    LIBMPQ_ARCHIVE_BLOCKTABLE_SIZE := 3, LIBMPQ_ARCHIVE_BLOCKSIZE := 4,
    LIBMPQ_ARCHIVE_NUMFILES := 5, LIBMPQ_ARCHIVE_COMPRESSED_SIZE := 6,
    LIBMPQ_ARCHIVE_UNCOMPRESSED_SIZE := 7 }

/-- The loop of lines 271-273: `filecount++` once for each entry between
`blocktable` and `blocktable + blocktablesize`, in `unsigned int`. -/
def count_files (a : mpq_archive) : Nat :=
  (List.range a.header.blocktablesize).foldl (fun filecount _ => (filecount + 1) % U32) 0

/-- The loop of lines 280-282: `csize += mpq_b->csize` over the block table, in
`unsigned int`. -/
def sum_csize (a : mpq_archive) : Nat :=
  (List.range a.header.blocktablesize).foldl
    (fun csize i => (csize + (a.blocktable.getD i default).csize) % U32) 0

/-- The loop of lines 289-291: `fsize += mpq_b->fsize` over the block table, in
`unsigned int`. -/
def sum_fsize (a : mpq_archive) : Nat :=
  (List.range a.header.blocktablesize).foldl
    (fun fsize i => (fsize + (a.blocktable.getD i default).fsize) % U32) 0

/-- The function `libmpq__archive_info` (`mpq.c`, lines 241-303); each
`unsigned int` quantity leaves through the `int` return type. -/
def libmpq__archive_info (K : MpqH) (I : ArchiveInfoKinds) (a : mpq_archive)
    (infotype : Nat) : Int :=
  if infotype = I.LIBMPQ_ARCHIVE_SIZE then toInt32 a.header.archivesize
  else if infotype = I.LIBMPQ_ARCHIVE_HASHTABLE_SIZE then toInt32 a.header.hashtablesize
  else if infotype = I.LIBMPQ_ARCHIVE_BLOCKTABLE_SIZE then toInt32 a.header.blocktablesize
  else if infotype = I.LIBMPQ_ARCHIVE_BLOCKSIZE then toInt32 a.blocksize
  else if infotype = I.LIBMPQ_ARCHIVE_NUMFILES then toInt32 (count_files a)
  else if infotype = I.LIBMPQ_ARCHIVE_COMPRESSED_SIZE then toInt32 (sum_csize a)
  else if infotype = I.LIBMPQ_ARCHIVE_UNCOMPRESSED_SIZE then toInt32 (sum_fsize a)
  else K.LIBMPQ_SUCCESS

/-! ## `mpq.c`: parts of `libmpq__archive_open` and of the resolver, by themselves -/

/-- The handle with which `libmpq__archive_open` enters the scan loop (lines
66-96): the header record is fresh and zeroed, `maxblockindex` is 0, and every
other field, `mpqpos` among them, is as the caller left it. -/
def open_prepare (a : mpq_archive) : mpq_archive :=
  { a with header := { (default : mpq_header) with id := 0 }, maxblockindex := 0 }

/-- The offsets passed to `lseek` (line 105) in the first `fuel` passes of the
`while (!ncnt)` loop, in order. -/
def scan_offsets (K : MpqH) (f : HostFile) : Nat → mpq_archive → List Nat
  | 0, _ => []
  | fuel + 1, a =>
    a.mpqpos :: (match scan_step K f a with
      | ScanStep.next a1 => scan_offsets K f fuel a1
      | _ => [])

/-- The offsets at which `libmpq__archive_open` reads a header, in order. -/
def open_read_offsets (K : MpqH) (env : OpenEnv) (fuel : Nat) (a : mpq_archive) : List Nat :=
  if env.malloc_header = false then []
  else
    match env.host with
    | none => []
    | some f => scan_offsets K f fuel (open_prepare a)

/-- The assignments of lines 152-153: both table positions get `mpqpos` added,
in `unsigned int`. -/
def rebase_tables (a : mpq_archive) : mpq_archive :=
  { a with header := { a.header with
      hashtablepos := (a.header.hashtablepos + a.mpqpos) % U32,
      blocktablepos := (a.header.blocktablepos + a.mpqpos) % U32 } }

/-- The part of `libmpq__archive_open` that follows the assignments of lines
152-153 (lines 160-203): the two table readers and the file list. -/
def read_tables (K : MpqH) (env : OpenEnv) (f : HostFile) (a2 : mpq_archive) :
    Int × mpq_archive :=
  let rh := env.libmpq__read_table_hash f a2
  let a3 := { a2 with hashtable := rh.2 }
  if rh.1 ≠ 0 then (K.LIBMPQ_ARCHIVE_ERROR_HASHTABLE, a3)
  else
    let rb := env.libmpq__read_table_block f a3
    let a4 := { a3 with blocktable := rb.2 }
    if rb.1 ≠ 0 then (K.LIBMPQ_ARCHIVE_ERROR_BLOCKTABLE, a4)
    else if env.malloc_files = false then (K.LIBMPQ_ARCHIVE_ERROR_MALLOC, a4)
    else
      match name_loop env a4.header.blocktablesize 0 with
      | none => (K.LIBMPQ_ARCHIVE_ERROR_MALLOC, a4)
      | some names => (K.LIBMPQ_SUCCESS, { a4 with mpq_files := names })

/-- What the resolver code shared by `libmpq__file_info` and
`libmpq__file_extract` decides: one of its three error exits, or the block-table
entry it selected. -/
inductive Resolution where
  /-- The exit `return LIBMPQ_FILE_ERROR_RANGE`. -/
  | range : Resolution
  /-- An exit `return LIBMPQ_FILE_ERROR_EXIST`. -/
  | exist : Resolution
  /-- The exit `return LIBMPQ_FILE_ERROR_CORRUPT`. -/
  | corrupt : Resolution
  /-- No error exit was taken; `mpq_b = blocktable + blockindex`. -/
  | resolved (blockindex : Int) (mpq_b : mpq_block) : Resolution
  deriving DecidableEq, Repr

/-- The resolver of `libmpq__file_info` (lines 314-354). -/
def file_info_resolve (K : MpqH) (a : mpq_archive) (number : Nat) : Resolution :=
  if number < 1 ∨ number > a.header.blocktablesize then Resolution.range
  else
    let blockindex := found_blockindex a number
    if blockindex = -1 ∨ toU32 blockindex > a.header.blocktablesize then Resolution.exist
    else
      let mpq_b := block_at a.blocktable blockindex
      if mpq_b.filepos > (a.header.archivesize + a.mpqpos) % U32 ∨
          mpq_b.csize > a.header.archivesize then
        Resolution.corrupt
      else if mpq_b.flags &&& K.LIBMPQ_FILE_EXISTS = 0 then Resolution.exist
      else Resolution.resolved blockindex mpq_b

/-- The resolver of `libmpq__file_extract` (lines 439-444 and 456-489; the `open`
of the output file of lines 446-454 stands between its first and second test). -/
def file_extract_resolve (K : MpqH) (a : mpq_archive) (number : Nat) : Resolution :=
  if number < 1 ∨ number > a.header.blocktablesize then Resolution.range
  else
    let blockindex := found_blockindex_int a number
    if blockindex = -1 ∨ toU32 blockindex > a.header.blocktablesize then Resolution.exist
    else
      let mpq_b := block_at a.blocktable blockindex
      if mpq_b.filepos > (a.header.archivesize + a.mpqpos) % U32 ∨
          mpq_b.csize > a.header.archivesize then
        Resolution.corrupt
      else if mpq_b.flags &&& K.LIBMPQ_FILE_EXISTS = 0 then Resolution.exist
      else Resolution.resolved blockindex mpq_b

/-! ## Further predicates and sample data -/

/-- The file with index `number` resolves without error to the block entry `b`, in
the words of the specification: the index is in range, some hash entry carries
`number - 1`, `b` is the block entry with that index, its bounds are valid (as
the code computes them) and it has the `EXISTS` flag. -/
def resolves_to (K : MpqH) (a : mpq_archive) (number : Nat) (b : mpq_block) : Prop :=
  1 ≤ number ∧ number ≤ a.header.blocktablesize ∧
  (∃ i, i < a.header.hashtablesize ∧ (a.hashtable.getD i default).blockindex = number - 1) ∧
  b = a.blocktable.getD (number - 1) default ∧
  ¬ (b.filepos > (a.header.archivesize + a.mpqpos) % 2 ^ 32 ∨ b.csize > a.header.archivesize) ∧
  b.flags &&& K.LIBMPQ_FILE_EXISTS ≠ 0

instance (K : MpqH) (a : mpq_archive) (number : Nat) (b : mpq_block) :
    Decidable (resolves_to K a number b) := by
  unfold resolves_to; infer_instance

/-- The constants of the file-information switch are as `mpq.h` must have them:
`LIBMPQ_SUCCESS` is 0, the three kinds are distinct case labels, and the two
compression flags are values of a 32-bit flags word that fit a C `int`. -/
def MpqH.file_info_constants (K : MpqH) : Prop :=
  K.LIBMPQ_SUCCESS = 0 ∧
  K.LIBMPQ_FILE_COMPRESSED_SIZE ≠ K.LIBMPQ_FILE_UNCOMPRESSED_SIZE ∧
  K.LIBMPQ_FILE_COMPRESSED_SIZE ≠ K.LIBMPQ_FILE_COMPRESSION_TYPE ∧
  K.LIBMPQ_FILE_UNCOMPRESSED_SIZE ≠ K.LIBMPQ_FILE_COMPRESSION_TYPE ∧
  K.LIBMPQ_FILE_COMPRESS_PKWARE < 2 ^ 31 ∧ K.LIBMPQ_FILE_COMPRESS_MULTI < 2 ^ 31

instance (K : MpqH) : Decidable K.file_info_constants := by
  unfold MpqH.file_info_constants; infer_instance

/-- The three error values of the resolver differ from the other values
`libmpq__file_extract` returns once a file is resolved. -/
def MpqH.resolver_errors_apart (K : MpqH) : Prop :=
  ∀ x ∈ [K.LIBMPQ_FILE_ERROR_RANGE, K.LIBMPQ_FILE_ERROR_EXIST, K.LIBMPQ_FILE_ERROR_CORRUPT],
    x ∉ [K.LIBMPQ_FILE_ERROR_MALLOC, K.LIBMPQ_FILE_ERROR_CLOSE, K.LIBMPQ_SUCCESS]

instance (K : MpqH) : Decidable K.resolver_errors_apart := by
  unfold MpqH.resolver_errors_apart; infer_instance

/-- The seven information kinds are distinct case labels. -/
def ArchiveInfoKinds.distinct (I : ArchiveInfoKinds) : Prop :=
  [I.LIBMPQ_ARCHIVE_SIZE, I.LIBMPQ_ARCHIVE_HASHTABLE_SIZE, I.LIBMPQ_ARCHIVE_BLOCKTABLE_SIZE,
   I.LIBMPQ_ARCHIVE_BLOCKSIZE, I.LIBMPQ_ARCHIVE_NUMFILES, I.LIBMPQ_ARCHIVE_COMPRESSED_SIZE,
   I.LIBMPQ_ARCHIVE_UNCOMPRESSED_SIZE].Nodup

instance (I : ArchiveInfoKinds) : Decidable I.distinct := by
  unfold ArchiveInfoKinds.distinct; infer_instance

/-- The quantity an information kind asks for, as a natural number: the three
header fields, the block size, the number of block-table entries, and the sums of
the compressed and of the uncompressed sizes over the block table. -/
def archive_quantity (I : ArchiveInfoKinds) (a : mpq_archive) (kind : Nat) : Option Nat :=
  if kind = I.LIBMPQ_ARCHIVE_SIZE then some a.header.archivesize
  else if kind = I.LIBMPQ_ARCHIVE_HASHTABLE_SIZE then some a.header.hashtablesize
  else if kind = I.LIBMPQ_ARCHIVE_BLOCKTABLE_SIZE then some a.header.blocktablesize
  else if kind = I.LIBMPQ_ARCHIVE_BLOCKSIZE then some a.blocksize
  else if kind = I.LIBMPQ_ARCHIVE_NUMFILES then some a.header.blocktablesize
  else if kind = I.LIBMPQ_ARCHIVE_COMPRESSED_SIZE then
    some ((List.range a.header.blocktablesize).map
      (fun i => (a.blocktable.getD i default).csize)).sum
  else if kind = I.LIBMPQ_ARCHIVE_UNCOMPRESSED_SIZE then
    some ((List.range a.header.blocktablesize).map
      (fun i => (a.blocktable.getD i default).fsize)).sum
  else none

/-- The four bytes of a little-endian 32-bit word. -/
def le_bytes32 (n : Nat) : List Nat :=
  [n % 256, n / 256 % 256, n / 65536 % 256, n / 16777216 % 256]

/-- The 32 bytes of a header with signature `0x1A51504D`, header length 32, one
entry in each table, block table at `0x30`, and the given archive size, block-size
shift and hash-table offset. -/
def headerBytes (archivesize shift hashtablepos : Nat) : List Nat :=
  le_bytes32 0x1A51504D ++ le_bytes32 32 ++ le_bytes32 archivesize ++
    [0, 0, shift % 256, shift / 256 % 256] ++ le_bytes32 hashtablepos ++ le_bytes32 0x30 ++
    le_bytes32 1 ++ le_bytes32 1

/-- A host file of `size` bytes: `lead` zero bytes, then `bytes`, then zeros. -/
def hostOf (lead : Nat) (bytes : List Nat) (size : Nat) : HostFile :=
  { size := size, byte := fun p => if p < lead then 0 else bytes.getD (p - lead) 0 }

/-- An environment of `libmpq__archive_open` in which every allocation succeeds,
the host file is `f`, and the two table readers succeed with the one-entry
tables of `sampleArchive`. -/
def sampleOpenEnv (f : HostFile) : OpenEnv :=
  { malloc_header := true, host := some f,
    libmpq__read_table_hash := fun _ _ => (0, [⟨0, 0, 0, 0, 0⟩]),
    libmpq__read_table_block := fun _ _ => (0, [⟨0x40, 10, 10, 0x80000000⟩]),
    malloc_files := true, malloc_file_name := fun _ => true }

/-- An environment of `libmpq__file_extract` in which the output file is created
with descriptor 3, every allocation succeeds and `libmpq__read_file_mpq` reports
the end of the file at once. -/
def eofReadEnv : ExtractEnv :=
  { create_fd := 3, malloc_file := true, malloc_blockpos := true,
    libmpq__read_file_mpq := fun _ _ => 0, write_ret := fun _ n => n, close_ret := 0 }

/-- The archive `sampleArchive` with the uncompressed size of its file set to
`0xFFFFFFFF`. -/
def maxFileArchive : mpq_archive :=
  { sampleArchive with blocktable := [⟨0x40, 10, 0xFFFFFFFF, 0x80000000⟩] }

/-- The archive `sampleArchive` with the uncompressed size of its file set to
`0xFFFFFFFC`. -/
def bigFileArchive : mpq_archive :=
  { sampleArchive with blocktable := [⟨0x40, 10, 0xFFFFFFFC, 0x80000000⟩] }

/-- The 32 bytes of the scenario header with the header-length field replaced by
the value `0x6D9E4B86` that `mpqh` gives the protected sentinel. -/
def sentinelHeader : List Nat :=
  le_bytes32 0x1A51504D ++ le_bytes32 0x6D9E4B86 ++ (headerBytes 0x1000 3 0x20).drop 8

/-! ## Further projections of the trace, and sample data -/

/-- The input length handed to each routine called in a trace and the value the
routine returned, in call order. -/
def codecCalls : List Event → List (Int × Int)
  | [] => []
  | Event.codec _ _ _ _ in_size tb :: es => (in_size, tb) :: codecCalls es
  | _ :: es => codecCalls es

/-- A host file of `0x1200` bytes whose first block is no archive header (its
signature bytes are zero) but holds the value `0x6D9E4B86`, which `mpqh` gives the
protected sentinel, at bytes 4-7; the block at `0x200` is the scenario header,
whose header length is 32. -/
def decoyHost : HostFile :=
  { size := 0x1200,
    byte := fun p => if p < 0x200 then (le_bytes32 0 ++ le_bytes32 0x6D9E4B86).getD p 0
                     else scenarioHeader.getD (p - 0x200) 0 }

/-- The two memories hold the same bytes, except possibly for the byte at offset
`o` of block `b`. -/
def same_but (b o : Nat) (m1 m2 : Mem) : Prop :=
  (∀ b2, b2 ≠ b → m1 b2 = m2 b2) ∧ (m1 b).length = (m2 b).length ∧
    ∀ i, i ≠ o → (m1 b).getD i 0 = (m2 b).getD i 0

/-- The pointer does not point into block `b`. -/
def Ptr.outside (b : Nat) : Ptr → Prop
  | Ptr.null => True
  | Ptr.block b2 _ => b2 ≠ b

/-- The pointer points past the byte at offset `o` of block `b`, or into another
block. -/
def Ptr.past (b o : Nat) : Ptr → Prop
  | Ptr.null => True
  | Ptr.block b2 o2 => b2 ≠ b ∨ o < o2

/-- What is assumed of a decompression routine, whose body is outside `extract.c`,
about the byte at offset `o` of block `b`: called with an output buffer in another
block and an input buffer that starts past that byte, it returns the same value
and leaves the same bytes on two memories that differ at most in that byte. -/
def codec_blind (b o : Nat) (d : Codec) : Prop :=
  ∀ (m1 m2 : Mem) (out_buf : Ptr) (out_size : Int) (in_buf : Ptr) (in_size : Int),
    same_but b o m1 m2 → Ptr.outside b out_buf → Ptr.past b o in_buf →
    (d m1 out_buf out_size in_buf in_size).1 = (d m2 out_buf out_size in_buf in_size).1 ∧
    same_but b o (d m1 out_buf out_size in_buf in_size).2
      (d m2 out_buf out_size in_buf in_size).2

/-- The two loop states agree in every variable and in the routines called so
far, their memories differ at most in the byte at offset `o` of block `b`, and
`in_buf` points past that byte. -/
def loop_rel (b o : Nat) (s1 s2 : LoopState) : Prop :=
  same_but b o s1.mem s2.mem ∧ s1.in_buf = s2.in_buf ∧ s1.in_size = s2.in_size ∧
    s1.work_buf = s2.work_buf ∧ s1.count = s2.count ∧ s1.tb = s2.tb ∧
    codecMasks s1.trace = codecMasks s2.trace ∧ Ptr.past b o s1.in_buf

/-! ## `mpq.c`: `libmpq__file_name`, `libmpq__file_number` -/

/-- The function `libmpq__file_name` (`mpq.c`, lines 391-403): `none` is the `NULL`
returned for a number out of range, else the element `mpq_files[number - 1]` (also
`none` if the list has no such element). -/
def libmpq__file_name (a : mpq_archive) (number : Nat) : Option String :=
  if number < 1 ∨ number > a.header.blocktablesize then none
  else a.mpq_files[number - 1]?

/-- The test `strncmp(s, name, strlen(name)) == 0` of line 415 on two C strings:
the first `strlen(name)` characters of `s` are there and are those of `name`. -/
def strncmp_eq (s name : String) : Bool :=
  decide (s.data.take name.data.length = name.data)

/-- The loop of `libmpq__file_number` (lines 412-420) at index `i`, over the
elements of the file list from `i` on, followed by the `return` after the loop.
The loop ends at the first `NULL` element. `libmpq__archive_open` allocates exactly
`blocktablesize` elements and stores no `NULL` after them; the model takes the
word the loop reads after the last name to be `NULL`, so that a name matching no
element ends in `LIBMPQ_FILE_ERROR_EXIST`. -/
def file_number_loop (K : MpqH) (name : String) : List String → Nat → Int
  | [], _ => K.LIBMPQ_FILE_ERROR_EXIST
  | s :: rest, i =>
    if strncmp_eq s name then toInt32 (i + 1)
    else file_number_loop K name rest ((i + 1) % U32)

/-- The function `libmpq__file_number` (`mpq.c`, lines 405-424). -/
def libmpq__file_number (K : MpqH) (a : mpq_archive) (name : String) : Int :=
  file_number_loop K name a.mpq_files 0

/-- The number a text of decimal digits stands for, read from the left on top of
the value `a`. -/
def decimal_value (a : Nat) : List Char → Nat
  | [] => a
  | c :: cs => decimal_value (10 * a + (c.toNat - 48)) cs

/-- The characters between `file` and `.xxx` in the text of `synthetic_name`. -/
def name_body (n : Int) : List Char :=
  if n < 0 then
    '-' :: (List.replicate (5 - (Nat.toDigits 10 n.natAbs).length) '0'
      ++ Nat.toDigits 10 n.natAbs)
  else List.replicate (6 - (Nat.toDigits 10 n.toNat).length) '0' ++ Nat.toDigits 10 n.toNat

/-- The value `LIBMPQ_SUCCESS` differs from the five error values
`libmpq__archive_open` returns. -/
def MpqH.archive_errors_differ (K : MpqH) : Prop :=
  K.LIBMPQ_SUCCESS ≠ K.LIBMPQ_ARCHIVE_ERROR_OPEN ∧
  K.LIBMPQ_SUCCESS ≠ K.LIBMPQ_ARCHIVE_ERROR_FORMAT ∧
  K.LIBMPQ_SUCCESS ≠ K.LIBMPQ_ARCHIVE_ERROR_HASHTABLE ∧
  K.LIBMPQ_SUCCESS ≠ K.LIBMPQ_ARCHIVE_ERROR_BLOCKTABLE ∧
  K.LIBMPQ_SUCCESS ≠ K.LIBMPQ_ARCHIVE_ERROR_MALLOC

instance (K : MpqH) : Decidable K.archive_errors_differ := by
  unfold MpqH.archive_errors_differ
  infer_instance

/-- The 32 bytes of the scenario header with the block count replaced by 12. -/
def dozenHeader : List Nat :=
  (headerBytes 0x1000 3 0x20).take 28 ++ le_bytes32 12

/-- The block table of an archive of twelve stored files of ten bytes each. -/
def dozenBlocks : List mpq_block :=
  (List.range 12).map (fun i => ⟨0x100 + 16 * i, 10, 10, 0x80000000⟩)

/-- An environment of `libmpq__archive_open` for an archive of twelve blocks: the
host file starts with `dozenHeader`, every allocation succeeds, and the table
readers succeed with one hash entry and the twelve block entries. -/
def dozenOpenEnv : OpenEnv :=
  { malloc_header := true, host := some (hostOf 0 dozenHeader 0x1000),
    libmpq__read_table_hash := fun _ _ => (0, [⟨0, 0, 0, 0, 0⟩]),
    libmpq__read_table_block := fun _ _ => (0, dozenBlocks),
    malloc_files := true, malloc_file_name := fun _ => true }

/-- The handle `libmpq__archive_open` leaves for the archive of twelve blocks. -/
def dozenArchive : mpq_archive :=
  { mpqpos := 0, blocksize := 4096, flags := 0, maxblockindex := 0,
    header := { id := 0x1A51504D, offset := 32, archivesize := 0x1000, version := 0,
                blocksize := 3, hashtablepos := 0x20, blocktablepos := 0x30,
                hashtablesize := 1, blocktablesize := 12 },
    hashtable := [⟨0, 0, 0, 0, 0⟩],
    blocktable := dozenBlocks,
    mpq_files := ["file000001.xxx", "file000002.xxx", "file000003.xxx", "file000004.xxx",
      "file000005.xxx", "file000006.xxx", "file000007.xxx", "file000008.xxx",
      "file000009.xxx", "file000010.xxx", "file000011.xxx", "file000012.xxx"] }

/-! ## Theorems -/

/-! ### Memory -/

theorem readBytes_writeBytes_same (m : Mem) (p : Ptr) (bs : List Nat)
    (hp : validBuf m p bs.length) :
    readBytes (writeBytes m p bs) p bs.length = bs := by
  cases p with
  | null => exact absurd hp (by simp [validBuf])
  | block b o =>
    simp only [validBuf, Int.toNat_ofNat] at hp
    have ho : o ≤ (m b).length := by omega
    simp [readBytes, writeBytes, List.drop_append_eq_append_drop, List.length_take,
      Nat.min_eq_left ho]

theorem length_readBytes (m : Mem) (p : Ptr) (n : Int) (hp : validBuf m p n) :
    (readBytes m p n.toNat).length = n.toNat := by
  cases p with
  | null => exact absurd hp (by simp [validBuf])
  | block b o =>
    simp only [validBuf] at hp
    simp [readBytes]
    omega


/-! ### Lemmas on the two loops -/

theorem count_loop_eq (flag : Nat) (l : List (Nat × Codec)) (n : Nat) :
    count_loop flag l n = n + (selectedMasks flag l).length := by
  induction l generalizing n with
  | nil => simp [count_loop, selectedMasks]
  | cons e rest ih =>
    obtain ⟨mask, dec⟩ := e
    by_cases hm : flag &&& mask = 0
    · simp [count_loop, selectedMasks, hm, ih] at *
    · simp [count_loop, selectedMasks, hm, ih] at *
      omega

theorem codecMasks_append (a b : List Event) :
    codecMasks (a ++ b) = codecMasks a ++ codecMasks b := by
  induction a with
  | nil => rfl
  | cons e es ih => cases e <;> simp [codecMasks, ih]

theorem codecMasks_free_temp (p : Ptr) : codecMasks (free_temp p) = [] := by
  unfold free_temp
  split <;> rfl

theorem isCodec_free_temp (p : Ptr) : ∀ ev ∈ free_temp p, ev.isCodec = false := by
  intro ev hev
  unfold free_temp at hev
  split at hev
  · simp at hev; subst hev; rfl
  · simp at hev

theorem allSucceeded_append_of (a b : List Event) (ha : allSucceeded a)
    (hb : ∀ ev ∈ b, ev.isCodec = false) : allSucceeded (a ++ b) := by
  intro ev hmem
  rcases List.mem_append.mp hmem with h | h
  · exact ha _ h
  · have := hb _ h
    cases ev <;> simp_all [Event.isCodec, Event.succeeded]

/-- A failed call in a trace that ends with the only failed call is that last call. -/
theorem failed_call_unique (t f pre post : List Event) (x y : Event)
    (ht : allSucceeded t) (hf : ∀ ev ∈ f, ev.isCodec = false)
    (hx : ∃ mask ob os ib is tb, x = Event.codec mask ob os ib is tb ∧ tb < 0)
    (heq : pre ++ x :: post = t ++ y :: f) : x = y ∧ post = f := by
  obtain ⟨mask, ob, os, ib, is, tb, rfl, htb⟩ := hx
  rcases List.append_eq_append_iff.mp heq with ⟨a, rfl, h2⟩ | ⟨a, rfl, h2⟩
  · cases a with
    | nil =>
      simp at h2
      exact ⟨h2.1, h2.2⟩
    | cons z zs =>
      simp at h2
      have hmem : Event.codec mask ob os ib is tb ∈ pre ++ z :: zs := by
        rw [← h2.1]; simp
      have := ht _ hmem
      simp only [Event.succeeded, decide_eq_true_eq] at this
      omega
  · cases a with
    | nil =>
      simp at h2
      exact ⟨h2.1.symm, h2.2.symm⟩
    | cons z zs =>
      simp at h2
      have hmem : Event.codec mask ob os ib is tb ∈ f := by
        rw [h2.2]; simp
      have := hf _ hmem
      simp [Event.isCodec] at this

/-- The shape of the trace when the second loop is left: either some routine
failed, it is the last routine called, its value is returned and only the
`free` follows; or every routine called succeeded and the masks called are the
selected ones. -/
theorem apply_loop_trace (flag : Nat) (out_buf : Ptr) (out_size : Int) (temp_buf : Ptr)
    (l : List (Nat × Codec)) (s : LoopState) (hs : allSucceeded s.trace) :
    (∀ s1, apply_loop flag out_buf out_size temp_buf l s = Sum.inl s1 →
        ∃ t mask ob os ib is, allSucceeded t ∧ s1.tb < 0 ∧
          s1.trace = t ++ Event.codec mask ob os ib is s1.tb :: free_temp temp_buf) ∧
    (∀ s1, apply_loop flag out_buf out_size temp_buf l s = Sum.inr s1 →
        allSucceeded s1.trace ∧
        codecMasks s1.trace = codecMasks s.trace ++ selectedMasks flag l) := by
  induction l generalizing s with
  | nil =>
    refine ⟨fun s1 h => ?_, fun s1 h => ?_⟩
    · simp [apply_loop] at h
    · simp only [apply_loop, Sum.inr.injEq] at h
      subst h
      exact ⟨hs, by simp [selectedMasks]⟩
  | cons e rest ih =>
    obtain ⟨mask, dec⟩ := e
    by_cases hm : flag &&& mask = 0
    · have hstep : apply_loop flag out_buf out_size temp_buf ((mask, dec) :: rest) s
          = apply_loop flag out_buf out_size temp_buf rest s := by
        simp [apply_loop, hm]
      have hsel : selectedMasks flag ((mask, dec) :: rest) = selectedMasks flag rest := by
        simp [selectedMasks, hm]
      rw [hstep, hsel]
      exact ih s hs
    · have hsel : selectedMasks flag ((mask, dec) :: rest)
          = mask :: selectedMasks flag rest := by
        simp [selectedMasks, hm]
      by_cases hneg : (dec s.mem (if s.count = 0 then out_buf else temp_buf) out_size
          s.in_buf s.in_size).1 < 0
      · refine ⟨fun s1 h => ?_, fun s1 h => ?_⟩
        · simp only [apply_loop, ne_eq, hm, not_false_eq_true, if_true, hneg,
            Sum.inl.injEq] at h
          subst h
          exact ⟨s.trace, mask, _, _, _, _, hs, hneg, rfl⟩
        · simp [apply_loop, hm, hneg] at h
      · have hstep : ∃ s2, apply_loop flag out_buf out_size temp_buf ((mask, dec) :: rest) s
            = apply_loop flag out_buf out_size temp_buf rest s2 ∧
            s2.trace = s.trace ++ [Event.codec mask
              (if s.count = 0 then out_buf else temp_buf) out_size s.in_buf s.in_size
              (dec s.mem (if s.count = 0 then out_buf else temp_buf) out_size
                s.in_buf s.in_size).1] := by
          refine ⟨
              { mem := (dec s.mem (if s.count = 0 then out_buf else temp_buf) out_size
                  s.in_buf s.in_size).2,
                in_buf := if s.count = 0 then out_buf else temp_buf,
                in_size := out_size,
                work_buf := some (if s.count = 0 then out_buf else temp_buf),
                count := s.count + 1,
                tb := (dec s.mem (if s.count = 0 then out_buf else temp_buf) out_size
                  s.in_buf s.in_size).1,
                trace := s.trace ++ [Event.codec mask
                  (if s.count = 0 then out_buf else temp_buf) out_size s.in_buf s.in_size
                  (dec s.mem (if s.count = 0 then out_buf else temp_buf) out_size
                    s.in_buf s.in_size).1] }, ?_, rfl⟩
          simp [apply_loop, hm, hneg]
        obtain ⟨s2, hstep, htr⟩ := hstep
        have hs2 : allSucceeded s2.trace := by
          rw [htr]
          intro ev hmem
          rcases List.mem_append.mp hmem with h | h
          · exact hs _ h
          · simp only [List.mem_singleton] at h
            subst h
            simp only [Event.succeeded, decide_eq_true_eq]
            omega
        rw [hstep, hsel]
        have := ih s2 hs2
        refine ⟨this.1, fun s1 h => ?_⟩
        have h2 := this.2 s1 h
        refine ⟨h2.1, ?_⟩
        rw [h2.2, htr]
        simp [codecMasks_append, codecMasks]

theorem land_zero_of_land_mask (M mask full : Nat) (hsub : full &&& mask = mask)
    (h : M &&& full = 0) : M &&& mask = 0 := by
  rw [← hsub, ← Nat.and_assoc, h, Nat.zero_and]

/-! ### Claims on `libmpq__decompress_multi` -/

/-- C1: a call with `in_size == out_size` returns `out_size`, leaves in the first
`out_size` bytes of the output buffer the first `in_size` bytes the input buffer
held, and does nothing but at most one `memcpy`: no method byte is read and no
routine of `dcmp_table` is called. -/
theorem decompress_multi_stored (K : MpqH) (c : Codecs) (malloc : Ptr) (mem : Mem)
    (out_buf : Ptr) (out_size : Int) (in_buf : Ptr) (in_size : Int)
    (hsize : in_size = out_size)
    (hin : validBuf mem in_buf in_size) (hout : validBuf mem out_buf out_size) :
    (libmpq__decompress_multi K c malloc mem out_buf out_size in_buf in_size).ret = out_size ∧
    readBytes (libmpq__decompress_multi K c malloc mem out_buf out_size in_buf in_size).mem
        out_buf out_size.toNat = readBytes mem in_buf in_size.toNat ∧
    (libmpq__decompress_multi K c malloc mem out_buf out_size in_buf in_size).trace
      = (if in_buf = out_buf then [] else [Event.memcpy out_buf in_buf in_size]) := by
  subst hsize
  by_cases hp : in_buf = out_buf
  · subst hp
    simp [libmpq__decompress_multi]
  · have hlen := length_readBytes mem in_buf in_size hin
    have hv : validBuf mem out_buf ((readBytes mem in_buf in_size.toNat).length : Nat) := by
      rw [hlen]
      cases out_buf with
      | null => exact hout
      | block b o =>
        simp only [validBuf, Int.toNat_ofNat]
        exact hout
    have := readBytes_writeBytes_same mem out_buf (readBytes mem in_buf in_size.toNat) hv
    rw [hlen] at this
    simp [libmpq__decompress_multi, hp, memcpy, this]

/-- C1 at a concrete call: four stored bytes are copied from block 0 to block 1. -/
theorem decompress_multi_stored_witness :
    (libmpq__decompress_multi mpqh sampleCodecs Ptr.null (sampleMem 0x02)
        (Ptr.block 1 0) 4 (Ptr.block 0 0) 4).ret = 4 ∧
    readBytes (libmpq__decompress_multi mpqh sampleCodecs Ptr.null (sampleMem 0x02)
        (Ptr.block 1 0) 4 (Ptr.block 0 0) 4).mem (Ptr.block 1 0) (4 : Int).toNat
      = readBytes (sampleMem 0x02) (Ptr.block 0 0) (4 : Int).toNat ∧
    (libmpq__decompress_multi mpqh sampleCodecs Ptr.null (sampleMem 0x02)
        (Ptr.block 1 0) 4 (Ptr.block 0 0) 4).trace
      = (if Ptr.block 0 0 = Ptr.block 1 0 then []
         else [Event.memcpy (Ptr.block 1 0) (Ptr.block 0 0) 4]) :=
  decompress_multi_stored mpqh sampleCodecs Ptr.null (sampleMem 0x02)
    (Ptr.block 1 0) 4 (Ptr.block 0 0) 4 rfl (by decide) (by decide)

/-- C2: when the method byte selects exactly one entry of `dcmp_table`, no
`malloc` is made and the returned value and the memory left are those of that
entry's routine called with `(out_buf, out_size, in_buf + 1, in_size - 1)`. -/
theorem decompress_multi_single (K : MpqH) (c : Codecs) (malloc : Ptr) (mem : Mem)
    (out_buf : Ptr) (out_size : Int) (in_buf : Ptr) (in_size : Int)
    (mask : Nat) (dec : Codec)
    (hsize : in_size ≠ out_size)
    (hentry : (mask, dec) ∈ dcmp_table c)
    (hset : readByte mem in_buf &&& mask ≠ 0)
    (hothers : ∀ e ∈ dcmp_table c, e.1 ≠ mask → readByte mem in_buf &&& e.1 = 0) :
    (∀ ev ∈ (libmpq__decompress_multi K c malloc mem out_buf out_size in_buf in_size).trace,
        ev.isMalloc = false) ∧
    (libmpq__decompress_multi K c malloc mem out_buf out_size in_buf in_size).ret
      = (dec mem out_buf out_size (in_buf.add 1) (in_size - 1)).1 ∧
    (libmpq__decompress_multi K c malloc mem out_buf out_size in_buf in_size).mem
      = (dec mem out_buf out_size (in_buf.add 1) (in_size - 1)).2 := by
  simp only [dcmp_table, List.mem_cons, Prod.mk.injEq, List.mem_singleton, List.not_mem_nil,
    or_false] at hentry
  have h01 := hothers (0x01, c.libmpq__decompress_huffman) (by simp [dcmp_table])
  have h02 := hothers (0x02, c.libmpq__decompress_zlib) (by simp [dcmp_table])
  have h08 := hothers (0x08, c.libmpq__decompress_pkzip) (by simp [dcmp_table])
  have h10 := hothers (0x10, c.libmpq__decompress_bzip2) (by simp [dcmp_table])
  have h40 := hothers (0x40, c.libmpq__decompress_wave_mono) (by simp [dcmp_table])
  have h80 := hothers (0x80, c.libmpq__decompress_wave_stereo) (by simp [dcmp_table])
  simp only at h01 h02 h08 h10 h40 h80
  rcases hentry with ⟨rfl, rfl⟩ | ⟨rfl, rfl⟩ | ⟨rfl, rfl⟩ | ⟨rfl, rfl⟩ | ⟨rfl, rfl⟩ | ⟨rfl, rfl⟩
  · have a2 := h02 (by decide); have a3 := h08 (by decide); have a4 := h10 (by decide)
    have a5 := h40 (by decide); have a6 := h80 (by decide)
    by_cases hneg : (c.libmpq__decompress_huffman mem out_buf out_size (in_buf.add 1)
        (in_size - 1)).1 < 0 <;>
      simp [-Nat.and_one_is_mod, libmpq__decompress_multi, hsize, dcmp_table, count_loop, run_chain, apply_loop, finish_multi,
        free_temp, hset, a2, a3, a4, a5, a6, hneg, Event.isMalloc]
  · have a1 := h01 (by decide); have a3 := h08 (by decide); have a4 := h10 (by decide)
    have a5 := h40 (by decide); have a6 := h80 (by decide)
    by_cases hneg : (c.libmpq__decompress_zlib mem out_buf out_size (in_buf.add 1)
        (in_size - 1)).1 < 0 <;>
      simp [-Nat.and_one_is_mod, libmpq__decompress_multi, hsize, dcmp_table, count_loop, run_chain, apply_loop, finish_multi,
        free_temp, hset, a1, a3, a4, a5, a6, hneg, Event.isMalloc]
  · have a1 := h01 (by decide); have a2 := h02 (by decide); have a4 := h10 (by decide)
    have a5 := h40 (by decide); have a6 := h80 (by decide)
    by_cases hneg : (c.libmpq__decompress_pkzip mem out_buf out_size (in_buf.add 1)
        (in_size - 1)).1 < 0 <;>
      simp [-Nat.and_one_is_mod, libmpq__decompress_multi, hsize, dcmp_table, count_loop, run_chain, apply_loop, finish_multi,
        free_temp, hset, a1, a2, a4, a5, a6, hneg, Event.isMalloc]
  · have a1 := h01 (by decide); have a2 := h02 (by decide); have a3 := h08 (by decide)
    have a5 := h40 (by decide); have a6 := h80 (by decide)
    by_cases hneg : (c.libmpq__decompress_bzip2 mem out_buf out_size (in_buf.add 1)
        (in_size - 1)).1 < 0 <;>
      simp [-Nat.and_one_is_mod, libmpq__decompress_multi, hsize, dcmp_table, count_loop, run_chain, apply_loop, finish_multi,
        free_temp, hset, a1, a2, a3, a5, a6, hneg, Event.isMalloc]
  · have a1 := h01 (by decide); have a2 := h02 (by decide); have a3 := h08 (by decide)
    have a4 := h10 (by decide); have a6 := h80 (by decide)
    by_cases hneg : (c.libmpq__decompress_wave_mono mem out_buf out_size (in_buf.add 1)
        (in_size - 1)).1 < 0 <;>
      simp [-Nat.and_one_is_mod, libmpq__decompress_multi, hsize, dcmp_table, count_loop, run_chain, apply_loop, finish_multi,
        free_temp, hset, a1, a2, a3, a4, a6, hneg, Event.isMalloc]
  · have a1 := h01 (by decide); have a2 := h02 (by decide); have a3 := h08 (by decide)
    have a4 := h10 (by decide); have a5 := h40 (by decide)
    by_cases hneg : (c.libmpq__decompress_wave_stereo mem out_buf out_size (in_buf.add 1)
        (in_size - 1)).1 < 0 <;>
      simp [-Nat.and_one_is_mod, libmpq__decompress_multi, hsize, dcmp_table, count_loop, run_chain, apply_loop, finish_multi,
        free_temp, hset, a1, a2, a3, a4, a5, hneg, Event.isMalloc]

/-- C3: when the method byte meets none of the six masks (`M & 0xDB == 0`), the
call returns `LIBMPQ_FILE_ERROR_DECOMPRESS`, calls no routine and leaves the
memory, so the output buffer, as it was. -/
theorem decompress_multi_unknown_method (K : MpqH) (c : Codecs) (malloc : Ptr) (mem : Mem)
    (out_buf : Ptr) (out_size : Int) (in_buf : Ptr) (in_size : Int)
    (hsize : in_size ≠ out_size) (hM : readByte mem in_buf &&& 0xDB = 0) :
    (libmpq__decompress_multi K c malloc mem out_buf out_size in_buf in_size).ret
      = K.LIBMPQ_FILE_ERROR_DECOMPRESS ∧
    (∀ ev ∈ (libmpq__decompress_multi K c malloc mem out_buf out_size in_buf in_size).trace,
        ev.isCodec = false) ∧
    (libmpq__decompress_multi K c malloc mem out_buf out_size in_buf in_size).mem = mem := by
  have a1 := land_zero_of_land_mask _ 0x01 0xDB (by decide) hM
  have a2 := land_zero_of_land_mask _ 0x02 0xDB (by decide) hM
  have a3 := land_zero_of_land_mask _ 0x08 0xDB (by decide) hM
  have a4 := land_zero_of_land_mask _ 0x10 0xDB (by decide) hM
  have a5 := land_zero_of_land_mask _ 0x40 0xDB (by decide) hM
  have a6 := land_zero_of_land_mask _ 0x80 0xDB (by decide) hM
  simp [-Nat.and_one_is_mod, libmpq__decompress_multi, hsize, dcmp_table, count_loop, a1, a2, a3, a4, a5, a6,
    Event.isCodec]

/-- The shape of the trace of the second loop with its exits: either a routine
failed, it is the last one called and its value is returned; or all succeeded and
the routines called are the selected ones, in table order. -/
theorem run_chain_shape (c : Codecs) (flag : Nat) (out_buf : Ptr) (out_size : Int)
    (temp_buf : Ptr) (s0 : LoopState) (hs : allSucceeded s0.trace) :
    (∃ t f mask ob os ib is, allSucceeded t ∧ (∀ ev ∈ f, ev.isCodec = false) ∧
        (run_chain c flag out_buf out_size temp_buf s0).ret < 0 ∧
        (run_chain c flag out_buf out_size temp_buf s0).trace
          = t ++ Event.codec mask ob os ib is
              (run_chain c flag out_buf out_size temp_buf s0).ret :: f) ∨
    (allSucceeded (run_chain c flag out_buf out_size temp_buf s0).trace ∧
      codecMasks (run_chain c flag out_buf out_size temp_buf s0).trace
        = codecMasks s0.trace ++ selectedMasks flag (dcmp_table c)) := by
  have hloop := apply_loop_trace flag out_buf out_size temp_buf (dcmp_table c) s0 hs
  unfold run_chain
  cases happ : apply_loop flag out_buf out_size temp_buf (dcmp_table c) s0 with
  | inl s1 =>
    left
    obtain ⟨t, mask, ob, os, ib, is, ht, hneg, htr⟩ := hloop.1 s1 happ
    exact ⟨t, free_temp temp_buf, mask, ob, os, ib, is, ht, isCodec_free_temp temp_buf,
      hneg, htr⟩
  | inr s1 =>
    right
    obtain ⟨hall, hmasks⟩ := hloop.2 s1 happ
    have hfree := isCodec_free_temp temp_buf
    have hcopy : ∀ ev ∈ Event.memcpy out_buf s1.in_buf out_size :: free_temp temp_buf,
        ev.isCodec = false := by
      intro ev hev
      rcases List.mem_cons.mp hev with h | h
      · subst h; rfl
      · exact hfree _ h
    simp only [finish_multi]
    split
    · exact ⟨allSucceeded_append_of _ _ hall hfree,
        by simp [codecMasks_append, codecMasks_free_temp, hmasks]⟩
    · split
      · exact ⟨allSucceeded_append_of _ _ hall hcopy,
          by simp [codecMasks_append, codecMasks, codecMasks_free_temp, hmasks]⟩
      · exact ⟨allSucceeded_append_of _ _ hall hfree,
          by simp [codecMasks_append, codecMasks_free_temp, hmasks]⟩

/-- The shape of the trace of `libmpq__decompress_multi`. -/
theorem decompress_multi_shape (K : MpqH) (c : Codecs) (malloc : Ptr) (mem : Mem)
    (out_buf : Ptr) (out_size : Int) (in_buf : Ptr) (in_size : Int) :
    (∃ t f mask ob os ib is, allSucceeded t ∧ (∀ ev ∈ f, ev.isCodec = false) ∧
        (libmpq__decompress_multi K c malloc mem out_buf out_size in_buf in_size).ret < 0 ∧
        (libmpq__decompress_multi K c malloc mem out_buf out_size in_buf in_size).trace
          = t ++ Event.codec mask ob os ib is
              (libmpq__decompress_multi K c malloc mem out_buf out_size in_buf in_size).ret
              :: f) ∨
    (allSucceeded (libmpq__decompress_multi K c malloc mem out_buf out_size in_buf in_size).trace ∧
      (in_size ≠ out_size →
        Event.malloc out_size Ptr.null ∉
          (libmpq__decompress_multi K c malloc mem out_buf out_size in_buf in_size).trace →
        codecMasks (libmpq__decompress_multi K c malloc mem out_buf out_size in_buf in_size).trace
          = selectedMasks (readByte mem in_buf) (dcmp_table c))) := by
  by_cases hsize : in_size = out_size
  · right
    refine ⟨?_, fun h => absurd hsize h⟩
    by_cases hp : in_buf = out_buf <;>
      simp [libmpq__decompress_multi, hsize, hp, allSucceeded, Event.succeeded]
  · have hcount := count_loop_eq (readByte mem in_buf) (dcmp_table c) 0
    by_cases h0 : count_loop (readByte mem in_buf) (dcmp_table c) 0 = 0
    · right
      have hsel : selectedMasks (readByte mem in_buf) (dcmp_table c) = [] := by
        apply List.eq_nil_of_length_eq_zero
        omega
      simp [libmpq__decompress_multi, hsize, h0, allSucceeded, Event.succeeded, codecMasks, hsel]
    · by_cases h1 : 1 < count_loop (readByte mem in_buf) (dcmp_table c) 0
      · by_cases hm : malloc = Ptr.null
        · right
          simp [libmpq__decompress_multi, hsize, h0, h1, hm, allSucceeded, Event.succeeded]
        · have hs0 : allSucceeded [Event.method in_buf (readByte mem in_buf),
              Event.malloc out_size malloc] := by
            simp [allSucceeded, Event.succeeded]
          have := run_chain_shape c (readByte mem in_buf) out_buf out_size malloc
            { mem := memset_zero mem malloc out_size, in_buf := in_buf.add 1,
              in_size := in_size - 1, work_buf := none, count := 0, tb := 0,
              trace := [Event.method in_buf (readByte mem in_buf),
                Event.malloc out_size malloc] } hs0
          simp only [libmpq__decompress_multi, hsize, h0, h1, hm, if_false, if_true,
            List.singleton_append]
          rcases this with h | h
          · left; exact h
          · right
            exact ⟨h.1, fun _ _ => by simpa [codecMasks] using h.2⟩
      · have hs0 : allSucceeded [Event.method in_buf (readByte mem in_buf)] := by
          simp [allSucceeded, Event.succeeded]
        have := run_chain_shape c (readByte mem in_buf) out_buf out_size Ptr.null
          { mem := mem, in_buf := in_buf.add 1,
            in_size := in_size - 1, work_buf := none, count := 0, tb := 0,
            trace := [Event.method in_buf (readByte mem in_buf)] } hs0
        simp only [libmpq__decompress_multi, hsize, h0, h1, if_false]
        rcases this with h | h
        · left; exact h
        · right
          exact ⟨h.1, fun _ _ => by simpa [codecMasks] using h.2⟩

/-- C4: if a routine called by `libmpq__decompress_multi` returned a negative
value `e`, the function returns exactly `e`, and no routine is called after that
one. -/
theorem decompress_multi_error_propagates (K : MpqH) (c : Codecs) (malloc : Ptr) (mem : Mem)
    (out_buf : Ptr) (out_size : Int) (in_buf : Ptr) (in_size : Int)
    (pre post : List Event) (mask : Nat) (ob : Ptr) (os : Int) (ib : Ptr) (is e : Int)
    (hneg : e < 0)
    (htrace : (libmpq__decompress_multi K c malloc mem out_buf out_size in_buf in_size).trace
      = pre ++ Event.codec mask ob os ib is e :: post) :
    (libmpq__decompress_multi K c malloc mem out_buf out_size in_buf in_size).ret = e ∧
    ∀ ev ∈ post, ev.isCodec = false := by
  rcases decompress_multi_shape K c malloc mem out_buf out_size in_buf in_size with
    ⟨t, f, m2, ob2, os2, ib2, is2, ht, hf, _, htr⟩ | ⟨hall, _⟩
  · rw [htrace] at htr
    have := failed_call_unique t f pre post _ _ ht hf ⟨_, _, _, _, _, _, rfl, hneg⟩ htr
    obtain ⟨hev, hpost⟩ := this
    simp only [Event.codec.injEq] at hev
    refine ⟨hev.2.2.2.2.2.symm, ?_⟩
    rw [hpost]
    exact hf
  · have hmem : Event.codec mask ob os ib is e ∈
        (libmpq__decompress_multi K c malloc mem out_buf out_size in_buf in_size).trace := by
      rw [htrace]; simp
    have := hall _ hmem
    simp only [Event.succeeded, decide_eq_true_eq] at this
    omega

/-- C5, as amended: if no allocation of the temporary buffer failed and every
routine called succeeded, the routines called are exactly the entries of
`dcmp_table` whose mask meets the method byte, each once, in table order
`0x01, 0x02, 0x08, 0x10, 0x40, 0x80`. -/
theorem decompress_multi_order (K : MpqH) (c : Codecs) (malloc : Ptr) (mem : Mem)
    (out_buf : Ptr) (out_size : Int) (in_buf : Ptr) (in_size : Int)
    (hsize : in_size ≠ out_size)
    (halloc : Event.malloc out_size Ptr.null ∉
      (libmpq__decompress_multi K c malloc mem out_buf out_size in_buf in_size).trace)
    (hall : allSucceeded
      (libmpq__decompress_multi K c malloc mem out_buf out_size in_buf in_size).trace) :
    codecMasks (libmpq__decompress_multi K c malloc mem out_buf out_size in_buf in_size).trace
      = [0x01, 0x02, 0x08, 0x10, 0x40, 0x80].filter
          (fun mask => readByte mem in_buf &&& mask ≠ 0) := by
  rcases decompress_multi_shape K c malloc mem out_buf out_size in_buf in_size with
    ⟨t, f, m2, ob2, os2, ib2, is2, _, _, hneg, htr⟩ | ⟨_, h⟩
  · have hmem : Event.codec m2 ob2 os2 ib2 is2
        (libmpq__decompress_multi K c malloc mem out_buf out_size in_buf in_size).ret ∈
        (libmpq__decompress_multi K c malloc mem out_buf out_size in_buf in_size).trace := by
      rw [htr]; simp
    have := hall _ hmem
    simp only [Event.succeeded, decide_eq_true_eq] at this
    omega
  · rw [h hsize halloc]
    rfl

/-- C2 at a concrete call: method byte `0x02` runs the zlib slot alone. -/
theorem decompress_multi_single_witness :
    (4 : Int) ≠ 8 ∧
    (∀ ev ∈ (libmpq__decompress_multi mpqh sampleCodecs Ptr.null (sampleMem 0x02)
        (Ptr.block 1 0) 8 (Ptr.block 0 0) 4).trace, ev.isMalloc = false) ∧
    (libmpq__decompress_multi mpqh sampleCodecs Ptr.null (sampleMem 0x02)
        (Ptr.block 1 0) 8 (Ptr.block 0 0) 4).ret
      = (copyCodec (sampleMem 0x02) (Ptr.block 1 0) 8 ((Ptr.block 0 0).add 1) (4 - 1)).1 ∧
    (libmpq__decompress_multi mpqh sampleCodecs Ptr.null (sampleMem 0x02)
        (Ptr.block 1 0) 8 (Ptr.block 0 0) 4).mem
      = (copyCodec (sampleMem 0x02) (Ptr.block 1 0) 8 ((Ptr.block 0 0).add 1) (4 - 1)).2 :=
  ⟨by decide,
   decompress_multi_single mpqh sampleCodecs Ptr.null (sampleMem 0x02)
    (Ptr.block 1 0) 8 (Ptr.block 0 0) 4 0x02 copyCodec (by decide)
    (by simp [dcmp_table, sampleCodecs]) (by decide)
    (by
      intro e he
      simp only [dcmp_table, List.mem_cons, List.mem_singleton, List.not_mem_nil, or_false] at he
      rcases he with rfl | rfl | rfl | rfl | rfl | rfl <;> decide)⟩

/-- C3 at a concrete call: method byte `0x24` has only undefined bits. -/
theorem decompress_multi_unknown_method_witness :
    (4 : Int) ≠ 8 ∧ readByte (sampleMem 0x24) (Ptr.block 0 0) &&& 0xDB = 0 ∧
    (libmpq__decompress_multi mpqh sampleCodecs Ptr.null (sampleMem 0x24)
        (Ptr.block 1 0) 8 (Ptr.block 0 0) 4).ret = -7 ∧
    (∀ ev ∈ (libmpq__decompress_multi mpqh sampleCodecs Ptr.null (sampleMem 0x24)
        (Ptr.block 1 0) 8 (Ptr.block 0 0) 4).trace, ev.isCodec = false) ∧
    (libmpq__decompress_multi mpqh sampleCodecs Ptr.null (sampleMem 0x24)
        (Ptr.block 1 0) 8 (Ptr.block 0 0) 4).mem = sampleMem 0x24 :=
  ⟨by decide, by decide,
   decompress_multi_unknown_method mpqh sampleCodecs Ptr.null (sampleMem 0x24)
    (Ptr.block 1 0) 8 (Ptr.block 0 0) 4 (by decide) (by decide)⟩

/-- C4 at a concrete call: method byte `0x12` runs zlib, then bzip2, which fails
with `-7`; that value is returned and only the `free` follows. -/
theorem decompress_multi_error_propagates_witness :
    (libmpq__decompress_multi mpqh sampleCodecs (Ptr.block 2 0) (sampleMem 0x12)
        (Ptr.block 1 0) 8 (Ptr.block 0 0) 4).ret = -7 ∧
    ∀ ev ∈ [Event.free (Ptr.block 2 0)], ev.isCodec = false :=
  decompress_multi_error_propagates mpqh sampleCodecs (Ptr.block 2 0) (sampleMem 0x12)
    (Ptr.block 1 0) 8 (Ptr.block 0 0) 4
    [Event.method (Ptr.block 0 0) 0x12, Event.malloc 8 (Ptr.block 2 0),
      Event.codec 0x02 (Ptr.block 1 0) 8 (Ptr.block 0 1) 3 3]
    [Event.free (Ptr.block 2 0)] 0x10 (Ptr.block 2 0) 8 (Ptr.block 1 0) 8 (-7)
    (by decide) (by decide)

/-- C5 as stated fails: with method byte `0x03` and a failing `malloc`, no routine
fails (none is called), yet the routines called are not the two selected ones. -/
theorem decompress_multi_order_counterexample :
    (4 : Int) ≠ 8 ∧
    allSucceeded (libmpq__decompress_multi mpqh sampleCodecs Ptr.null (sampleMem 0x03)
        (Ptr.block 1 0) 8 (Ptr.block 0 0) 4).trace ∧
    (libmpq__decompress_multi mpqh sampleCodecs Ptr.null (sampleMem 0x03)
        (Ptr.block 1 0) 8 (Ptr.block 0 0) 4).ret = mpqh.LIBMPQ_ARCHIVE_ERROR_MALLOC ∧
    codecMasks (libmpq__decompress_multi mpqh sampleCodecs Ptr.null (sampleMem 0x03)
        (Ptr.block 1 0) 8 (Ptr.block 0 0) 4).trace = [] ∧
    [0x01, 0x02, 0x08, 0x10, 0x40, 0x80].filter
        (fun mask => readByte (sampleMem 0x03) (Ptr.block 0 0) &&& mask ≠ 0) = [0x01, 0x02] := by
  decide

/-- C5 (amended) at a concrete call: method byte `0x03` with a successful `malloc`
runs Huffman, then zlib. -/
theorem decompress_multi_order_witness :
    (4 : Int) ≠ 8 ∧
    codecMasks (libmpq__decompress_multi mpqh sampleCodecs (Ptr.block 2 0) (sampleMem 0x03)
        (Ptr.block 1 0) 8 (Ptr.block 0 0) 4).trace
      = [0x01, 0x02, 0x08, 0x10, 0x40, 0x80].filter
          (fun mask => readByte (sampleMem 0x03) (Ptr.block 0 0) &&& mask ≠ 0) :=
  ⟨by decide,
   decompress_multi_order mpqh sampleCodecs (Ptr.block 2 0) (sampleMem 0x03)
    (Ptr.block 1 0) 8 (Ptr.block 0 0) 4 (by decide) (by decide) (by decide)⟩

/-! ### The header scan of `libmpq__archive_open` -/

/-- The test of the code on the header after the special case for protected
archives is the validity of the header fields as read. -/
theorem header_accepted_iff (K : MpqH) (flags : Nat) (h : mpq_header)
    (hid : K.LIBMPQ_MPQ_HEADER_ID = 0x1A51504D) :
    header_accepted K (protect_fixup K flags h).2 = true ↔ header_fields_valid K h := by
  unfold protect_fixup header_fields_valid header_accepted header_size
  by_cases hw : h.offset = K.LIBMPQ_MPQ_HEADER_W3M
  · simp [hw, hid, and_assoc]
  · simp only [hw, if_false, hid, Bool.and_eq_true, decide_eq_true_eq]
    constructor
    · rintro ⟨⟨⟨h1, h2⟩, h3⟩, h4⟩
      exact ⟨h1, Or.inl h2, h3, h4⟩
    · rintro ⟨h1, h2 | h2, h3, h4⟩
      · exact ⟨⟨⟨h1, h2⟩, h3⟩, h4⟩
      · exact h2.elim

/-- The state in which the scan is left with a header found: its position is a
multiple of `0x200`, the header there is valid, and all smaller multiples of
`0x200` hold full but invalid headers, provided this held of the start. -/
theorem header_scan_found_inv (K : MpqH) (f : HostFile)
    (hid : K.LIBMPQ_MPQ_HEADER_ID = 0x1A51504D) :
    ∀ (fuel : Nat) (a a1 : mpq_archive), a.mpqpos % 0x200 = 0 →
      (∀ p, p % 0x200 = 0 → p < a.mpqpos → invalid_header_at K f p) →
      header_scan K f fuel a = some (ScanResult.found a1) →
      a1.mpqpos % 0x200 = 0 ∧ valid_header_at K f a1.mpqpos ∧
        ∀ p, p % 0x200 = 0 → p < a1.mpqpos → invalid_header_at K f p := by
  intro fuel
  induction fuel with
  | zero => intro a a1 _ _ h; simp [header_scan] at h
  | succ n ih =>
    intro a a1 hmul hprev hscan
    unfold header_scan scan_step at hscan
    cases hread : read_header f a.mpqpos with
    | none => simp [hread] at hscan
    | some h =>
      simp only [hread] at hscan
      by_cases hacc : header_accepted K (protect_fixup K a.flags h).2 = true
      · simp only [hacc, if_true, Option.some.injEq, ScanResult.found.injEq] at hscan
        subst hscan
        refine ⟨hmul, ?_, hprev⟩
        simp only [valid_header_at, hread]
        exact (header_accepted_iff K a.flags h hid).mp hacc
      · simp only [hacc] at hscan
        have hinv : invalid_header_at K f a.mpqpos := by
          simp only [invalid_header_at, hread]
          exact fun hv => hacc ((header_accepted_iff K a.flags h hid).mpr hv)
        refine ih _ a1 ?_ ?_ hscan
        · simp only [U32]; omega
        · intro p hp hlt
          simp only [U32] at hlt
          by_cases hpa : p < a.mpqpos
          · exact hprev p hp hpa
          · have : p = a.mpqpos := by omega
            subst this
            exact hinv

/-- The part of the function after the scan leaves `mpqpos` alone. -/
theorem open_tables_mpqpos (K : MpqH) (env : OpenEnv) (f : HostFile) (a : mpq_archive) :
    (open_tables K env f a).2.mpqpos = a.mpqpos := by
  unfold open_tables
  simp only
  split
  · split
    · rfl
    · split
      · rfl
      · split
        · rfl
        · split <;> rfl
  · rfl

theorem le16_zero (f : HostFile) (p : Nat) (h : ∀ q, q < p + 2 → f.byte q = 0) :
    le16 f p = 0 := by
  simp [le16, h p (by omega), h (p + 1) (by omega)]

theorem le32_zero (f : HostFile) (p : Nat) (h : ∀ q, q < p + 4 → f.byte q = 0) :
    le32 f p = 0 := by
  simp [le32, h p (by omega), h (p + 1) (by omega), h (p + 2) (by omega), h (p + 3) (by omega)]

/-- A scan that starts on a block of 32 zero bytes moves on by `0x200`. -/
theorem header_scan_skip_zero (K : MpqH) (f : HostFile) (fuel : Nat) (a : mpq_archive)
    (hid : K.LIBMPQ_MPQ_HEADER_ID = 0x1A51504D)
    (hsz : a.mpqpos + 32 ≤ f.size) (hzero : ∀ p, p < a.mpqpos + 32 → f.byte p = 0) :
    ∃ a1, header_scan K f (fuel + 1) a = header_scan K f fuel a1 ∧
      a1.mpqpos = (a.mpqpos + 0x200) % U32 := by
  have hread : read_header f a.mpqpos = some ⟨0, 0, 0, 0, 0, 0, 0, 0, 0⟩ := by
    simp only [read_header, header_size, hsz, if_true]
    rw [le32_zero f _ (fun q hq => hzero q (by omega)),
      le32_zero f _ (fun q hq => hzero q (by omega)),
      le32_zero f _ (fun q hq => hzero q (by omega)),
      le16_zero f _ (fun q hq => hzero q (by omega)),
      le16_zero f _ (fun q hq => hzero q (by omega)),
      le32_zero f _ (fun q hq => hzero q (by omega)),
      le32_zero f _ (fun q hq => hzero q (by omega)),
      le32_zero f _ (fun q hq => hzero q (by omega)),
      le32_zero f _ (fun q hq => hzero q (by omega))]
  have hrej : header_accepted K (protect_fixup K a.flags ⟨0, 0, 0, 0, 0, 0, 0, 0, 0⟩).2
      = false := by
    rw [Bool.eq_false_iff]
    intro hacc
    have := (header_accepted_iff K a.flags _ hid).mp hacc
    simp [header_fields_valid] at this
  refine ⟨{ a with flags := (protect_fixup K a.flags ⟨0, 0, 0, 0, 0, 0, 0, 0, 0⟩).1,
                    header := (protect_fixup K a.flags ⟨0, 0, 0, 0, 0, 0, 0, 0, 0⟩).2,
                    mpqpos := (a.mpqpos + 0x200) % U32 }, ?_, rfl⟩
  simp [header_scan, scan_step, hread, hrej]

/-- With `0x600` zero bytes in front of a valid header, a scan from offset 0 finds
the header at `0x600` in its fourth pass. -/
theorem header_scan_after_zeros (K : MpqH) (f : HostFile) (a : mpq_archive)
    (hid : K.LIBMPQ_MPQ_HEADER_ID = 0x1A51504D) (h0 : a.mpqpos = 0)
    (hzero : ∀ p, p < 0x600 → f.byte p = 0) (hvalid : valid_header_at K f 0x600) :
    ∃ a1, header_scan K f 4 a = some (ScanResult.found a1) ∧ a1.mpqpos = 0x600 := by
  cases hread : read_header f 0x600 with
  | none => simp [valid_header_at, hread] at hvalid
  | some h =>
    have hsz : 0x600 + 32 ≤ f.size := by
      unfold read_header header_size at hread
      by_contra hc
      simp [hc] at hread
    simp only [valid_header_at, hread] at hvalid
    obtain ⟨a1, e1, p1⟩ := header_scan_skip_zero K f 3 a hid (by omega)
      (fun p hp => hzero p (by omega))
    rw [h0] at p1
    simp only [U32] at p1
    norm_num at p1
    obtain ⟨a2, e2, p2⟩ := header_scan_skip_zero K f 2 a1 hid (by omega)
      (fun p hp => hzero p (by omega))
    rw [p1] at p2
    simp only [U32] at p2
    norm_num at p2
    obtain ⟨a3, e3, p3⟩ := header_scan_skip_zero K f 1 a2 hid (by omega)
      (fun p hp => hzero p (by omega))
    rw [p2] at p3
    simp only [U32] at p3
    norm_num at p3
    have hacc := (header_accepted_iff K a3.flags h hid).mpr hvalid
    refine ⟨{ a3 with flags := (protect_fixup K a3.flags h).1,
                      header := (protect_fixup K a3.flags h).2 }, ?_, p3⟩
    rw [e1, e2, e3]
    simp [header_scan, scan_step, p3, hread, hacc]

/-- C6: on a handle whose `mpqpos` is 0 on entry, a header scan that is left with a
header found leaves `mpqpos` at a multiple of `0x200` where the 32 bytes read
form a valid header, every smaller multiple of `0x200` holding a full 32-byte
header that is not valid; and a valid header behind `0x600` zero bytes is found
with `mpqpos == 0x600`, which is also the `mpqpos` of the handle when
`libmpq__archive_open` returns. -/
theorem archive_open_origin (K : MpqH) (f : HostFile) (a : mpq_archive)
    (hid : K.LIBMPQ_MPQ_HEADER_ID = 0x1A51504D) (h0 : a.mpqpos = 0) :
    (∀ fuel a1, header_scan K f fuel a = some (ScanResult.found a1) →
      a1.mpqpos % 0x200 = 0 ∧ valid_header_at K f a1.mpqpos ∧
        ∀ p, p % 0x200 = 0 → p < a1.mpqpos → invalid_header_at K f p) ∧
    ((∀ p, p < 0x600 → f.byte p = 0) → valid_header_at K f 0x600 →
      (∃ a1, header_scan K f 4 a = some (ScanResult.found a1) ∧ a1.mpqpos = 0x600) ∧
      ∀ env : OpenEnv, env.malloc_header = true → env.host = some f →
        ∃ r, libmpq__archive_open K env 4 a = some r ∧ r.2.mpqpos = 0x600) := by
  refine ⟨fun fuel a1 hscan => ?_, fun hzero hvalid => ⟨?_, fun env hm hh => ?_⟩⟩
  · exact header_scan_found_inv K f hid fuel a a1 (by rw [h0]) (fun p _ hp => by omega) hscan
  · exact header_scan_after_zeros K f a hid h0 hzero hvalid
  · obtain ⟨a1, hscan, hpos⟩ := header_scan_after_zeros K f
      { a with header := { (default : mpq_header) with id := 0 }, maxblockindex := 0 }
      hid h0 hzero hvalid
    refine ⟨open_tables K env f a1, ?_, ?_⟩
    · simp [libmpq__archive_open, hm, hh, hscan]
    · rw [open_tables_mpqpos, hpos]

/-- C6 on the host file of the second scenario of the specification. -/
theorem archive_open_origin_witness :
    (∃ a1, header_scan mpqh scenarioHost 4 default = some (ScanResult.found a1) ∧
      a1.mpqpos = 0x600) ∧
    ∀ env : OpenEnv, env.malloc_header = true → env.host = some scenarioHost →
      ∃ r, libmpq__archive_open mpqh env 4 default = some r ∧ r.2.mpqpos = 0x600 :=
  (archive_open_origin mpqh scenarioHost default rfl rfl).2
    (fun p hp => by simp [scenarioHost, hp]) (by decide)

/-- The header scan on a file without valid header at a multiple of `0x200`
returns `LIBMPQ_ARCHIVE_ERROR_FORMAT` as long as the file is shorter than
`0xFFFFFE20` bytes. -/
theorem header_scan_format_error (K : MpqH) (f : HostFile)
    (hid : K.LIBMPQ_MPQ_HEADER_ID = 0x1A51504D) (hsize : f.size < 0xFFFFFE20)
    (hnone : ∀ p, p % 0x200 = 0 → ¬ valid_header_at K f p) :
    ∀ (n : Nat) (a : mpq_archive), a.mpqpos % 0x200 = 0 → a.mpqpos ≤ 0xFFFFFE00 →
      f.size < a.mpqpos + 32 + 0x200 * n →
      ∃ a1, header_scan K f (n + 1) a
        = some (ScanResult.error K.LIBMPQ_ARCHIVE_ERROR_FORMAT a1) := by
  intro n
  induction n with
  | zero =>
    intro a _ _ hlt
    refine ⟨a, ?_⟩
    have : read_header f a.mpqpos = none := by
      simp only [read_header, header_size]
      rw [if_neg (by omega)]
    simp [header_scan, scan_step, this]
  | succ n ih =>
    intro a hmul hle hlt
    cases hread : read_header f a.mpqpos with
    | none => exact ⟨a, by simp [header_scan, scan_step, hread]⟩
    | some h =>
      have hsz : a.mpqpos + 32 ≤ f.size := by
        unfold read_header header_size at hread
        by_contra hc
        simp [hc] at hread
      have hrej : header_accepted K (protect_fixup K a.flags h).2 = false := by
        rw [Bool.eq_false_iff]
        intro hacc
        have hv := (header_accepted_iff K a.flags h hid).mp hacc
        exact hnone a.mpqpos hmul (by simpa [valid_header_at, hread] using hv)
      have hnext : (a.mpqpos + 0x200) % U32 = a.mpqpos + 0x200 := by
        simp only [U32]; omega
      obtain ⟨a1, h1⟩ := ih
        { a with flags := (protect_fixup K a.flags h).1,
                 header := (protect_fixup K a.flags h).2,
                 mpqpos := (a.mpqpos + 0x200) % U32 }
        (by simp only [hnext]; omega) (by simp only [hnext]; omega)
        (by simp only [hnext]; omega)
      refine ⟨a1, ?_⟩
      rw [← h1]
      conv_lhs => unfold header_scan scan_step
      simp only [hread, hrej]
      rfl

/-- C7 fails on the code: on a host file of `0xFFFFFFFF` zero bytes, which is
shorter than `2 ^ 32` and holds no valid header anywhere, the header scan is
still running after any number of passes, so `libmpq__archive_open` never
returns. -/
theorem archive_open_scan_wraps :
    (zeroHost 0xFFFFFFFF).size < 2 ^ 32 ∧
    (∀ p, ¬ valid_header_at mpqh (zeroHost 0xFFFFFFFF) p) ∧
    (∀ fuel, header_scan mpqh (zeroHost 0xFFFFFFFF) fuel default = none) ∧
    (∀ (env : OpenEnv) (fuel : Nat), env.malloc_header = true →
      env.host = some (zeroHost 0xFFFFFFFF) →
      libmpq__archive_open mpqh env fuel default = none) := by
  have hloop : ∀ (fuel : Nat) (a : mpq_archive), a.mpqpos % 0x200 = 0 → a.mpqpos < 2 ^ 32 →
      header_scan mpqh (zeroHost 0xFFFFFFFF) fuel a = none := by
    intro fuel
    induction fuel with
    | zero => intro a _ _; rfl
    | succ n ih =>
      intro a hmul hlt
      obtain ⟨a1, e1, p1⟩ := header_scan_skip_zero mpqh (zeroHost 0xFFFFFFFF) n a rfl
        (by simp only [zeroHost]; omega) (fun _ _ => rfl)
      rw [e1]
      apply ih
      · rw [p1]; simp only [U32]; omega
      · rw [p1]; simp only [U32]; omega
  refine ⟨by decide, ?_, fun fuel => hloop fuel default rfl (by decide), ?_⟩
  · intro p hv
    unfold valid_header_at at hv
    split at hv
    · exact hv
    · next h hread =>
      simp only [read_header, zeroHost, le32, le16] at hread
      split at hread
      · simp only [Option.some.injEq] at hread
        subst hread
        simp [header_fields_valid] at hv
      · simp at hread
  · intro env fuel hm hh
    have := hloop fuel
      { (default : mpq_archive) with header := { (default : mpq_header) with id := 0 },
                                     maxblockindex := 0 } rfl (by decide)
    simp [libmpq__archive_open, hm, hh, this]

/-! ### The file resolver -/

/-- C8: for an index that is 0 or above `blocktablesize`, `libmpq__file_info` and
`libmpq__file_extract` return `LIBMPQ_FILE_ERROR_RANGE`, and `libmpq__file_extract`
has no effect before it: no output file is created, no table is consulted. -/
theorem file_range_check (K : MpqH) (a : mpq_archive) (infotype number : Nat)
    (env : ExtractEnv) (fuel : Nat)
    (hrange : number = 0 ∨ number > a.header.blocktablesize) :
    libmpq__file_info K a infotype number = K.LIBMPQ_FILE_ERROR_RANGE ∧
    libmpq__file_extract K env a number fuel
      = some (ExtractOutcome.returned ⟨K.LIBMPQ_FILE_ERROR_RANGE, []⟩) := by
  have hcond : number < 1 ∨ number > a.header.blocktablesize := by omega
  constructor
  · simp only [libmpq__file_info, hcond, if_true]
  · simp only [libmpq__file_extract, hcond, if_true]

/-- C8 on the sample archive, for the indices 0 and `block_count + 1`. -/
theorem file_range_check_witness :
    (libmpq__file_info mpqh sampleArchive 1 0 = mpqh.LIBMPQ_FILE_ERROR_RANGE ∧
      libmpq__file_extract mpqh failingReadEnv sampleArchive 0 0
        = some (ExtractOutcome.returned ⟨mpqh.LIBMPQ_FILE_ERROR_RANGE, []⟩)) ∧
    (libmpq__file_info mpqh sampleArchive 1 2 = mpqh.LIBMPQ_FILE_ERROR_RANGE ∧
      libmpq__file_extract mpqh failingReadEnv sampleArchive 2 0
        = some (ExtractOutcome.returned ⟨mpqh.LIBMPQ_FILE_ERROR_RANGE, []⟩)) :=
  ⟨file_range_check mpqh sampleArchive 1 0 failingReadEnv 0 (Or.inl rfl),
   file_range_check mpqh sampleArchive 1 2 failingReadEnv 0 (Or.inr (by decide))⟩

theorem toInt32_small (n : Nat) (h : n < 2 ^ 31) : toInt32 n = (n : Int) := by
  unfold toInt32 U32
  have : n % 2 ^ 32 = n := Nat.mod_eq_of_lt (by omega)
  rw [this, if_pos h]

theorem toU32_small (n : Nat) (h : n < 2 ^ 32) : toU32 (n : Int) = n := by
  unfold toU32 U32
  have : ((n : Int) % ((2 ^ 32 : Nat) : Int)) = (n : Int) := by
    apply Int.emod_eq_of_lt
    · omega
    · push_cast; omega
  rw [this]
  simp

/-- The local `blockindex` when no hash entry carries `number - 1`. -/
theorem found_blockindex_none (a : mpq_archive) (number : Nat)
    (h : ∀ i, i < a.header.hashtablesize →
      (a.hashtable.getD i default).blockindex ≠ number - 1) :
    found_blockindex a number = -1 := by
  have : hash_search a number = none := by
    unfold hash_search
    rw [List.find?_eq_none]
    intro i hi
    have := h i (List.mem_range.mp hi)
    simp only [decide_eq_true_eq]
    exact fun heq => this heq.symm
  simp [found_blockindex, this]

/-- The local `blockindex` when some hash entry carries `number - 1`. -/
theorem found_blockindex_some (a : mpq_archive) (number : Nat) (hint : number ≤ 2 ^ 31)
    (hlo : 1 ≤ number)
    (h : ∃ i, i < a.header.hashtablesize ∧
      (a.hashtable.getD i default).blockindex = number - 1) :
    found_blockindex a number = ((number - 1 : Nat) : Int) := by
  obtain ⟨i, hi, heq⟩ := h
  cases hs : hash_search a number with
  | none =>
    unfold hash_search at hs
    rw [List.find?_eq_none] at hs
    have := hs i (List.mem_range.mpr hi)
    simp only [decide_eq_true_eq] at this
    exact absurd heq.symm this
  | some j =>
    have hj := List.find?_some (by unfold hash_search at hs; exact hs)
    simp only [decide_eq_true_eq] at hj
    simp only [found_blockindex, hs, ← hj]
    exact toInt32_small _ (by omega)

/-- The exits of `libmpq__file_info` with the bound of the size check as the code
computes it: for an in-range index `number` (that fits the C `int` holding
the block index), `libmpq__file_info` returns `LIBMPQ_FILE_ERROR_EXIST` if no hash
entry has `blockindex == number - 1`; otherwise, with `b = blocktable[number - 1]`,
it returns `LIBMPQ_FILE_ERROR_CORRUPT` if `b.filepos` exceeds the 32-bit sum
`(archivesize + mpqpos) mod 2^32` or `b.csize > archivesize`, whatever the flags;
otherwise `LIBMPQ_FILE_ERROR_EXIST` if `b` lacks the `EXISTS` flag; otherwise the
value of the information switch. -/
theorem file_info_resolution (K : MpqH) (a : mpq_archive) (infotype number : Nat)
    (hlo : 1 ≤ number) (hhi : number ≤ a.header.blocktablesize) (hint : number ≤ 2 ^ 31) :
    ((∀ i, i < a.header.hashtablesize →
        (a.hashtable.getD i default).blockindex ≠ number - 1) →
      libmpq__file_info K a infotype number = K.LIBMPQ_FILE_ERROR_EXIST) ∧
    ((∃ i, i < a.header.hashtablesize ∧
        (a.hashtable.getD i default).blockindex = number - 1) →
      ((a.blocktable.getD (number - 1) default).filepos
            > (a.header.archivesize + a.mpqpos) % 2 ^ 32 ∨
          (a.blocktable.getD (number - 1) default).csize > a.header.archivesize →
        libmpq__file_info K a infotype number = K.LIBMPQ_FILE_ERROR_CORRUPT) ∧
      (¬ ((a.blocktable.getD (number - 1) default).filepos
            > (a.header.archivesize + a.mpqpos) % 2 ^ 32 ∨
          (a.blocktable.getD (number - 1) default).csize > a.header.archivesize) →
        ((a.blocktable.getD (number - 1) default).flags &&& K.LIBMPQ_FILE_EXISTS = 0 →
          libmpq__file_info K a infotype number = K.LIBMPQ_FILE_ERROR_EXIST) ∧
        ((a.blocktable.getD (number - 1) default).flags &&& K.LIBMPQ_FILE_EXISTS ≠ 0 →
          libmpq__file_info K a infotype number
            = file_info_switch K infotype (a.blocktable.getD (number - 1) default)))) := by
  have hcond : ¬ (number < 1 ∨ number > a.header.blocktablesize) := by omega
  refine ⟨fun hnone => ?_, fun hsome => ?_⟩
  · have := found_blockindex_none a number hnone
    simp only [libmpq__file_info, if_neg hcond, this, true_or, if_true]
  · have hb := found_blockindex_some a number hint hlo hsome
    have hne : ¬ (((number - 1 : Nat) : Int) = -1 ∨
        toU32 ((number - 1 : Nat) : Int) > a.header.blocktablesize) := by
      rw [toU32_small _ (by omega)]
      omega
    have hblk : block_at a.blocktable ((number - 1 : Nat) : Int)
        = a.blocktable.getD (number - 1) default := by
      unfold block_at
      rw [if_neg (by omega)]
      simp
    have hU : U32 = 2 ^ 32 := rfl
    refine ⟨fun hc => ?_, fun hc => ⟨fun he => ?_, fun he => ?_⟩⟩
    · simp only [libmpq__file_info, hcond, if_false, hb, hne, hblk, hU, hc, if_true]
    · simp only [libmpq__file_info, hcond, if_false, hb, hne, hblk, hU, hc, he, if_true]
    · simp only [libmpq__file_info, hcond, if_false, hb, hne, hblk, hU, hc, he]

/-- On the sample archive file 1 resolves and its compressed size, 10, is
returned. -/
theorem file_info_resolution_witness :
    libmpq__file_info mpqh sampleArchive mpqh.LIBMPQ_FILE_COMPRESSED_SIZE 1
      = file_info_switch mpqh mpqh.LIBMPQ_FILE_COMPRESSED_SIZE
          (sampleArchive.blocktable.getD (1 - 1) default) :=
  (((file_info_resolution mpqh sampleArchive mpqh.LIBMPQ_FILE_COMPRESSED_SIZE 1
      (by decide) (by decide) (by decide)).2 ⟨0, by decide, by decide⟩).2 (by decide)).2
    (by decide)

/-- C9 fails on the code: in `wrapArchive` the hash entry of file 1 exists, its block
entry has `filepos = 0x400`, which is not above `archivesize + mpqpos =
0xFFFFFFFF + 0x200`, its `csize` is not above `archivesize`, and it has the
`EXISTS` flag, yet `libmpq__file_info` returns `LIBMPQ_FILE_ERROR_CORRUPT`: in the
size check of lines 341-347 the 32-bit sum wraps to `0x1FF`. -/
theorem file_info_corrupt_on_wrap :
    (1 ≤ 1 ∧ 1 ≤ wrapArchive.header.blocktablesize) ∧
    (wrapArchive.hashtable.getD 0 default).blockindex = 1 - 1 ∧
    ¬ ((wrapArchive.blocktable.getD (1 - 1) default).filepos
          > wrapArchive.header.archivesize + wrapArchive.mpqpos ∨
        (wrapArchive.blocktable.getD (1 - 1) default).csize
          > wrapArchive.header.archivesize) ∧
    (wrapArchive.blocktable.getD (1 - 1) default).flags &&& mpqh.LIBMPQ_FILE_EXISTS ≠ 0 ∧
    libmpq__file_info mpqh wrapArchive mpqh.LIBMPQ_FILE_COMPRESSED_SIZE 1
      = mpqh.LIBMPQ_FILE_ERROR_CORRUPT := by
  decide

/-- C10 fails on the code: on the sample archive, whose file 1 resolves, with
`libmpq__read_file_mpq` returning the error `-7` in the extraction loop,
`libmpq__file_extract` hands the negative count to `write`, leaves the loop and
returns `LIBMPQ_SUCCESS`. -/
theorem file_extract_read_error_success :
    libmpq__file_extract mpqh failingReadEnv sampleArchive 1 1
      = some (ExtractOutcome.returned ⟨mpqh.LIBMPQ_SUCCESS,
          [Effect.create "file000001.xxx" 3, Effect.hash_lookup, Effect.block_load 0,
           Effect.file_state 1,
           Effect.read_file 0 (-7), Effect.write (-7) (-1), Effect.close 3 0]⟩) := by
  decide


/-! ### The value part of `libmpq__file_info` -/

/-- The function `libmpq__file_info` is its resolver followed by the switch. -/
theorem file_info_eq_resolve (K : MpqH) (a : mpq_archive) (infotype number : Nat) :
    libmpq__file_info K a infotype number =
      match file_info_resolve K a number with
      | Resolution.range => K.LIBMPQ_FILE_ERROR_RANGE
      | Resolution.exist => K.LIBMPQ_FILE_ERROR_EXIST
      | Resolution.corrupt => K.LIBMPQ_FILE_ERROR_CORRUPT
      | Resolution.resolved _ mpq_b => file_info_switch K infotype mpq_b := by
  unfold libmpq__file_info file_info_resolve
  simp only
  split_ifs <;> rfl

/-- A file that resolves in the words of the specification is resolved by the
resolver of `libmpq__file_info`, to the same block entry. -/
theorem file_info_resolve_of_resolves (K : MpqH) (a : mpq_archive) (number : Nat)
    (b : mpq_block) (hres : resolves_to K a number b) (hint : number ≤ 2 ^ 31) :
    file_info_resolve K a number = Resolution.resolved ((number - 1 : Nat) : Int) b := by
  obtain ⟨hlo, hhi, hsome, hb, hc, he⟩ := hres
  have hcond : ¬ (number < 1 ∨ number > a.header.blocktablesize) := by omega
  have hfound := found_blockindex_some a number hint hlo hsome
  have hne : ¬ (((number - 1 : Nat) : Int) = -1 ∨
      toU32 ((number - 1 : Nat) : Int) > a.header.blocktablesize) := by
    rw [toU32_small _ (by omega)]
    omega
  have hblk : block_at a.blocktable ((number - 1 : Nat) : Int) = b := by
    unfold block_at
    rw [if_neg (by omega), hb]
    simp
  have hU : U32 = 2 ^ 32 := rfl
  simp only [file_info_resolve, hcond, if_false, hfound, hne, hblk, hU, hc, he]

/-- C11, as amended: for a file that resolves without error to the block entry
`b`, `libmpq__file_info` returns `b.csize` for the kind compressed size and
`b.fsize` for the kind uncompressed size, each converted to C `int` (the size
itself when it is below `2^31`); for the kind compression type it returns the
PKWARE constant if the PKWARE flag is set (whatever the multi flag), else the
MULTI constant if the multi flag is set, else 0; every other kind returns 0. -/
theorem file_info_values (K : MpqH) (a : mpq_archive) (number : Nat) (b : mpq_block)
    (hres : resolves_to K a number b) (hint : number ≤ 2 ^ 31)
    (hK : K.file_info_constants) :
    (libmpq__file_info K a K.LIBMPQ_FILE_COMPRESSED_SIZE number = toInt32 b.csize ∧
      (b.csize < 2 ^ 31 →
        libmpq__file_info K a K.LIBMPQ_FILE_COMPRESSED_SIZE number = (b.csize : Int))) ∧
    (libmpq__file_info K a K.LIBMPQ_FILE_UNCOMPRESSED_SIZE number = toInt32 b.fsize ∧
      (b.fsize < 2 ^ 31 →
        libmpq__file_info K a K.LIBMPQ_FILE_UNCOMPRESSED_SIZE number = (b.fsize : Int))) ∧
    (b.flags &&& K.LIBMPQ_FILE_COMPRESS_PKWARE ≠ 0 →
      libmpq__file_info K a K.LIBMPQ_FILE_COMPRESSION_TYPE number
        = (K.LIBMPQ_FILE_COMPRESS_PKWARE : Int)) ∧
    (b.flags &&& K.LIBMPQ_FILE_COMPRESS_PKWARE = 0 →
      b.flags &&& K.LIBMPQ_FILE_COMPRESS_MULTI ≠ 0 →
      libmpq__file_info K a K.LIBMPQ_FILE_COMPRESSION_TYPE number
        = (K.LIBMPQ_FILE_COMPRESS_MULTI : Int)) ∧
    (b.flags &&& K.LIBMPQ_FILE_COMPRESS_PKWARE = 0 →
      b.flags &&& K.LIBMPQ_FILE_COMPRESS_MULTI = 0 →
      libmpq__file_info K a K.LIBMPQ_FILE_COMPRESSION_TYPE number = 0) ∧
    (∀ kind, kind ≠ K.LIBMPQ_FILE_COMPRESSED_SIZE → kind ≠ K.LIBMPQ_FILE_UNCOMPRESSED_SIZE →
      kind ≠ K.LIBMPQ_FILE_COMPRESSION_TYPE → libmpq__file_info K a kind number = 0) := by
  obtain ⟨h0, h12, h13, h23, hP, hM⟩ := hK
  have hval : ∀ kind, libmpq__file_info K a kind number = file_info_switch K kind b := by
    intro kind
    rw [file_info_eq_resolve, file_info_resolve_of_resolves K a number b hres hint]
  refine ⟨⟨?_, fun hlt => ?_⟩, ⟨?_, fun hlt => ?_⟩, fun hp => ?_, fun hp hm => ?_,
    fun hp hm => ?_, fun kind k1 k2 k3 => ?_⟩
  · rw [hval]; simp only [file_info_switch, if_true]
  · rw [hval]; simp only [file_info_switch, if_true]; exact toInt32_small _ hlt
  · rw [hval]; simp only [file_info_switch, h12.symm, if_false, if_true]
  · rw [hval]; simp only [file_info_switch, h12.symm, if_false, if_true]
    exact toInt32_small _ hlt
  · rw [hval]
    simp only [file_info_switch, h13.symm, h23.symm, if_false, if_true, ne_eq, hp,
      not_false_eq_true]
    exact toInt32_small _ hP
  · rw [hval]
    simp only [file_info_switch, h13.symm, h23.symm, if_false, if_true, ne_eq, hp, hm,
      not_true_eq_false, not_false_eq_true]
    exact toInt32_small _ hM
  · rw [hval]
    simp only [file_info_switch, h13.symm, h23.symm, if_false, if_true, ne_eq, hp, hm,
      not_true_eq_false, h0]
  · rw [hval]
    simp only [file_info_switch, k1, k2, k3, if_false, h0]

/-- C11 (amended) on the sample archive: the compressed size 10 of file 1. -/
theorem file_info_values_witness :
    libmpq__file_info mpqh sampleArchive mpqh.LIBMPQ_FILE_COMPRESSED_SIZE 1 = toInt32 10 ∧
    ((10 : Nat) < 2 ^ 31 →
      libmpq__file_info mpqh sampleArchive mpqh.LIBMPQ_FILE_COMPRESSED_SIZE 1 = ((10 : Nat) : Int)) :=
  (file_info_values mpqh sampleArchive 1 ⟨0x40, 10, 10, 0x80000000⟩ (by decide) (by decide)
    (by decide)).1

/-- C11 as stated fails: file 1 of `bigFileArchive` resolves without error and its
uncompressed size is `0xFFFFFFFC`, yet `libmpq__file_info` returns `-4` for the
kind uncompressed size, which is the value of `LIBMPQ_FILE_ERROR_EXIST`. -/
theorem file_info_values_counterexample :
    resolves_to mpqh bigFileArchive 1 ⟨0x40, 10, 0xFFFFFFFC, 0x80000000⟩ ∧
    libmpq__file_info mpqh bigFileArchive mpqh.LIBMPQ_FILE_UNCOMPRESSED_SIZE 1 = -4 ∧
    libmpq__file_info mpqh bigFileArchive mpqh.LIBMPQ_FILE_UNCOMPRESSED_SIZE 1
      ≠ ((0xFFFFFFFC : Nat) : Int) ∧
    mpqh.LIBMPQ_FILE_ERROR_EXIST = -4 := by
  decide

/-! ### The number of logical blocks -/

/-- When `fsize + blocksize - 1` fits 32 bits, the quotient of line 503 is the
ceiling of `fsize / blocksize`. -/
theorem nblocks_ceil (a : mpq_archive) (b : mpq_block) (hB : 512 ≤ a.blocksize)
    (hfit : b.fsize + a.blocksize - 1 < 2 ^ 32) :
    nblocks a b = ⌈(b.fsize : ℚ) / (a.blocksize : ℚ)⌉₊ := by
  have hBpos : 0 < a.blocksize := by omega
  have hBq : (0 : ℚ) < (a.blocksize : ℚ) := by exact_mod_cast hBpos
  have hmod : (b.fsize + a.blocksize - 1) % U32 = b.fsize + a.blocksize - 1 :=
    Nat.mod_eq_of_lt hfit
  unfold nblocks
  rw [hmod]
  have h1 : (b.fsize + a.blocksize - 1) / a.blocksize * a.blocksize
      ≤ b.fsize + a.blocksize - 1 := Nat.div_mul_le_self _ _
  have h2 : b.fsize + a.blocksize - 1
      < ((b.fsize + a.blocksize - 1) / a.blocksize + 1) * a.blocksize := by
    have := Nat.lt_succ_iff.mpr (le_refl ((b.fsize + a.blocksize - 1) / a.blocksize))
    exact (Nat.div_lt_iff_lt_mul hBpos).mp this
  generalize (b.fsize + a.blocksize - 1) / a.blocksize = n at h1 h2
  symm
  apply le_antisymm
  · rw [Nat.ceil_le, div_le_iff₀ hBq]
    have : b.fsize ≤ n * a.blocksize := by
      have : (n + 1) * a.blocksize = n * a.blocksize + a.blocksize := by ring
      omega
    exact_mod_cast this
  · by_contra hlt
    have hlt2 : ⌈(b.fsize : ℚ) / (a.blocksize : ℚ)⌉₊ ≤ n - 1 := by omega
    have hn : 1 ≤ n := by omega
    rw [Nat.ceil_le, div_le_iff₀ hBq] at hlt2
    have hle : b.fsize ≤ (n - 1) * a.blocksize := by exact_mod_cast hlt2
    have : (n - 1) * a.blocksize + a.blocksize = n * a.blocksize := by
      obtain ⟨m, rfl⟩ : ∃ m, n = m + 1 := ⟨n - 1, by omega⟩
      simp only [Nat.add_sub_cancel]
      ring
    omega

/-- The quotient of line 503 for a file of 10 bytes in blocks of 4096: one block. -/
theorem nblocks_ceil_witness :
    nblocks sampleArchive ⟨0x40, 10, 10, 0x80000000⟩
      = ⌈(((⟨0x40, 10, 10, 0x80000000⟩ : mpq_block).fsize : ℕ) : ℚ)
          / (sampleArchive.blocksize : ℚ)⌉₊ :=
  nblocks_ceil sampleArchive ⟨0x40, 10, 10, 0x80000000⟩ (by decide) (by decide)

/-- For the 32-bit size `0xFFFFFFFF` and the block size 512, the sum
`0xFFFFFFFF + 512 - 1` wraps to 510 and the quotient of line 503 is 0, while the
ceiling of `0xFFFFFFFF / 512` is 8388608. -/
theorem nblocks_wrap_512 :
    (512 ≤ ({ sampleArchive with blocksize := 512 } : mpq_archive).blocksize) ∧
    (0xFFFFFFFF : Nat) < 2 ^ 32 ∧
    nblocks { sampleArchive with blocksize := 512 } ⟨0x40, 10, 0xFFFFFFFF, 0x80000000⟩ = 0 ∧
    ⌈((0xFFFFFFFF : ℕ) : ℚ) / ((512 : ℕ) : ℚ)⌉₊ = 8388608 := by
  refine ⟨by decide, by decide, by decide, ?_⟩
  rw [Nat.ceil_eq_iff (by norm_num)]
  constructor <;> norm_num

/-- C17 fails on the code: file 1 of `maxFileArchive` resolves, its uncompressed
size is `0xFFFFFFFF` and the block size is 4096 (`512 << 3`); the sum
`0xFFFFFFFF + 4096 - 1` of line 503 wraps to 4094, and `libmpq__file_extract`
initialises the file read state with 0 logical blocks, while the ceiling of
`0xFFFFFFFF / 4096` is 1048576. -/
theorem file_extract_nblocks_wrap :
    maxFileArchive.blocksize = 512 <<< 3 ∧
    file_extract_resolve mpqh maxFileArchive 1
      = Resolution.resolved 0 ⟨0x40, 10, 0xFFFFFFFF, 0x80000000⟩ ∧
    libmpq__file_extract mpqh eofReadEnv maxFileArchive 1 1
      = some (ExtractOutcome.returned ⟨mpqh.LIBMPQ_SUCCESS,
          [Effect.create "file000001.xxx" 3, Effect.hash_lookup, Effect.block_load 0,
           Effect.file_state 0, Effect.read_file 0 0, Effect.close 3 0]⟩) ∧
    ⌈((0xFFFFFFFF : ℕ) : ℚ) / ((4096 : ℕ) : ℚ)⌉₊ = 1048576 := by
  refine ⟨by decide, by decide, by decide, ?_⟩
  rw [Nat.ceil_eq_iff (by norm_num)]
  constructor <;> norm_num

/-! ### The protected sentinel -/

theorem lor_land_self (x p : Nat) : (x ||| p) &&& p = p := by
  apply Nat.eq_of_testBit_eq
  intro i
  simp only [Nat.testBit_and, Nat.testBit_or]
  cases x.testBit i <;> cases p.testBit i <;> rfl

/-- C18: when the header read has the sentinel in its header-length field, the
pass through the loop body leaves the protected flag set in the handle and the
length field rewritten to 32, and the header is accepted exactly when its
signature and table offsets pass, which is exactly when the same header with
length 32 is accepted. -/
theorem scan_step_sentinel (K : MpqH) (f : HostFile) (a : mpq_archive) (h : mpq_header)
    (hread : read_header f a.mpqpos = some h)
    (hw : h.offset = K.LIBMPQ_MPQ_HEADER_W3M) :
    (∃ a1, (scan_step K f a = ScanStep.found a1 ∨ scan_step K f a = ScanStep.next a1) ∧
      a1.flags = a.flags ||| K.LIBMPQ_MPQ_FLAG_PROTECTED ∧
      a1.flags &&& K.LIBMPQ_MPQ_FLAG_PROTECTED = K.LIBMPQ_MPQ_FLAG_PROTECTED ∧
      a1.header = { h with offset := 32 }) ∧
    ((∃ a1, scan_step K f a = ScanStep.found a1) ↔
      (h.id = K.LIBMPQ_MPQ_HEADER_ID ∧ h.hashtablepos < h.archivesize ∧
        h.blocktablepos < h.archivesize)) ∧
    (∀ f2 : HostFile, read_header f2 a.mpqpos = some { h with offset := 32 } →
      ((∃ a1, scan_step K f a = ScanStep.found a1) ↔
        (∃ a2, scan_step K f2 a = ScanStep.found a2))) := by
  have hfix : protect_fixup K a.flags h
      = (a.flags ||| K.LIBMPQ_MPQ_FLAG_PROTECTED, { h with offset := 32 }) := by
    simp [protect_fixup, hw, header_size]
  have hacc : header_accepted K { h with offset := 32 } = true ↔
      (h.id = K.LIBMPQ_MPQ_HEADER_ID ∧ h.hashtablepos < h.archivesize ∧
        h.blocktablepos < h.archivesize) := by
    simp [header_accepted, header_size, and_assoc]
  have hfound : (∃ a1, scan_step K f a = ScanStep.found a1) ↔
      header_accepted K { h with offset := 32 } = true := by
    unfold scan_step
    simp only [hread, hfix]
    by_cases hc : header_accepted K { h with offset := 32 } = true
    · simp [hc]
    · simp [hc]
  refine ⟨?_, hfound.trans hacc, fun f2 hread2 => ?_⟩
  · by_cases hc : header_accepted K { h with offset := 32 } = true
    · refine ⟨{ a with flags := a.flags ||| K.LIBMPQ_MPQ_FLAG_PROTECTED,
                        header := { h with offset := 32 } }, Or.inl ?_, rfl,
        lor_land_self _ _, rfl⟩
      unfold scan_step
      simp only [hread, hfix, hc, if_true]
    · refine ⟨{ a with flags := a.flags ||| K.LIBMPQ_MPQ_FLAG_PROTECTED,
                        header := { h with offset := 32 },
                        mpqpos := (a.mpqpos + 0x200) % U32 }, Or.inr ?_, rfl,
        lor_land_self _ _, rfl⟩
      unfold scan_step
      simp only [hread, hfix, hc]
      rfl
  · rw [hfound]
    unfold scan_step
    simp only [hread2]
    by_cases hw2 : (32 : Nat) = K.LIBMPQ_MPQ_HEADER_W3M
    · have hfix2 : protect_fixup K a.flags { h with offset := 32 }
          = (a.flags ||| K.LIBMPQ_MPQ_FLAG_PROTECTED, { h with offset := 32 }) := by
        simp [protect_fixup, ← hw2, header_size]
      rw [hfix2]
      by_cases hc : header_accepted K { h with offset := 32 } = true
      · simp [hc]
      · simp [hc]
    · have hfix2 : protect_fixup K a.flags { h with offset := 32 }
          = (a.flags, { h with offset := 32 }) := by
        simp [protect_fixup, hw2]
      rw [hfix2]
      by_cases hc : header_accepted K { h with offset := 32 } = true
      · simp [hc]
      · simp [hc]

/-- C18 on a host file whose header carries the sentinel: the pass sets the
protected flag, rewrites the length and accepts the header. -/
theorem scan_step_sentinel_witness :
    (∃ a1, scan_step mpqh (hostOf 0 sentinelHeader 0x1000) default = ScanStep.found a1) ↔
      ((0x1A51504D : Nat) = mpqh.LIBMPQ_MPQ_HEADER_ID ∧ (0x20 : Nat) < 0x1000 ∧
        (0x30 : Nat) < 0x1000) :=
  (scan_step_sentinel mpqh (hostOf 0 sentinelHeader 0x1000) default
    ⟨0x1A51504D, 0x6D9E4B86, 0x1000, 0, 3, 0x20, 0x30, 1, 1⟩ (by decide) (by decide)).2.1

/-! ### The working buffer at the final comparison -/

/-- When the second loop is left normally over entries of which one is selected,
or from a state in which a routine has already run, then a routine has run and
`work_buf` is assigned. -/
theorem apply_loop_assigned (flag : Nat) (out_buf : Ptr) (out_size : Int) (temp_buf : Ptr)
    (l : List (Nat × Codec)) (s s1 : LoopState)
    (happ : apply_loop flag out_buf out_size temp_buf l s = Sum.inr s1)
    (hpre : (0 < s.count ∧ ∃ w, s.work_buf = some w) ∨ selectedMasks flag l ≠ []) :
    0 < s1.count ∧ ∃ w, s1.work_buf = some w := by
  induction l generalizing s with
  | nil =>
    simp only [apply_loop, Sum.inr.injEq] at happ
    subst happ
    rcases hpre with h | h
    · exact h
    · exact absurd rfl h
  | cons e rest ih =>
    obtain ⟨mask, dec⟩ := e
    by_cases hm : flag &&& mask = 0
    · have hstep : apply_loop flag out_buf out_size temp_buf ((mask, dec) :: rest) s
          = apply_loop flag out_buf out_size temp_buf rest s := by
        simp [apply_loop, hm]
      have hsel : selectedMasks flag ((mask, dec) :: rest) = selectedMasks flag rest := by
        simp [selectedMasks, hm]
      rw [hstep] at happ
      rw [hsel] at hpre
      exact ih s happ hpre
    · by_cases hneg : (dec s.mem (if s.count = 0 then out_buf else temp_buf) out_size
          s.in_buf s.in_size).1 < 0
      · simp [apply_loop, hm, hneg] at happ
      · have hstep : ∃ s2, apply_loop flag out_buf out_size temp_buf ((mask, dec) :: rest) s
            = apply_loop flag out_buf out_size temp_buf rest s2 ∧
            s2.count = s.count + 1 ∧
            s2.work_buf = some (if s.count = 0 then out_buf else temp_buf) := by
          refine ⟨
              { mem := (dec s.mem (if s.count = 0 then out_buf else temp_buf) out_size
                  s.in_buf s.in_size).2,
                in_buf := if s.count = 0 then out_buf else temp_buf,
                in_size := out_size,
                work_buf := some (if s.count = 0 then out_buf else temp_buf),
                count := s.count + 1,
                tb := (dec s.mem (if s.count = 0 then out_buf else temp_buf) out_size
                  s.in_buf s.in_size).1,
                trace := s.trace ++ [Event.codec mask
                  (if s.count = 0 then out_buf else temp_buf) out_size s.in_buf s.in_size
                  (dec s.mem (if s.count = 0 then out_buf else temp_buf) out_size
                    s.in_buf s.in_size).1] }, ?_, rfl, rfl⟩
          simp [apply_loop, hm, hneg]
        obtain ⟨s2, hstep, hcount, hwork⟩ := hstep
        rw [hstep] at happ
        exact ih s2 happ (Or.inl ⟨by omega, _, hwork⟩)

/-- The tail of the function does not read an unassigned `work_buf` when some
table entry is selected. -/
theorem run_chain_uninit_read (c : Codecs) (flag : Nat) (out_buf : Ptr) (out_size : Int)
    (temp_buf : Ptr) (s0 : LoopState)
    (hsel : selectedMasks flag (dcmp_table c) ≠ []) :
    (run_chain c flag out_buf out_size temp_buf s0).uninit_read = false := by
  unfold run_chain
  cases happ : apply_loop flag out_buf out_size temp_buf (dcmp_table c) s0 with
  | inl s1 => rfl
  | inr s1 =>
    obtain ⟨_, w, hw⟩ := apply_loop_assigned flag out_buf out_size temp_buf _ s0 s1 happ
      (Or.inr hsel)
    simp only [finish_multi, hw]
    split <;> rfl

/-- C19: no call of `libmpq__decompress_multi` reads `work_buf` unassigned at the
final comparison; whenever the second loop is left normally (and so the final
comparison is reached) after the `count == 0` test has passed, at least one
routine has run and `work_buf` has been assigned. -/
theorem decompress_multi_work_buf_assigned (K : MpqH) (c : Codecs) (malloc : Ptr) (mem : Mem)
    (out_buf : Ptr) (out_size : Int) (in_buf : Ptr) (in_size : Int) :
    (libmpq__decompress_multi K c malloc mem out_buf out_size in_buf in_size).uninit_read
      = false ∧
    ∀ (temp_buf : Ptr) (s0 s : LoopState),
      count_loop (readByte mem in_buf) (dcmp_table c) 0 ≠ 0 →
      s0.count = 0 → codecMasks s0.trace = [] →
      apply_loop (readByte mem in_buf) out_buf out_size temp_buf (dcmp_table c) s0
        = Sum.inr s →
      0 < s.count ∧ (∃ w, s.work_buf = some w) ∧ codecMasks s.trace ≠ [] := by
  have hsel_of : count_loop (readByte mem in_buf) (dcmp_table c) 0 ≠ 0 →
      selectedMasks (readByte mem in_buf) (dcmp_table c) ≠ [] := by
    intro h0 hnil
    have := count_loop_eq (readByte mem in_buf) (dcmp_table c) 0
    rw [hnil] at this
    exact h0 (by simpa using this)
  constructor
  · by_cases hsize : in_size = out_size
    · by_cases hp : in_buf = out_buf <;> simp [libmpq__decompress_multi, hsize, hp]
    · by_cases h0 : count_loop (readByte mem in_buf) (dcmp_table c) 0 = 0
      · simp [libmpq__decompress_multi, hsize, h0]
      · by_cases h1 : 1 < count_loop (readByte mem in_buf) (dcmp_table c) 0
        · by_cases hm : malloc = Ptr.null
          · simp [libmpq__decompress_multi, hsize, h0, h1, hm]
          · simp only [libmpq__decompress_multi, hsize, h0, h1, hm, if_false, if_true]
            exact run_chain_uninit_read c _ _ _ _ _ (hsel_of h0)
        · simp only [libmpq__decompress_multi, hsize, h0, h1, if_false]
          exact run_chain_uninit_read c _ _ _ _ _ (hsel_of h0)
  · intro temp_buf s0 s h0 _ htr happ
    have hsel := hsel_of h0
    obtain ⟨hc, hw⟩ := apply_loop_assigned _ out_buf out_size temp_buf _ s0 s happ
      (Or.inr hsel)
    refine ⟨hc, hw, ?_⟩
    have hs0 : allSucceeded s0.trace := by
      intro ev hev
      cases ev with
      | codec m a b c d e =>
        exfalso
        obtain ⟨pre, post, hsplit⟩ := List.append_of_mem hev
        rw [hsplit, codecMasks_append] at htr
        simp [codecMasks] at htr
      | _ => rfl
    have := (apply_loop_trace _ out_buf out_size temp_buf _ s0 hs0).2 s happ
    rw [this.2, htr]
    simpa using hsel

/-- C19 at a concrete call with two routines: the flag stays clear. -/
theorem decompress_multi_work_buf_assigned_witness :
    (libmpq__decompress_multi mpqh sampleCodecs (Ptr.block 2 0) (sampleMem 0x03)
        (Ptr.block 1 0) 8 (Ptr.block 0 0) 4).uninit_read = false :=
  (decompress_multi_work_buf_assigned mpqh sampleCodecs (Ptr.block 2 0) (sampleMem 0x03)
    (Ptr.block 1 0) 8 (Ptr.block 0 0) 4).1

/-! ### `libmpq__archive_open` after the scan, and `libmpq__archive_info` -/

/-- Once the scan has found a header, `libmpq__archive_open` returns what the rest
of the function makes of the handle the scan left. -/
theorem archive_open_of_found (K : MpqH) (env : OpenEnv) (f : HostFile) (fuel : Nat)
    (a0 a : mpq_archive) (hm : env.malloc_header = true) (hh : env.host = some f)
    (hscan : header_scan K f fuel (open_prepare a0) = some (ScanResult.found a)) :
    libmpq__archive_open K env fuel a0 = some (open_tables K env f a) := by
  unfold open_prepare at hscan
  simp [libmpq__archive_open, hm, hh, hscan]

/-- The rest of `libmpq__archive_open` is the block-size assignment, the test of
lines 148-149, and then either the table part on the rebased handle or the
format error. -/
theorem open_tables_eq (K : MpqH) (env : OpenEnv) (f : HostFile) (a : mpq_archive) :
    open_tables K env f a =
      if (a.header.hashtablepos + a.mpqpos) % U32 < f.size ∧
          (a.header.blocktablepos + a.mpqpos) % U32 < f.size then
        read_tables K env f
          (rebase_tables { a with blocksize := (0x200 <<< a.header.blocksize) % U32 })
      else (K.LIBMPQ_ARCHIVE_ERROR_FORMAT,
        { a with blocksize := (0x200 <<< a.header.blocksize) % U32 }) := by
  rfl

/-- The table part leaves the header, the block size and `mpqpos` alone. -/
theorem read_tables_fields (K : MpqH) (env : OpenEnv) (f : HostFile) (a : mpq_archive) :
    (read_tables K env f a).2.header = a.header ∧
    (read_tables K env f a).2.blocksize = a.blocksize ∧
    (read_tables K env f a).2.mpqpos = a.mpqpos := by
  unfold read_tables
  simp only
  split
  · exact ⟨rfl, rfl, rfl⟩
  · split
    · exact ⟨rfl, rfl, rfl⟩
    · split
      · exact ⟨rfl, rfl, rfl⟩
      · split <;> exact ⟨rfl, rfl, rfl⟩

/-- The handle after the rest of `libmpq__archive_open`: the block size is set
from the shift, which is kept. -/
theorem open_tables_blocksize (K : MpqH) (env : OpenEnv) (f : HostFile) (a : mpq_archive) :
    (open_tables K env f a).2.blocksize = (0x200 <<< a.header.blocksize) % U32 ∧
    (open_tables K env f a).2.header.blocksize = a.header.blocksize := by
  rw [open_tables_eq]
  split
  · obtain ⟨h1, h2, _⟩ := read_tables_fields K env f
      (rebase_tables { a with blocksize := (0x200 <<< a.header.blocksize) % U32 })
    rw [h1, h2]
    exact ⟨rfl, rfl⟩
  · exact ⟨rfl, rfl⟩

theorem shift_small (s : Nat) (hs : s ≤ 21) :
    (0x200 <<< s) % U32 = 512 * 2 ^ s ∧ 512 * 2 ^ s < 2 ^ 31 := by
  have hpow : 2 ^ s ≤ 2 ^ 21 := Nat.pow_le_pow_right (by norm_num) hs
  have hlt : 512 * 2 ^ s < 2 ^ 31 := by
    have : (2 : Nat) ^ 21 = 2097152 := by norm_num
    omega
  refine ⟨?_, hlt⟩
  rw [Nat.shiftLeft_eq]
  exact Nat.mod_eq_of_lt (by unfold U32; omega)

/-- C12, as amended: for a header accepted with a block-size shift `s` of at most
21, the block size of the handle and the value `libmpq__archive_info` returns for
the kind block size are `512 * 2^s`; for `s = 3` that is 4096. -/
theorem archive_open_blocksize (K : MpqH) (I : ArchiveInfoKinds) (env : OpenEnv)
    (f : HostFile) (fuel : Nat) (a0 a : mpq_archive)
    (hm : env.malloc_header = true) (hh : env.host = some f)
    (hscan : header_scan K f fuel (open_prepare a0) = some (ScanResult.found a))
    (hs : a.header.blocksize ≤ 21) (hI : I.distinct) :
    ∃ r, libmpq__archive_open K env fuel a0 = some r ∧
      r.2.header.blocksize = a.header.blocksize ∧
      r.2.blocksize = 512 * 2 ^ a.header.blocksize ∧
      libmpq__archive_info K I r.2 I.LIBMPQ_ARCHIVE_BLOCKSIZE
        = ((512 * 2 ^ a.header.blocksize : Nat) : Int) ∧
      (a.header.blocksize = 3 → r.2.blocksize = 4096 ∧
        libmpq__archive_info K I r.2 I.LIBMPQ_ARCHIVE_BLOCKSIZE = 4096) := by
  obtain ⟨hb, hsh⟩ := open_tables_blocksize K env f a
  obtain ⟨hval, hlt⟩ := shift_small a.header.blocksize hs
  have hinfo : libmpq__archive_info K I (open_tables K env f a).2 I.LIBMPQ_ARCHIVE_BLOCKSIZE
      = ((512 * 2 ^ a.header.blocksize : Nat) : Int) := by
    simp only [ArchiveInfoKinds.distinct, List.nodup_cons, List.mem_cons, List.mem_singleton,
      not_or, List.not_mem_nil, not_false_eq_true, List.nodup_nil, and_true] at hI
    obtain ⟨⟨_, _, h14, _⟩, ⟨_, h24, _⟩, ⟨h34, _⟩, _⟩ := hI
    simp only [libmpq__archive_info, Ne.symm h14, Ne.symm h24, Ne.symm h34, if_false, if_true,
      hb, hval]
    exact toInt32_small _ hlt
  refine ⟨open_tables K env f a, archive_open_of_found K env f fuel a0 a hm hh hscan, hsh,
    by rw [hb, hval], hinfo, fun h3 => ?_⟩
  constructor
  · rw [hb, hval, h3]; norm_num
  · rw [hinfo, h3]; norm_num

/-- C12 (amended) on the archive of the first scenario, whose shift is 3. -/
theorem archive_open_blocksize_witness :
    ∃ r, libmpq__archive_open mpqh (sampleOpenEnv (hostOf 0 scenarioHeader 0x1000)) 1 default
        = some r ∧
      r.2.header.blocksize = 3 ∧ r.2.blocksize = 512 * 2 ^ 3 ∧
      libmpq__archive_info mpqh infoKinds r.2 infoKinds.LIBMPQ_ARCHIVE_BLOCKSIZE
        = ((512 * 2 ^ 3 : Nat) : Int) ∧
      ((3 : Nat) = 3 → r.2.blocksize = 4096 ∧
        libmpq__archive_info mpqh infoKinds r.2 infoKinds.LIBMPQ_ARCHIVE_BLOCKSIZE = 4096) :=
  archive_open_blocksize mpqh infoKinds (sampleOpenEnv (hostOf 0 scenarioHeader 0x1000))
    (hostOf 0 scenarioHeader 0x1000) 1 default
    { (open_prepare default) with header := ⟨0x1A51504D, 32, 0x1000, 0, 3, 0x20, 0x30, 1, 1⟩ }
    rfl rfl rfl (by decide) (by decide)

/-- C12 as stated fails: a header with the shift 22 is accepted and the open
succeeds, yet `libmpq__archive_info` returns `-2147483648` for the kind block
size, not `512 * 2^22 = 2147483648`. -/
theorem archive_open_blocksize_counterexample :
    (libmpq__archive_open mpqh (sampleOpenEnv (hostOf 0 (headerBytes 0x1000 22 0x20) 0x1000))
        1 default).map
      (fun r => (r.1, r.2.header.blocksize,
        libmpq__archive_info mpqh infoKinds r.2 infoKinds.LIBMPQ_ARCHIVE_BLOCKSIZE))
      = some (mpqh.LIBMPQ_SUCCESS, 22, -2147483648) ∧
    ((512 * 2 ^ 22 : Nat) : Int) = 2147483648 := by
  decide

theorem toInt32_mod (x : Nat) : toInt32 (x % U32) = toInt32 x := by
  unfold toInt32
  rw [Nat.mod_mod]

theorem toInt32_congr (x y : Nat) (h : x % U32 = y % U32) : toInt32 x = toInt32 y := by
  unfold toInt32
  rw [h]

/-- A sum accumulated in `unsigned int` is the sum modulo `2^32`. -/
theorem foldl_sum_mod (g : Nat → Nat) (l : List Nat) (c : Nat) :
    List.foldl (fun acc i => (acc + g i) % U32) c l % U32 = (c + (l.map g).sum) % U32 := by
  induction l generalizing c with
  | nil => simp
  | cons x xs ih =>
    simp only [List.foldl_cons, List.map_cons, List.sum_cons]
    rw [ih, Nat.add_mod, Nat.mod_mod, ← Nat.add_mod, Nat.add_assoc]

/-- C13, as amended: for every handle and every information kind,
`libmpq__archive_info` returns the requested quantity reduced modulo `2^32` and
read as a C `int`; it is the quantity itself, and non-negative, whenever the
quantity is below `2^31`. -/
theorem archive_info_values (K : MpqH) (I : ArchiveInfoKinds) (a : mpq_archive)
    (kind q : Nat) (hq : archive_quantity I a kind = some q) :
    libmpq__archive_info K I a kind = toInt32 q ∧
    (q < 2 ^ 31 → libmpq__archive_info K I a kind = (q : Int) ∧
      0 ≤ libmpq__archive_info K I a kind) := by
  have hmain : libmpq__archive_info K I a kind = toInt32 q := by
    unfold archive_quantity at hq
    unfold libmpq__archive_info
    split_ifs at hq ⊢ with h1 h2 h3 h4 h5 h6 h7
    · simp only [Option.some.injEq] at hq; rw [hq]
    · simp only [Option.some.injEq] at hq; rw [hq]
    · simp only [Option.some.injEq] at hq; rw [hq]
    · simp only [Option.some.injEq] at hq; rw [hq]
    · simp only [Option.some.injEq] at hq
      rw [← hq]
      apply toInt32_congr
      have := foldl_sum_mod (fun _ => 1) (List.range a.header.blocktablesize) 0
      unfold count_files
      rw [this]
      simp
    · simp only [Option.some.injEq] at hq
      rw [← hq]
      apply toInt32_congr
      have := foldl_sum_mod (fun i => (a.blocktable.getD i default).csize)
        (List.range a.header.blocktablesize) 0
      unfold sum_csize
      rw [this]
      simp
    · simp only [Option.some.injEq] at hq
      rw [← hq]
      apply toInt32_congr
      have := foldl_sum_mod (fun i => (a.blocktable.getD i default).fsize)
        (List.range a.header.blocktablesize) 0
      unfold sum_fsize
      rw [this]
      simp
  refine ⟨hmain, fun hlt => ?_⟩
  rw [hmain, toInt32_small q hlt]
  exact ⟨rfl, Int.natCast_nonneg q⟩

/-- C13 (amended) on the sample archive: its archive size `0x1000`. -/
theorem archive_info_values_witness :
    libmpq__archive_info mpqh infoKinds sampleArchive infoKinds.LIBMPQ_ARCHIVE_SIZE
      = toInt32 0x1000 ∧
    ((0x1000 : Nat) < 2 ^ 31 →
      libmpq__archive_info mpqh infoKinds sampleArchive infoKinds.LIBMPQ_ARCHIVE_SIZE
        = ((0x1000 : Nat) : Int) ∧
      0 ≤ libmpq__archive_info mpqh infoKinds sampleArchive infoKinds.LIBMPQ_ARCHIVE_SIZE) :=
  archive_info_values mpqh infoKinds sampleArchive infoKinds.LIBMPQ_ARCHIVE_SIZE 0x1000 rfl

/-- C13 as stated fails: an archive whose header gives the archive size `2^31`,
above `2^31 - 1`, is accepted (the open succeeds), and `libmpq__archive_info`
reports its size as the negative value `-2147483648`. -/
theorem archive_info_values_counterexample :
    (libmpq__archive_open mpqh
        (sampleOpenEnv (hostOf 0 (headerBytes 0x80000000 3 0x20) 0x1000)) 1 default).map
      (fun r => (r.1, r.2.header.archivesize,
        libmpq__archive_info mpqh infoKinds r.2 infoKinds.LIBMPQ_ARCHIVE_SIZE))
      = some (mpqh.LIBMPQ_SUCCESS, 0x80000000, -2147483648) ∧
    (2 ^ 31 - 1 : Nat) < 0x80000000 := by
  decide

/-- The test of lines 148-149 as the code computes it: after the scan has found a
header, the open returns `LIBMPQ_ARCHIVE_ERROR_FORMAT` whenever one of the two
table offsets plus `mpqpos`, the sum taken modulo `2^32`, is not below the
length of the host file;
otherwise the table part runs on a handle whose two table offsets are exactly
these sums, and they are the offsets of the handle when the function returns. -/
theorem archive_open_rebase (K : MpqH) (env : OpenEnv) (f : HostFile) (fuel : Nat)
    (a0 a : mpq_archive) (hm : env.malloc_header = true) (hh : env.host = some f)
    (hscan : header_scan K f fuel (open_prepare a0) = some (ScanResult.found a)) :
    ∃ r, libmpq__archive_open K env fuel a0 = some r ∧
      (((a.header.hashtablepos + a.mpqpos) % 2 ^ 32 ≥ f.size ∨
          (a.header.blocktablepos + a.mpqpos) % 2 ^ 32 ≥ f.size) →
        r.1 = K.LIBMPQ_ARCHIVE_ERROR_FORMAT) ∧
      (¬ ((a.header.hashtablepos + a.mpqpos) % 2 ^ 32 ≥ f.size ∨
          (a.header.blocktablepos + a.mpqpos) % 2 ^ 32 ≥ f.size) →
        ∃ a2, r = read_tables K env f a2 ∧
          a2.header.hashtablepos = (a.header.hashtablepos + a.mpqpos) % 2 ^ 32 ∧
          a2.header.blocktablepos = (a.header.blocktablepos + a.mpqpos) % 2 ^ 32 ∧
          r.2.header.hashtablepos = (a.header.hashtablepos + a.mpqpos) % 2 ^ 32 ∧
          r.2.header.blocktablepos = (a.header.blocktablepos + a.mpqpos) % 2 ^ 32) := by
  refine ⟨open_tables K env f a, archive_open_of_found K env f fuel a0 a hm hh hscan, ?_, ?_⟩
  · intro hge
    have hU : U32 = 2 ^ 32 := rfl
    rw [open_tables_eq, hU, if_neg (by omega)]
  · intro hlt
    have hU : U32 = 2 ^ 32 := rfl
    have hcond : (a.header.hashtablepos + a.mpqpos) % 2 ^ 32 < f.size ∧
        (a.header.blocktablepos + a.mpqpos) % 2 ^ 32 < f.size := by omega
    refine ⟨rebase_tables { a with blocksize := (0x200 <<< a.header.blocksize) % U32 },
      ?_, rfl, rfl, ?_, ?_⟩
    · rw [open_tables_eq, hU, if_pos hcond]
    · rw [open_tables_eq, hU, if_pos hcond, (read_tables_fields K env f _).1]
      rfl
    · rw [open_tables_eq, hU, if_pos hcond, (read_tables_fields K env f _).1]
      rfl

/-- On the host file of the second scenario the offsets `0x20` and `0x30` of the
header found at `0x600` become `0x620` and `0x630`. -/
theorem archive_open_rebase_witness :
    ∃ r, libmpq__archive_open mpqh (sampleOpenEnv scenarioHost) 4 default = some r ∧
      (((0x20 + 0x600) % 2 ^ 32 ≥ scenarioHost.size ∨
          (0x30 + 0x600) % 2 ^ 32 ≥ scenarioHost.size) →
        r.1 = mpqh.LIBMPQ_ARCHIVE_ERROR_FORMAT) ∧
      (¬ ((0x20 + 0x600) % 2 ^ 32 ≥ scenarioHost.size ∨
          (0x30 + 0x600) % 2 ^ 32 ≥ scenarioHost.size) →
        ∃ a2, r = read_tables mpqh (sampleOpenEnv scenarioHost) scenarioHost a2 ∧
          a2.header.hashtablepos = (0x20 + 0x600) % 2 ^ 32 ∧
          a2.header.blocktablepos = (0x30 + 0x600) % 2 ^ 32 ∧
          r.2.header.hashtablepos = (0x20 + 0x600) % 2 ^ 32 ∧
          r.2.header.blocktablepos = (0x30 + 0x600) % 2 ^ 32) :=
  archive_open_rebase mpqh (sampleOpenEnv scenarioHost) scenarioHost 4 default
    { (open_prepare default) with
      mpqpos := 0x600, header := ⟨0x1A51504D, 32, 0x1000, 0, 3, 0x20, 0x30, 1, 1⟩ }
    rfl rfl rfl

/-- C14 fails on the code: in a host file of `0x1200` bytes the scan finds at `0x200`
a header whose hash-table offset is `0xFFFFFF00`; `hash_off + archive_origin`
is far above the file length, yet the open does not return the format error: in
the test of lines 148-149 the 32-bit sum wraps to `0x100`, the test passes and the
open succeeds with the hash-table offset `0x100`. -/
theorem archive_open_offset_wrap_accepted :
    (match header_scan mpqh (hostOf 0x200 (headerBytes 0xFFFFFFFF 3 0xFFFFFF00) 0x1200) 2
        (open_prepare default) with
      | some (ScanResult.found a) => some (a.mpqpos, a.header.hashtablepos)
      | _ => none) = some (0x200, 0xFFFFFF00) ∧
    (0xFFFFFF00 + 0x200 : Nat) ≥ (hostOf 0x200 (headerBytes 0xFFFFFFFF 3 0xFFFFFF00) 0x1200).size ∧
    (libmpq__archive_open mpqh
        (sampleOpenEnv (hostOf 0x200 (headerBytes 0xFFFFFFFF 3 0xFFFFFF00) 0x1200)) 2
        default).map (fun r => (r.1, r.2.mpqpos, r.2.header.hashtablepos))
      = some (mpqh.LIBMPQ_SUCCESS, 0x200, 0x100) ∧
    mpqh.LIBMPQ_SUCCESS ≠ mpqh.LIBMPQ_ARCHIVE_ERROR_FORMAT := by
  decide

/-! ### The origin on entry -/

/-- The scan moves `mpqpos` in steps of `0x200` only. -/
theorem header_scan_mpqpos_mod (K : MpqH) (f : HostFile) :
    ∀ (fuel : Nat) (a : mpq_archive) (res : ScanResult),
      header_scan K f fuel a = some res →
      (match res with
        | ScanResult.error _ a2 => a2.mpqpos % 0x200 = a.mpqpos % 0x200
        | ScanResult.found a2 => a2.mpqpos % 0x200 = a.mpqpos % 0x200) := by
  intro fuel
  induction fuel with
  | zero => intro a res h; simp [header_scan] at h
  | succ n ih =>
    intro a res hscan
    unfold header_scan scan_step at hscan
    cases hread : read_header f a.mpqpos with
    | none =>
      simp only [hread, Option.some.injEq] at hscan
      subst hscan
      rfl
    | some h =>
      simp only [hread] at hscan
      by_cases hacc : header_accepted K (protect_fixup K a.flags h).2 = true
      · simp only [hacc, if_true, Option.some.injEq] at hscan
        subst hscan
        rfl
      · simp only [hacc] at hscan
        have := ih _ res hscan
        have hstep : ((a.mpqpos + 0x200) % U32) % 0x200 = a.mpqpos % 0x200 := by
          simp only [U32]; omega
        cases res with
        | error e a2 =>
          simp only at this ⊢
          rw [this]; exact hstep
        | found a2 =>
          simp only at this ⊢
          rw [this]; exact hstep

theorem le32_congr (f f2 : HostFile) (lo p : Nat)
    (hb : ∀ q, lo ≤ q → f2.byte q = f.byte q) (hp : lo ≤ p) : le32 f2 p = le32 f p := by
  unfold le32
  rw [hb p hp, hb (p + 1) (by omega), hb (p + 2) (by omega), hb (p + 3) (by omega)]

theorem le16_congr (f f2 : HostFile) (lo p : Nat)
    (hb : ∀ q, lo ≤ q → f2.byte q = f.byte q) (hp : lo ≤ p) : le16 f2 p = le16 f p := by
  unfold le16
  rw [hb p hp, hb (p + 1) (by omega)]

/-- The header read at `p` is the same in two host files of the same length that
hold the same bytes from `lo` on, when `lo ≤ p`. -/
theorem read_header_congr (f f2 : HostFile) (lo p : Nat) (hsize : f2.size = f.size)
    (hb : ∀ q, lo ≤ q → f2.byte q = f.byte q) (hp : lo ≤ p) :
    read_header f2 p = read_header f p := by
  unfold read_header
  rw [hsize, le32_congr f f2 lo p hb hp, le32_congr f f2 lo (p + 4) hb (by omega),
    le32_congr f f2 lo (p + 8) hb (by omega), le16_congr f f2 lo (p + 12) hb (by omega),
    le16_congr f f2 lo (p + 14) hb (by omega), le32_congr f f2 lo (p + 16) hb (by omega),
    le32_congr f f2 lo (p + 20) hb (by omega), le32_congr f f2 lo (p + 24) hb (by omega),
    le32_congr f f2 lo (p + 28) hb (by omega)]

theorem scan_step_next_mpqpos (K : MpqH) (f : HostFile) (a a1 : mpq_archive)
    (h : scan_step K f a = ScanStep.next a1) : a1.mpqpos = (a.mpqpos + 0x200) % U32 := by
  unfold scan_step at h
  cases hread : read_header f a.mpqpos with
  | none => simp [hread] at h
  | some hd =>
    simp only [hread] at h
    by_cases hacc : header_accepted K (protect_fixup K a.flags hd).2 = true
    · simp [hacc] at h
    · simp only [hacc, Bool.false_eq_true, if_false, ScanStep.next.injEq] at h
      rw [← h]

/-- The scan started at `mpqpos` does not look at the bytes before that offset, as
long as the 32-bit position does not wrap: on two host files of the same length
that hold the same bytes from `lo` on, with `lo ≤ mpqpos`, it ends the same. -/
theorem header_scan_bytes_before (K : MpqH) (f f2 : HostFile) (lo : Nat)
    (hsize : f2.size = f.size) (hb : ∀ q, lo ≤ q → f2.byte q = f.byte q) :
    ∀ (fuel : Nat) (a : mpq_archive), lo ≤ a.mpqpos → a.mpqpos + 0x200 * fuel ≤ 2 ^ 32 →
      header_scan K f2 fuel a = header_scan K f fuel a := by
  intro fuel
  induction fuel with
  | zero => intro a _ _; rfl
  | succ n ih =>
    intro a hlo hfit
    have hstep : scan_step K f2 a = scan_step K f a := by
      unfold scan_step
      rw [read_header_congr f f2 lo a.mpqpos hsize hb hlo]
    unfold header_scan
    rw [hstep]
    cases hs : scan_step K f a with
    | short => rfl
    | found a1 => rfl
    | next a1 =>
      simp only
      have hpos := scan_step_next_mpqpos K f a a1 hs
      cases n with
      | zero => rfl
      | succ m =>
        have hnw : (a.mpqpos + 0x200) % U32 = a.mpqpos + 0x200 := by
          unfold U32
          omega
        rw [hnw] at hpos
        exact ih a1 (by omega) (by omega)

/-- The scan depends on the host file only through the headers at the offsets
`scan_offsets` lists. -/
theorem header_scan_reads (K : MpqH) (f f2 : HostFile) :
    ∀ (fuel : Nat) (a : mpq_archive),
      (∀ p ∈ scan_offsets K f fuel a, read_header f2 p = read_header f p) →
      header_scan K f2 fuel a = header_scan K f fuel a := by
  intro fuel
  induction fuel with
  | zero => intro a _; rfl
  | succ n ih =>
    intro a hp
    have hstep : scan_step K f2 a = scan_step K f a := by
      unfold scan_step
      rw [hp a.mpqpos (by simp [scan_offsets])]
    unfold header_scan
    rw [hstep]
    cases hs : scan_step K f a with
    | short => rfl
    | found a1 => rfl
    | next a1 =>
      simp only
      apply ih a1
      intro p hmem
      apply hp p
      simp only [scan_offsets, hs, List.mem_cons]
      exact Or.inr hmem

/-- C16 (amended): `libmpq__archive_open` does not assign `mpqpos` before the scan:
the scan starts at the offset `mpqpos` holds on entry. For an open that returns:
the first header read is at that offset, the headers at the offsets read being
all the scan takes from the host file; the scan does not depend on the bytes
that precede that offset (as long as the 32-bit position does not wrap); a short read at
that offset makes the open return the format error; a header accepted at that
offset makes it the origin; and the origin the open leaves is congruent to the
entry value modulo `0x200`, so that for a handle whose `mpqpos` is 0 on entry it
is a multiple of `0x200`. -/
theorem archive_open_entry_origin (K : MpqH) (env : OpenEnv) (f : HostFile) (fuel : Nat)
    (a : mpq_archive) (r : Int × mpq_archive)
    (hm : env.malloc_header = true) (hh : env.host = some f)
    (hopen : libmpq__archive_open K env fuel a = some r) :
    (open_read_offsets K env fuel a).head? = some a.mpqpos ∧
    (∀ f2 : HostFile,
      (∀ p ∈ open_read_offsets K env fuel a, read_header f2 p = read_header f p) →
      header_scan K f2 fuel (open_prepare a) = header_scan K f fuel (open_prepare a)) ∧
    (∀ f2 : HostFile, f2.size = f.size → (∀ q, a.mpqpos ≤ q → f2.byte q = f.byte q) →
      a.mpqpos + 0x200 * fuel ≤ 2 ^ 32 →
      header_scan K f2 fuel (open_prepare a) = header_scan K f fuel (open_prepare a)) ∧
    (read_header f a.mpqpos = none →
      r = (K.LIBMPQ_ARCHIVE_ERROR_FORMAT, open_prepare a)) ∧
    (∀ h, read_header f a.mpqpos = some h →
      header_accepted K (protect_fixup K a.flags h).2 = true → r.2.mpqpos = a.mpqpos) ∧
    r.2.mpqpos % 0x200 = a.mpqpos % 0x200 ∧
    (a.mpqpos = 0 → r.2.mpqpos % 0x200 = 0) := by
  have hmod : r.2.mpqpos % 0x200 = a.mpqpos % 0x200 := by
    cases hscan : header_scan K f fuel (open_prepare a) with
    | none =>
      unfold open_prepare at hscan
      simp [libmpq__archive_open, hm, hh, hscan] at hopen
    | some res =>
      have hinv := header_scan_mpqpos_mod K f fuel (open_prepare a) res hscan
      unfold open_prepare at hscan
      cases res with
      | error e a2 =>
        simp only [libmpq__archive_open, hm, hh, hscan, Bool.true_eq_false, if_false,
          Option.some.injEq] at hopen
        subst hopen
        exact hinv
      | found a2 =>
        simp only [libmpq__archive_open, hm, hh, hscan, Bool.true_eq_false, if_false,
          Option.some.injEq] at hopen
        subst hopen
        rw [open_tables_mpqpos]
        exact hinv
  cases fuel with
  | zero => simp [libmpq__archive_open, hm, hh, header_scan] at hopen
  | succ n =>
    refine ⟨?_, fun f2 hp => ?_, fun f2 hsize hb hfit => ?_, fun hread => ?_,
      fun h hread hacc => ?_, hmod, fun h0 => by rw [hmod, h0]⟩
    · simp [open_read_offsets, hm, hh, scan_offsets, open_prepare]
    · apply header_scan_reads K f f2 (n + 1) (open_prepare a)
      intro p hmem
      apply hp p
      simp only [open_read_offsets, hm, hh, Bool.true_eq_false, if_false]
      exact hmem
    · exact header_scan_bytes_before K f f2 a.mpqpos hsize hb (n + 1) (open_prepare a)
        (Nat.le_refl _) hfit
    · have hscan : header_scan K f (n + 1) (open_prepare a)
          = some (ScanResult.error K.LIBMPQ_ARCHIVE_ERROR_FORMAT (open_prepare a)) := by
        have hr2 : read_header f (open_prepare a).mpqpos = none := hread
        simp only [header_scan, scan_step, hr2]
      unfold open_prepare at hscan
      simp only [libmpq__archive_open, hm, hh, hscan, Bool.true_eq_false, if_false,
        Option.some.injEq] at hopen
      rw [← hopen]
      rfl
    · have hscan : header_scan K f (n + 1) (open_prepare a)
          = some (ScanResult.found { (open_prepare a) with
              flags := (protect_fixup K a.flags h).1,
              header := (protect_fixup K a.flags h).2 }) := by
        have hr2 : read_header f (open_prepare a).mpqpos = some h := hread
        have hacc2 : header_accepted K (protect_fixup K (open_prepare a).flags h).2 = true :=
          hacc
        simp only [header_scan, scan_step, hr2, hacc2, if_true]
        rfl
      have := archive_open_of_found K env f (n + 1) a _ hm hh hscan
      rw [this] at hopen
      simp only [Option.some.injEq] at hopen
      rw [← hopen, open_tables_mpqpos]
      rfl

/-- C16 (amended) on the host file of the second scenario, entered with
`mpqpos = 0`: after four passes the open returns `LIBMPQ_SUCCESS` with the origin
`0x600`, a multiple of `0x200`. -/
theorem archive_open_entry_origin_witness :
    libmpq__archive_open mpqh (sampleOpenEnv scenarioHost) 4 default
      = some (mpqh.LIBMPQ_SUCCESS,
          { sampleArchive with
            mpqpos := 0x600,
            header := { sampleArchive.header with
              hashtablepos := 0x620, blocktablepos := 0x630 } }) ∧
    (open_read_offsets mpqh (sampleOpenEnv scenarioHost) 4 default).head? = some 0 ∧
    (0x600 : Nat) % 0x200 = 0 :=
  ⟨by decide,
   (archive_open_entry_origin mpqh (sampleOpenEnv scenarioHost) scenarioHost 4 default
      (mpqh.LIBMPQ_SUCCESS,
        { sampleArchive with
          mpqpos := 0x600,
          header := { sampleArchive.header with
            hashtablepos := 0x620, blocktablepos := 0x630 } })
      rfl rfl (by decide)).1,
   (archive_open_entry_origin mpqh (sampleOpenEnv scenarioHost) scenarioHost 4 default
      (mpqh.LIBMPQ_SUCCESS,
        { sampleArchive with
          mpqpos := 0x600,
          header := { sampleArchive.header with
            hashtablepos := 0x620, blocktablepos := 0x630 } })
      rfl rfl (by decide)).2.2.2.2.2.2 rfl⟩

/-- C16 as stated fails: on a handle whose `mpqpos` is `0x10` on entry, with a
valid header at offset `0x10` of the host file, the only header read is at
offset `0x10`, not 0, and the open succeeds with the origin `0x10`, which is not
a multiple of `0x200`. -/
theorem archive_open_entry_origin_counterexample :
    open_read_offsets mpqh (sampleOpenEnv (hostOf 0x10 scenarioHeader 0x1010)) 1
        { (default : mpq_archive) with mpqpos := 0x10 } = [0x10] ∧
    (libmpq__archive_open mpqh (sampleOpenEnv (hostOf 0x10 scenarioHeader 0x1010)) 1
        { (default : mpq_archive) with mpqpos := 0x10 }).map (fun r => (r.1, r.2.mpqpos))
      = some (mpqh.LIBMPQ_SUCCESS, 0x10) ∧
    (0x10 : Nat) % 0x200 ≠ 0 := by
  decide

/-! ### The buffers handed to the routines -/

/-- C15 fails on the code: with the method byte `0x0B`, which selects three
routines, the first writes the caller's output buffer (block 1) from the input,
the second writes the temporary buffer (block 2) from the output buffer, and the
third is called with the temporary buffer as both its output and its input. -/
theorem decompress_multi_third_in_place :
    selectedMasks (readByte (sampleMem 0x0B) (Ptr.block 0 0)) (dcmp_table sampleCodecs)
      = [0x01, 0x02, 0x08] ∧
    (libmpq__decompress_multi mpqh sampleCodecs (Ptr.block 2 0) (sampleMem 0x0B)
        (Ptr.block 1 0) 8 (Ptr.block 0 0) 4).trace
      = [Event.method (Ptr.block 0 0) 0x0B, Event.malloc 8 (Ptr.block 2 0),
         Event.codec 0x01 (Ptr.block 1 0) 8 (Ptr.block 0 1) 3 3,
         Event.codec 0x02 (Ptr.block 2 0) 8 (Ptr.block 1 0) 8 8,
         Event.codec 0x08 (Ptr.block 2 0) 8 (Ptr.block 2 0) 8 8,
         Event.memcpy (Ptr.block 1 0) (Ptr.block 2 0) 8, Event.free (Ptr.block 2 0)] := by
  decide

/-! ### The two copies of the resolver -/

theorem find?_congr_on {α : Type} (p q : α → Bool) (l : List α)
    (h : ∀ x ∈ l, p x = q x) : l.find? p = l.find? q := by
  induction l with
  | nil => rfl
  | cons x xs ih =>
    have hx := h x (List.mem_cons_self x xs)
    have hxs := ih (fun y hy => h y (List.mem_cons_of_mem x hy))
    simp only [List.find?_cons, hx, hxs]

theorem hash_at_small (hashtable : List mpq_hash) (k : Nat) (hk : k < 2 ^ 31) :
    hash_at hashtable (toInt32 k) = hashtable.getD k default := by
  rw [toInt32_small k hk]
  unfold hash_at
  rw [if_neg (by omega)]
  simp

/-- With at most `2^31` hash entries the `int` loop variable of
`libmpq__file_extract` never overflows and its search finds what the search of
`libmpq__file_info` finds. -/
theorem found_blockindex_int_eq (a : mpq_archive) (number : Nat)
    (hsz : a.header.hashtablesize ≤ 2 ^ 31) :
    found_blockindex_int a number = found_blockindex a number := by
  have hfind : (List.range a.header.hashtablesize).find?
      (fun k => decide (number - 1 = (hash_at a.hashtable (toInt32 k)).blockindex))
      = (List.range a.header.hashtablesize).find?
      (fun i => decide (number - 1 = (a.hashtable.getD i default).blockindex)) := by
    apply find?_congr_on
    intro k hk
    have hlt : k < 2 ^ 31 := by
      have := List.mem_range.mp hk
      omega
    rw [hash_at_small _ k hlt]
  unfold found_blockindex_int found_blockindex hash_search_int hash_search
  rw [hfind]
  cases hs : (List.range a.header.hashtablesize).find?
      (fun i => decide (number - 1 = (a.hashtable.getD i default).blockindex)) with
  | none => rfl
  | some j =>
    have hj : j < 2 ^ 31 := by
      have := List.mem_range.mp (List.mem_of_find?_eq_some hs)
      omega
    simp only [Option.map_some']
    rw [hash_at_small _ j hj]

/-- The function `libmpq__file_extract`, when the output file can be created, is
its resolver followed by the extraction of the entry selected. -/
theorem file_extract_of_resolve (K : MpqH) (env : ExtractEnv) (a : mpq_archive)
    (number fuel : Nat) (hfd : env.create_fd ≠ -1) :
    (file_extract_resolve K a number = Resolution.range →
      libmpq__file_extract K env a number fuel
        = some (ExtractOutcome.returned ⟨K.LIBMPQ_FILE_ERROR_RANGE, []⟩)) ∧
    (file_extract_resolve K a number = Resolution.exist →
      ∃ t, libmpq__file_extract K env a number fuel
        = some (ExtractOutcome.returned ⟨K.LIBMPQ_FILE_ERROR_EXIST, t⟩)) ∧
    (file_extract_resolve K a number = Resolution.corrupt →
      ∃ t, libmpq__file_extract K env a number fuel
        = some (ExtractOutcome.returned ⟨K.LIBMPQ_FILE_ERROR_CORRUPT, t⟩)) ∧
    (∀ i b, file_extract_resolve K a number = Resolution.resolved i b →
      ∀ o, libmpq__file_extract K env a number fuel = some o →
        Effect.block_load i ∈ o.effects ∧
        (o.ret = none ∨ o.ret = some K.LIBMPQ_FILE_ERROR_MALLOC ∨
          o.ret = some K.LIBMPQ_FILE_ERROR_CLOSE ∨ o.ret = some K.LIBMPQ_SUCCESS)) := by
  by_cases h1 : number < 1 ∨ number > a.header.blocktablesize
  · have hr : file_extract_resolve K a number = Resolution.range := by
      simp only [file_extract_resolve, if_pos h1]
    have he : libmpq__file_extract K env a number fuel
        = some (ExtractOutcome.returned ⟨K.LIBMPQ_FILE_ERROR_RANGE, []⟩) := by
      simp only [libmpq__file_extract, if_pos h1]
    rw [hr]
    exact ⟨fun _ => he, fun h => Resolution.noConfusion h, fun h => Resolution.noConfusion h, fun i b h => Resolution.noConfusion h⟩
  · by_cases h2 : found_blockindex_int a number = -1 ∨
        toU32 (found_blockindex_int a number) > a.header.blocktablesize
    · have hr : file_extract_resolve K a number = Resolution.exist := by
        simp only [file_extract_resolve, if_neg h1, if_pos h2]
      have he : ∃ t, libmpq__file_extract K env a number fuel
          = some (ExtractOutcome.returned ⟨K.LIBMPQ_FILE_ERROR_EXIST, t⟩) := by
        simp only [libmpq__file_extract, if_neg h1, if_neg hfd, if_pos h2]
        exact ⟨_, rfl⟩
      rw [hr]
      exact ⟨fun h => Resolution.noConfusion h, fun _ => he, fun h => Resolution.noConfusion h, fun i b h => Resolution.noConfusion h⟩
    · by_cases h3 : (block_at a.blocktable (found_blockindex_int a number)).filepos
          > (a.header.archivesize + a.mpqpos) % U32 ∨
          (block_at a.blocktable (found_blockindex_int a number)).csize
            > a.header.archivesize
      · have hr : file_extract_resolve K a number = Resolution.corrupt := by
          simp only [file_extract_resolve, if_neg h1, if_neg h2, if_pos h3]
        have he : ∃ t, libmpq__file_extract K env a number fuel
            = some (ExtractOutcome.returned ⟨K.LIBMPQ_FILE_ERROR_CORRUPT, t⟩) := by
          simp only [libmpq__file_extract, if_neg h1, if_neg hfd, if_neg h2, if_pos h3]
          exact ⟨_, rfl⟩
        rw [hr]
        exact ⟨fun h => Resolution.noConfusion h, fun h => Resolution.noConfusion h, fun _ => he, fun i b h => Resolution.noConfusion h⟩
      · by_cases h4 : (block_at a.blocktable (found_blockindex_int a number)).flags
            &&& K.LIBMPQ_FILE_EXISTS = 0
        · have hr : file_extract_resolve K a number = Resolution.exist := by
            simp only [file_extract_resolve, if_neg h1, if_neg h2, if_neg h3, if_pos h4]
          have he : ∃ t, libmpq__file_extract K env a number fuel
              = some (ExtractOutcome.returned ⟨K.LIBMPQ_FILE_ERROR_EXIST, t⟩) := by
            simp only [libmpq__file_extract, if_neg h1, if_neg hfd, if_neg h2, if_neg h3,
              if_pos h4]
            exact ⟨_, rfl⟩
          rw [hr]
          exact ⟨fun h => Resolution.noConfusion h, fun _ => he, fun h => Resolution.noConfusion h, fun i b h => Resolution.noConfusion h⟩
        · have hr : file_extract_resolve K a number
              = Resolution.resolved (found_blockindex_int a number)
                  (block_at a.blocktable (found_blockindex_int a number)) := by
            simp only [file_extract_resolve, if_neg h1, if_neg h2, if_neg h3, if_neg h4]
          rw [hr]
          refine ⟨fun h => Resolution.noConfusion h, fun h => Resolution.noConfusion h, fun h => Resolution.noConfusion h,
            fun i b h o hr2 => ?_⟩
          simp only [Resolution.resolved.injEq] at h
          obtain ⟨hi, _⟩ := h
          subst hi
          simp only [libmpq__file_extract, if_neg h1, if_neg hfd, if_neg h2, if_neg h3,
            if_neg h4] at hr2
          by_cases h5 : env.malloc_file = false
          · simp only [if_pos h5, Option.some.injEq] at hr2
            subst hr2
            exact ⟨by simp [ExtractOutcome.effects], Or.inr (Or.inl rfl)⟩
          · by_cases hz : a.blocksize = 0
            · simp only [if_neg h5, if_pos hz, Option.some.injEq] at hr2
              subst hr2
              exact ⟨by simp [ExtractOutcome.effects], Or.inl rfl⟩
            · by_cases h6 : (block_at a.blocktable (found_blockindex_int a number)).flags
                  &&& K.LIBMPQ_FILE_COMPRESSED ≠ 0 ∧ env.malloc_blockpos = false
              · simp only [if_neg h5, if_neg hz, if_pos h6, Option.some.injEq] at hr2
                subst hr2
                exact ⟨by simp [ExtractOutcome.effects], Or.inr (Or.inl rfl)⟩
              · simp only [if_neg h5, if_neg hz, if_neg h6] at hr2
                cases hloop : extract_loop env fuel 0 0 with
                | none => simp [hloop] at hr2
                | some t3 =>
                  simp only [hloop] at hr2
                  by_cases h7 : env.close_ret = -1
                  · simp only [if_pos h7, Option.some.injEq] at hr2
                    subst hr2
                    exact ⟨by simp [ExtractOutcome.effects], Or.inr (Or.inr (Or.inl rfl))⟩
                  · simp only [if_neg h7, Option.some.injEq] at hr2
                    subst hr2
                    exact ⟨by simp [ExtractOutcome.effects], Or.inr (Or.inr (Or.inr rfl))⟩

/-- C20 (amended): for an archive with at most `2^31` hash entries (so that the
`int` loop variable of `libmpq__file_extract` does not overflow) and an output
file that can be created, the resolvers of `libmpq__file_info` and
`libmpq__file_extract` decide the same: each function leaves by the range, the
exist or the corrupt `return` exactly when the other does, for every information
kind, returning that error value; otherwise both go on with the same block-table
entry, `libmpq__file_info` returning the value of its switch for it and
`libmpq__file_extract`, if it returns, an allocation error, a close error or
`LIBMPQ_SUCCESS`. On the returned values: if the value of the switch for a
resolved file is none of the three error values (and these differ from the other
values `libmpq__file_extract` returns), `libmpq__file_extract` returns one of the
three errors exactly when `libmpq__file_info` returns that same error. -/
theorem resolver_agreement (K : MpqH) (env : ExtractEnv) (a : mpq_archive)
    (number fuel : Nat) (hfd : env.create_fd ≠ -1)
    (hsz : a.header.hashtablesize ≤ 2 ^ 31) :
    file_extract_resolve K a number = file_info_resolve K a number ∧
    (file_info_resolve K a number = Resolution.range →
      (∀ kind, libmpq__file_info K a kind number = K.LIBMPQ_FILE_ERROR_RANGE) ∧
      libmpq__file_extract K env a number fuel
        = some (ExtractOutcome.returned ⟨K.LIBMPQ_FILE_ERROR_RANGE, []⟩)) ∧
    (file_info_resolve K a number = Resolution.exist →
      (∀ kind, libmpq__file_info K a kind number = K.LIBMPQ_FILE_ERROR_EXIST) ∧
      ∃ t, libmpq__file_extract K env a number fuel
        = some (ExtractOutcome.returned ⟨K.LIBMPQ_FILE_ERROR_EXIST, t⟩)) ∧
    (file_info_resolve K a number = Resolution.corrupt →
      (∀ kind, libmpq__file_info K a kind number = K.LIBMPQ_FILE_ERROR_CORRUPT) ∧
      ∃ t, libmpq__file_extract K env a number fuel
        = some (ExtractOutcome.returned ⟨K.LIBMPQ_FILE_ERROR_CORRUPT, t⟩)) ∧
    (∀ i b, file_info_resolve K a number = Resolution.resolved i b →
      b = block_at a.blocktable i ∧
      (∀ kind, libmpq__file_info K a kind number = file_info_switch K kind b) ∧
      ∀ o, libmpq__file_extract K env a number fuel = some o →
        Effect.block_load i ∈ o.effects ∧
        (o.ret = none ∨ o.ret = some K.LIBMPQ_FILE_ERROR_MALLOC ∨
          o.ret = some K.LIBMPQ_FILE_ERROR_CLOSE ∨ o.ret = some K.LIBMPQ_SUCCESS)) ∧
    (K.resolver_errors_apart →
      (∀ i b kind, file_info_resolve K a number = Resolution.resolved i b →
        file_info_switch K kind b ∉
          [K.LIBMPQ_FILE_ERROR_RANGE, K.LIBMPQ_FILE_ERROR_EXIST,
           K.LIBMPQ_FILE_ERROR_CORRUPT]) →
      ∀ x ∈ [K.LIBMPQ_FILE_ERROR_RANGE, K.LIBMPQ_FILE_ERROR_EXIST,
          K.LIBMPQ_FILE_ERROR_CORRUPT],
        ∀ kind, (∃ t, libmpq__file_extract K env a number fuel
            = some (ExtractOutcome.returned ⟨x, t⟩)) ↔
          libmpq__file_info K a kind number = x) := by
  have heq : file_extract_resolve K a number = file_info_resolve K a number := by
    unfold file_extract_resolve file_info_resolve
    rw [found_blockindex_int_eq a number hsz]
  obtain ⟨e1, e2, e3, e4⟩ := file_extract_of_resolve K env a number fuel hfd
  rw [heq] at e1 e2 e3 e4
  refine ⟨heq, fun h => ⟨fun kind => ?_, e1 h⟩, fun h => ⟨fun kind => ?_, e2 h⟩,
    fun h => ⟨fun kind => ?_, e3 h⟩, fun i b h => ⟨?_, fun kind => ?_, e4 i b h⟩,
    fun hK hsw x hx kind => ?_⟩
  · rw [file_info_eq_resolve, h]
  · rw [file_info_eq_resolve, h]
  · rw [file_info_eq_resolve, h]
  · unfold file_info_resolve at h
    simp only at h
    split_ifs at h
    simp only [Resolution.resolved.injEq] at h
    rw [← h.1, ← h.2]
  · rw [file_info_eq_resolve, h]
  · rw [file_info_eq_resolve]
    cases hres : file_info_resolve K a number with
    | range =>
      have he := e1 hres
      simp only
      constructor
      · rintro ⟨t, ht⟩
        rw [he] at ht
        simp only [Option.some.injEq, ExtractOutcome.returned.injEq,
          ExtractResult.mk.injEq] at ht
        exact ht.1
      · intro hx2
        exact ⟨[], by rw [he, hx2]⟩
    | exist =>
      obtain ⟨t0, he⟩ := e2 hres
      simp only
      constructor
      · rintro ⟨t, ht⟩
        rw [he] at ht
        simp only [Option.some.injEq, ExtractOutcome.returned.injEq,
          ExtractResult.mk.injEq] at ht
        exact ht.1
      · intro hx2
        exact ⟨t0, by rw [he, hx2]⟩
    | corrupt =>
      obtain ⟨t0, he⟩ := e3 hres
      simp only
      constructor
      · rintro ⟨t, ht⟩
        rw [he] at ht
        simp only [Option.some.injEq, ExtractOutcome.returned.injEq,
          ExtractResult.mk.injEq] at ht
        exact ht.1
      · intro hx2
        exact ⟨t0, by rw [he, hx2]⟩
    | resolved i b =>
      simp only
      constructor
      · rintro ⟨t, ht⟩
        have hret := (e4 i b hres _ ht).2
        have hnot := hK x hx
        simp only [ExtractOutcome.ret, Option.some.injEq, List.mem_cons, List.mem_singleton,
          List.not_mem_nil, or_false, not_or] at hret hnot
        rcases hret with h | h | h | h
        · exact absurd h (by simp)
        · exact absurd h hnot.1
        · exact absurd h hnot.2.1
        · exact absurd h hnot.2.2
      · intro hx2
        have := hsw i b kind hres
        rw [hx2] at this
        exact absurd hx this

/-- C20 (amended) on the sample archive, whose file 1 both resolvers resolve to
block 0: `libmpq__file_info` returns the compressed size 10, and
`libmpq__file_extract` loads block 0 and returns `LIBMPQ_SUCCESS`; neither returns
`LIBMPQ_FILE_ERROR_EXIST`. -/
theorem resolver_agreement_witness :
    file_extract_resolve mpqh sampleArchive 1 = file_info_resolve mpqh sampleArchive 1 ∧
    file_info_resolve mpqh sampleArchive 1 = Resolution.resolved 0 ⟨0x40, 10, 10, 0x80000000⟩ ∧
    libmpq__file_info mpqh sampleArchive mpqh.LIBMPQ_FILE_COMPRESSED_SIZE 1 = 10 ∧
    libmpq__file_extract mpqh eofReadEnv sampleArchive 1 1
      = some (ExtractOutcome.returned ⟨mpqh.LIBMPQ_SUCCESS,
          [Effect.create "file000001.xxx" 3, Effect.hash_lookup, Effect.block_load 0,
           Effect.file_state 1, Effect.read_file 0 0, Effect.close 3 0]⟩) ∧
    ((∃ t, libmpq__file_extract mpqh eofReadEnv sampleArchive 1 1
        = some (ExtractOutcome.returned ⟨mpqh.LIBMPQ_FILE_ERROR_EXIST, t⟩)) ↔
      libmpq__file_info mpqh sampleArchive mpqh.LIBMPQ_FILE_COMPRESSED_SIZE 1
        = mpqh.LIBMPQ_FILE_ERROR_EXIST) := by
  have h := resolver_agreement mpqh eofReadEnv sampleArchive 1 1 (by decide) (by decide)
  have h0 : file_info_resolve mpqh sampleArchive 1
      = Resolution.resolved 0 ⟨0x40, 10, 10, 0x80000000⟩ := by decide
  have hsw : ∀ (i : Int) (b : mpq_block) (kind : Nat),
      file_info_resolve mpqh sampleArchive 1 = Resolution.resolved i b →
      file_info_switch mpqh kind b ∉
        [mpqh.LIBMPQ_FILE_ERROR_RANGE, mpqh.LIBMPQ_FILE_ERROR_EXIST,
         mpqh.LIBMPQ_FILE_ERROR_CORRUPT] := by
    intro i b kind hres
    rw [h0] at hres
    simp only [Resolution.resolved.injEq] at hres
    obtain ⟨_, hb⟩ := hres
    subst hb
    unfold file_info_switch
    split_ifs <;> decide
  exact ⟨h.1, h0, by decide, by decide,
    h.2.2.2.2.2 (by decide) hsw mpqh.LIBMPQ_FILE_ERROR_EXIST (by decide)
      mpqh.LIBMPQ_FILE_COMPRESSED_SIZE⟩

/-- C20 as stated fails on the returned values: file 1 of `bigFileArchive`
resolves in both functions, the output file can be created, and
`libmpq__file_info` asked for the uncompressed size `0xFFFFFFFC` returns `-4`, the
value of `LIBMPQ_FILE_ERROR_EXIST`, while `libmpq__file_extract` returns
`LIBMPQ_SUCCESS`, not that error. -/
theorem resolver_agreement_counterexample :
    eofReadEnv.create_fd ≠ -1 ∧
    file_info_resolve mpqh bigFileArchive 1
      = Resolution.resolved 0 ⟨0x40, 10, 0xFFFFFFFC, 0x80000000⟩ ∧
    file_extract_resolve mpqh bigFileArchive 1
      = Resolution.resolved 0 ⟨0x40, 10, 0xFFFFFFFC, 0x80000000⟩ ∧
    libmpq__file_info mpqh bigFileArchive mpqh.LIBMPQ_FILE_UNCOMPRESSED_SIZE 1
      = mpqh.LIBMPQ_FILE_ERROR_EXIST ∧
    (libmpq__file_extract mpqh eofReadEnv bigFileArchive 1 1).map ExtractOutcome.ret
      = some (some mpqh.LIBMPQ_SUCCESS) ∧
    mpqh.LIBMPQ_SUCCESS ≠ mpqh.LIBMPQ_FILE_ERROR_EXIST := by
  decide

/-! ### The protected flag after a rejected candidate -/

/-- C21 fails on the code: the host file `decoyHost` has a first block that is no
header (signature 0) but carries the sentinel in its length field, and a valid
header of length 32 at `0x200`. Opened on a handle whose flags word is 0, the
archive is found at `0x200`, the open succeeds, and the protected flag is set,
although the header accepted did not carry the sentinel. -/
theorem archive_open_decoy_protected :
    (default : mpq_archive).flags = 0 ∧
    (read_header decoyHost 0).map (fun h => (h.id, h.offset)) = some (0, 0x6D9E4B86) ∧
    (read_header decoyHost 0x200).map (fun h => (h.id, h.offset)) = some (0x1A51504D, 32) ∧
    (libmpq__archive_open mpqh (sampleOpenEnv decoyHost) 2 default).map
        (fun r => (r.1, r.2.mpqpos, r.2.flags &&& mpqh.LIBMPQ_MPQ_FLAG_PROTECTED))
      = some (mpqh.LIBMPQ_SUCCESS, 0x200, mpqh.LIBMPQ_MPQ_FLAG_PROTECTED) ∧
    mpqh.LIBMPQ_MPQ_FLAG_PROTECTED ≠ 0 := by
  decide

/-! ### The synthetic names and `libmpq__file_number` -/

theorem digitChar_facts : ∀ d, d < 10 →
    (Nat.digitChar d).toNat - 48 = d ∧ Nat.digitChar d ≠ '.' ∧ Nat.digitChar d ≠ '-' := by
  decide

theorem toDigitsCore_succ (f n : Nat) (acc : List Char) :
    Nat.toDigitsCore 10 (f + 1) n acc
      = if n / 10 = 0 then Nat.digitChar (n % 10) :: acc
        else Nat.toDigitsCore 10 f (n / 10) (Nat.digitChar (n % 10) :: acc) := rfl

theorem decimal_value_cons (a : Nat) (c : Char) (cs : List Char) :
    decimal_value a (c :: cs) = decimal_value (10 * a + (c.toNat - 48)) cs := rfl

theorem toDigitsCore_value (f n : Nat) (acc : List Char) (h : n < f) :
    decimal_value 0 (Nat.toDigitsCore 10 f n acc) = decimal_value n acc := by
  induction f generalizing n acc with
  | zero => omega
  | succ f ih =>
    have hd := (digitChar_facts (n % 10) (Nat.mod_lt _ (by decide))).1
    rw [toDigitsCore_succ]
    by_cases h0 : n / 10 = 0
    · rw [if_pos h0, decimal_value_cons, hd]
      have e : 10 * 0 + n % 10 = n := by omega
      rw [e]
    · rw [if_neg h0, ih (n / 10) _ (by omega), decimal_value_cons, hd]
      have e : 10 * (n / 10) + n % 10 = n := by omega
      rw [e]

theorem toDigits_value (n : Nat) : decimal_value 0 (Nat.toDigits 10 n) = n := by
  unfold Nat.toDigits
  rw [toDigitsCore_value _ _ _ (Nat.lt_succ_self n)]
  rfl

theorem toDigitsCore_chars (f n : Nat) (acc : List Char) :
    ∀ c ∈ Nat.toDigitsCore 10 f n acc, c ∈ acc ∨ (c ≠ '.' ∧ c ≠ '-') := by
  induction f generalizing n acc with
  | zero =>
    intro c hc
    exact Or.inl hc
  | succ f ih =>
    have hd := (digitChar_facts (n % 10) (Nat.mod_lt _ (by decide))).2
    intro c hc
    rw [toDigitsCore_succ] at hc
    by_cases h0 : n / 10 = 0
    · rw [if_pos h0] at hc
      rcases List.mem_cons.mp hc with rfl | hc
      · exact Or.inr hd
      · exact Or.inl hc
    · rw [if_neg h0] at hc
      rcases ih (n / 10) _ c hc with h1 | h1
      · rcases List.mem_cons.mp h1 with rfl | h2
        · exact Or.inr hd
        · exact Or.inl h2
      · exact Or.inr h1

theorem toDigits_chars (n : Nat) : ∀ c ∈ Nat.toDigits 10 n, c ≠ '.' ∧ c ≠ '-' := by
  intro c hc
  rcases toDigitsCore_chars _ _ _ c hc with h | h
  · simp at h
  · exact h

theorem decimal_value_zeros (z : Nat) (l : List Char) :
    decimal_value 0 (List.replicate z '0' ++ l) = decimal_value 0 l := by
  induction z with
  | zero => rfl
  | succ z ih =>
    rw [List.replicate_succ, List.cons_append, decimal_value_cons]
    exact ih

theorem padded_chars (z n : Nat) :
    ∀ c ∈ List.replicate z '0' ++ Nat.toDigits 10 n, c ≠ '.' ∧ c ≠ '-' := by
  intro c hc
  rcases List.mem_append.mp hc with h | h
  · rw [List.mem_replicate] at h
    rw [h.2]
    decide
  · exact toDigits_chars n c h

theorem name_body_chars (n : Int) : ∀ c ∈ name_body n, c ≠ '.' := by
  intro c hc
  unfold name_body at hc
  split at hc
  · rcases List.mem_cons.mp hc with rfl | h
    · decide
    · exact (padded_chars _ _ c h).1
  · exact (padded_chars _ _ c hc).1

theorem name_body_inj (a b : Int) (h : name_body a = name_body b) : a = b := by
  unfold name_body at h
  by_cases ha : a < 0
  · by_cases hb : b < 0
    · simp only [ha, hb, if_true, List.cons.injEq, true_and] at h
      have := congrArg (decimal_value 0) h
      rw [decimal_value_zeros, decimal_value_zeros, toDigits_value, toDigits_value] at this
      omega
    · simp only [ha, hb, if_true, if_false] at h
      have hm : '-' ∈ List.replicate (6 - (Nat.toDigits 10 b.toNat).length) '0'
          ++ Nat.toDigits 10 b.toNat := by
        rw [← h]
        simp
      exact absurd rfl (padded_chars _ _ _ hm).2
  · by_cases hb : b < 0
    · simp only [ha, hb, if_true, if_false] at h
      have hm : '-' ∈ List.replicate (6 - (Nat.toDigits 10 a.toNat).length) '0'
          ++ Nat.toDigits 10 a.toNat := by
        rw [h]
        simp
      exact absurd rfl (padded_chars _ _ _ hm).2
    · simp only [ha, hb, if_false] at h
      have := congrArg (decimal_value 0) h
      rw [decimal_value_zeros, decimal_value_zeros, toDigits_value, toDigits_value] at this
      omega

theorem synthetic_name_data (n : Int) :
    (synthetic_name n).data = 'f' :: 'i' :: 'l' :: 'e' :: (name_body n ++ ['.', 'x', 'x', 'x']) := by
  unfold synthetic_name name_body pad_zeros
  split <;> simp [String.data_append, String.length, Nat.repr, List.asString] <;> rfl

/-- Two texts without a dot, each followed by a dot: if the first with its
continuation starts the second with its continuation, the two texts are equal. -/
theorem take_dot_unique (u v x y : List Char) (hu : ∀ c ∈ u, c ≠ '.') (hv : ∀ c ∈ v, c ≠ '.')
    (h : (v ++ '.' :: y).take (u ++ '.' :: x).length = u ++ '.' :: x) : u = v := by
  induction u generalizing v with
  | nil =>
    cases v with
    | nil => rfl
    | cons b v2 =>
      simp at h
      exact absurd h.1 (hv b (by simp))
  | cons a u2 ih =>
    cases v with
    | nil =>
      simp at h
      exact absurd h.1.symm (hu a (by simp))
    | cons b v2 =>
      simp only [List.cons_append, List.length_cons, List.take_succ_cons, List.cons.injEq] at h
      obtain ⟨hab, ht⟩ := h
      rw [hab, ih v2 (fun c hc => hu c (by simp [hc])) (fun c hc => hv c (by simp [hc])) ht]


theorem strncmp_eq_self (s : String) : strncmp_eq s s = true := by
  simp [strncmp_eq]

/-- Under the comparison of `libmpq__file_number`, a synthetic name matches a
synthetic name only if both are made from the same number. -/
theorem strncmp_eq_names (a b : Int)
    (h : strncmp_eq (synthetic_name a) (synthetic_name b) = true) : a = b := by
  simp only [strncmp_eq, decide_eq_true_eq, synthetic_name_data, List.length_cons,
    List.take_succ_cons, List.cons.injEq, true_and] at h
  exact (name_body_inj b a
    (take_dot_unique (name_body b) (name_body a) ['x', 'x', 'x'] ['x', 'x', 'x']
      (name_body_chars b) (name_body_chars a) h)).symm

theorem toInt32_inj (x y : Nat) (h : toInt32 x = toInt32 y) : x % U32 = y % U32 := by
  unfold toInt32 U32 at *
  split_ifs at h <;> omega

theorem name_loop_get (env : OpenEnv) : ∀ (n i0 : Nat) (l : List String),
    name_loop env n i0 = some l →
    ∀ k, k < n → l[k]? = some (synthetic_name (toInt32 (i0 + k + 1))) := by
  intro n
  induction n with
  | zero =>
    intro i0 l _ k hk
    omega
  | succ n ih =>
    intro i0 l h k hk
    simp only [name_loop] at h
    by_cases hmal : env.malloc_file_name i0 = true
    · rw [if_pos hmal] at h
      cases hrest : name_loop env n (i0 + 1) with
      | none =>
        rw [hrest] at h
        simp at h
      | some rest =>
        rw [hrest] at h
        simp only [Option.map_some', Option.some.injEq] at h
        subst h
        cases k with
        | zero => simp
        | succ k =>
          have := ih (i0 + 1) rest hrest k (by omega)
          rw [List.getElem?_cons_succ, this]
          congr 3
          omega
    · rw [if_neg hmal] at h
      simp at h

/-- The loop of `libmpq__file_number` over the list the file-list loop of
`libmpq__archive_open` builds, asked for the synthetic name of the number `t`:
it returns `t` as a C `int`. -/
theorem file_number_loop_names (K : MpqH) (env : OpenEnv) :
    ∀ (n i0 : Nat) (l : List String),
    name_loop env n i0 = some l → i0 + n < 2 ^ 32 →
    ∀ t, i0 + 1 ≤ t → t ≤ i0 + n →
      file_number_loop K (synthetic_name (toInt32 t)) l i0 = toInt32 t := by
  intro n
  induction n with
  | zero =>
    intro i0 l _ _ t h1 h2
    omega
  | succ n ih =>
    intro i0 l h hlt t h1 h2
    simp only [name_loop] at h
    by_cases hmal : env.malloc_file_name i0 = true
    · rw [if_pos hmal] at h
      cases hrest : name_loop env n (i0 + 1) with
      | none =>
        rw [hrest] at h
        simp at h
      | some rest =>
        rw [hrest] at h
        simp only [Option.map_some', Option.some.injEq] at h
        subst h
        simp only [file_number_loop]
        by_cases hs : strncmp_eq (synthetic_name (toInt32 (i0 + 1)))
            (synthetic_name (toInt32 t)) = true
        · rw [if_pos hs]
          rw [strncmp_eq_names _ _ hs]
        · rw [if_neg hs]
          have hne : t ≠ i0 + 1 := by
            intro e
            rw [e] at hs
            exact hs (strncmp_eq_self _)
          have hmod : (i0 + 1) % U32 = i0 + 1 := by
            unfold U32
            omega
          rw [hmod]
          exact ih (i0 + 1) rest hrest (by omega) t (by omega) (by omega)
    · rw [if_neg hmal] at h
      simp at h

/-- The two functions on the file list `libmpq__archive_open` builds. -/
theorem file_number_file_name (K : MpqH) (env : OpenEnv) (a : mpq_archive) (i : Nat)
    (hopen : name_loop env a.header.blocktablesize 0 = some a.mpq_files)
    (hcount : a.header.blocktablesize < 2 ^ 32)
    (h1 : 1 ≤ i) (h2 : i ≤ a.header.blocktablesize) :
    libmpq__file_name a i = some (synthetic_name (toInt32 i)) ∧
    libmpq__file_number K a (synthetic_name (toInt32 i)) = toInt32 i := by
  constructor
  · have hget := name_loop_get env _ 0 _ hopen (i - 1) (by omega)
    have hi : 0 + (i - 1) + 1 = i := by omega
    rw [hi] at hget
    unfold libmpq__file_name
    rw [if_neg (by omega), hget]
  · unfold libmpq__file_number
    exact file_number_loop_names K env _ 0 _ hopen (by omega) i (by omega) (by omega)

theorem header_scan_error_code (K : MpqH) (f : HostFile) :
    ∀ (fuel : Nat) (a a2 : mpq_archive) (e : Int),
      header_scan K f fuel a = some (ScanResult.error e a2) →
      e = K.LIBMPQ_ARCHIVE_ERROR_FORMAT := by
  intro fuel
  induction fuel with
  | zero =>
    intro a a2 e h
    simp [header_scan] at h
  | succ n ih =>
    intro a a2 e h
    unfold header_scan at h
    cases hstep : scan_step K f a with
    | short =>
      rw [hstep] at h
      simp only [Option.some.injEq, ScanResult.error.injEq] at h
      exact h.1.symm
    | found a1 =>
      rw [hstep] at h
      simp at h
    | next a1 =>
      rw [hstep] at h
      exact ih a1 a2 e h

theorem le32_lt (f : HostFile) (p : Nat) : le32 f p < 2 ^ 32 := by
  unfold le32
  omega

theorem read_header_count (f : HostFile) (pos : Nat) (hd : mpq_header)
    (h : read_header f pos = some hd) : hd.blocktablesize < 2 ^ 32 := by
  unfold read_header at h
  split at h
  · simp only [Option.some.injEq] at h
    rw [← h]
    exact le32_lt f (pos + 28)
  · simp at h

theorem protect_fixup_count (K : MpqH) (flags : Nat) (h : mpq_header) :
    (protect_fixup K flags h).2.blocktablesize = h.blocktablesize := by
  unfold protect_fixup
  split <;> rfl

/-- The block count of a header the scan has found is a 32-bit value. -/
theorem header_scan_found_count (K : MpqH) (f : HostFile) :
    ∀ (fuel : Nat) (a a2 : mpq_archive),
      header_scan K f fuel a = some (ScanResult.found a2) →
      a2.header.blocktablesize < 2 ^ 32 := by
  intro fuel
  induction fuel with
  | zero =>
    intro a a2 h
    simp [header_scan] at h
  | succ n ih =>
    intro a a2 h
    unfold header_scan at h
    cases hstep : scan_step K f a with
    | short =>
      rw [hstep] at h
      simp at h
    | found a1 =>
      rw [hstep] at h
      simp only [Option.some.injEq, ScanResult.found.injEq] at h
      subst h
      unfold scan_step at hstep
      cases hread : read_header f a.mpqpos with
      | none => simp [hread] at hstep
      | some hd =>
        simp only [hread] at hstep
        by_cases hacc : header_accepted K (protect_fixup K a.flags hd).2 = true
        · simp only [hacc, if_true, ScanStep.found.injEq] at hstep
          rw [← hstep]
          simp only [protect_fixup_count]
          exact read_header_count f _ hd hread
        · simp [hacc] at hstep
    | next a1 =>
      rw [hstep] at h
      exact ih a1 a2 h

theorem open_tables_count (K : MpqH) (env : OpenEnv) (f : HostFile) (a : mpq_archive) :
    (open_tables K env f a).2.header.blocktablesize = a.header.blocktablesize := by
  rw [open_tables_eq]
  split
  · rw [(read_tables_fields K env f _).1]
    rfl
  · rfl

/-- When the table part of `libmpq__archive_open` ends in `LIBMPQ_SUCCESS`, the file
list of the handle is the one the file-list loop builds for the block count. -/
theorem read_tables_files (K : MpqH) (env : OpenEnv) (f : HostFile) (a2 : mpq_archive)
    (hK : K.archive_errors_differ) :
    ∀ r, read_tables K env f a2 = r → r.1 = K.LIBMPQ_SUCCESS →
      name_loop env a2.header.blocktablesize 0 = some r.2.mpq_files := by
  obtain ⟨_, _, hK3, hK4, hK5⟩ := hK
  intro r h hok
  unfold read_tables at h
  simp only at h
  split at h
  · subst h
    exact absurd hok.symm hK3
  · split at h
    · subst h
      exact absurd hok.symm hK4
    · split at h
      · subst h
        exact absurd hok.symm hK5
      · split at h
        · subst h
          exact absurd hok.symm hK5
        · rename_i names hn
          subst h
          exact hn

/-- When `libmpq__archive_open` returns `LIBMPQ_SUCCESS`, the file list of the
handle is the one the file-list loop builds for the block count of the header,
which is a 32-bit value. -/
theorem archive_open_success_files (K : MpqH) (env : OpenEnv) (fuel : Nat)
    (a0 : mpq_archive) (r : Int × mpq_archive) (hK : K.archive_errors_differ)
    (hopen : libmpq__archive_open K env fuel a0 = some r) (hok : r.1 = K.LIBMPQ_SUCCESS) :
    name_loop env r.2.header.blocktablesize 0 = some r.2.mpq_files ∧
    r.2.header.blocktablesize < 2 ^ 32 := by
  have hK0 := hK
  obtain ⟨hK1, hK2, _, _, hK5⟩ := hK
  unfold libmpq__archive_open at hopen
  split at hopen
  · simp only [Option.some.injEq] at hopen
    subst hopen
    exact absurd hok.symm hK5
  · simp only at hopen
    split at hopen
    · simp only [Option.some.injEq] at hopen
      subst hopen
      exact absurd hok.symm hK1
    · rename_i f hf
      split at hopen
      · simp at hopen
      · rename_i e a2 hs
        simp only [Option.some.injEq] at hopen
        subst hopen
        have := header_scan_error_code K f _ _ _ _ hs
        simp only at hok
        rw [this] at hok
        exact absurd hok.symm hK2
      · rename_i a2 hs
        simp only [Option.some.injEq] at hopen
        subst hopen
        have hcnt := header_scan_found_count K f _ _ _ hs
        refine ⟨?_, by rw [open_tables_count]; exact hcnt⟩
        rw [open_tables_eq] at hok ⊢
        split at hok
        · rename_i hpos
          rw [if_pos hpos]
          have h1 := read_tables_files K env f _ hK0 _ rfl hok
          have h2 := (read_tables_fields K env f
            (rebase_tables { a2 with blocksize := (0x200 <<< a2.header.blocksize) % U32 })).1
          rw [h2]
          exact h1
        · exact absurd hok.symm hK2

/-- A name that matches no element of the file list: `libmpq__file_number` leaves
the loop and returns `LIBMPQ_FILE_ERROR_EXIST`. -/
theorem file_number_unknown_name :
    libmpq__file_number mpqh dozenArchive "file000013.xxx" = mpqh.LIBMPQ_FILE_ERROR_EXIST := by
  decide

/-! ### The method byte and its undefined bits -/

theorem land_congr_of_land_mask (M1 M2 mask full : Nat) (hsub : full &&& mask = mask)
    (h : M1 &&& full = M2 &&& full) : M1 &&& mask = M2 &&& mask := by
  rw [← hsub, ← Nat.and_assoc, ← Nat.and_assoc, h]

theorem count_loop_congr (f1 f2 : Nat) (l : List (Nat × Codec))
    (hl : ∀ e ∈ l, f1 &&& e.1 = f2 &&& e.1) (n : Nat) :
    count_loop f1 l n = count_loop f2 l n := by
  induction l generalizing n with
  | nil => rfl
  | cons e rest ih =>
    obtain ⟨mask, dec⟩ := e
    have h1 : f1 &&& mask = f2 &&& mask := hl (mask, dec) (by simp)
    have h2 : ∀ e ∈ rest, f1 &&& e.1 = f2 &&& e.1 := fun e he => hl e (by simp [he])
    simp only [count_loop, h1, ih h2]

theorem Ptr.past_of_outside (b o : Nat) (p : Ptr) (h : Ptr.outside b p) : Ptr.past b o p := by
  cases p with
  | null => trivial
  | block b2 o2 => exact Or.inl h

theorem drop_eq_of_same_but (l1 l2 : List Nat) (o k : Nat) (hlen : l1.length = l2.length)
    (h : ∀ i, i ≠ o → l1.getD i 0 = l2.getD i 0) (hk : o < k) : l1.drop k = l2.drop k := by
  apply List.ext_getElem?
  intro i
  rw [List.getElem?_drop, List.getElem?_drop]
  have h1 := h (k + i) (by omega)
  by_cases hi : k + i < l1.length
  · have hi2 : k + i < l2.length := hlen ▸ hi
    rw [List.getD_eq_getElem _ _ hi, List.getD_eq_getElem _ _ hi2] at h1
    rw [List.getElem?_eq_getElem hi, List.getElem?_eq_getElem hi2, h1]
  · rw [List.getElem?_eq_none (by omega), List.getElem?_eq_none (by omega)]

theorem readBytes_same_but (b o : Nat) (m1 m2 : Mem) (p : Ptr) (n : Nat)
    (h : same_but b o m1 m2) (hp : Ptr.past b o p) : readBytes m1 p n = readBytes m2 p n := by
  cases p with
  | null => rfl
  | block b2 o2 =>
    simp only [readBytes]
    by_cases hb : b2 = b
    · subst hb
      have ho : o < o2 := by
        rcases hp with hp | hp
        · exact absurd rfl hp
        · exact hp
      rw [drop_eq_of_same_but _ _ o o2 h.2.1 h.2.2 ho]
    · rw [h.1 b2 hb]

theorem writeBytes_same_but (b o : Nat) (m1 m2 : Mem) (p : Ptr) (bs : List Nat)
    (h : same_but b o m1 m2) (hp : Ptr.outside b p) :
    same_but b o (writeBytes m1 p bs) (writeBytes m2 p bs) := by
  cases p with
  | null => exact h
  | block b2 o2 =>
    have hb : b2 ≠ b := hp
    have hb2 : b ≠ b2 := fun e => hb e.symm
    simp only [writeBytes]
    refine ⟨fun b3 h3 => ?_, ?_, ?_⟩
    · by_cases h4 : b3 = b2
      · subst h4
        simp [h.1 b3 hb]
      · simp [Function.update_noteq h4, h.1 b3 h3]
    · simp only [Function.update_noteq hb2]
      exact h.2.1
    · simp only [Function.update_noteq hb2]
      exact h.2.2

theorem memcpy_same_but (b o : Nat) (m1 m2 : Mem) (dst src : Ptr) (n : Int)
    (h : same_but b o m1 m2) (hd : Ptr.outside b dst) (hs : Ptr.past b o src) :
    same_but b o (memcpy m1 dst src n) (memcpy m2 dst src n) := by
  unfold memcpy
  rw [readBytes_same_but b o m1 m2 src n.toNat h hs]
  exact writeBytes_same_but b o m1 m2 dst _ h hd

theorem memset_zero_same_but (b o : Nat) (m1 m2 : Mem) (p : Ptr) (n : Int)
    (h : same_but b o m1 m2) (hp : Ptr.outside b p) :
    same_but b o (memset_zero m1 p n) (memset_zero m2 p n) := by
  cases p with
  | null => exact h
  | block b2 o2 =>
    have hb : b2 ≠ b := hp
    have hb2 : b ≠ b2 := fun e => hb e.symm
    simp only [memset_zero]
    refine ⟨fun b3 h3 => ?_, ?_, ?_⟩
    · by_cases h4 : b3 = b2
      · subst h4
        simp
      · simp [Function.update_noteq h4, h.1 b3 h3]
    · simp only [Function.update_noteq hb2]
      exact h.2.1
    · simp only [Function.update_noteq hb2]
      exact h.2.2

/-- The sample routine that copies satisfies the assumption on routines. -/
theorem copyCodec_blind (b o : Nat) : codec_blind b o copyCodec := by
  intro m1 m2 out_buf out_size in_buf in_size h hout hin
  exact ⟨by trivial, memcpy_same_but b o m1 m2 out_buf in_buf in_size h hout hin⟩

/-- The sample routine that fails satisfies the assumption on routines. -/
theorem failCodec_blind (b o : Nat) (e : Int) : codec_blind b o (failCodec e) := by
  intro m1 m2 out_buf out_size in_buf in_size h _ _
  exact ⟨rfl, h⟩

theorem apply_loop_skip (flag : Nat) (out_buf : Ptr) (out_size : Int) (temp_buf : Ptr)
    (mask : Nat) (dec : Codec) (rest : List (Nat × Codec)) (s : LoopState)
    (hm : flag &&& mask = 0) :
    apply_loop flag out_buf out_size temp_buf ((mask, dec) :: rest) s
      = apply_loop flag out_buf out_size temp_buf rest s := by
  simp [apply_loop, hm]

theorem apply_loop_fail (flag : Nat) (out_buf : Ptr) (out_size : Int) (temp_buf : Ptr)
    (mask : Nat) (dec : Codec) (rest : List (Nat × Codec)) (s : LoopState)
    (hm : flag &&& mask ≠ 0)
    (hneg : (dec s.mem (if s.count = 0 then out_buf else temp_buf) out_size
      s.in_buf s.in_size).1 < 0) :
    apply_loop flag out_buf out_size temp_buf ((mask, dec) :: rest) s
      = Sum.inl { s with
          mem := (dec s.mem (if s.count = 0 then out_buf else temp_buf) out_size
            s.in_buf s.in_size).2,
          work_buf := some (if s.count = 0 then out_buf else temp_buf),
          tb := (dec s.mem (if s.count = 0 then out_buf else temp_buf) out_size
            s.in_buf s.in_size).1,
          trace := s.trace ++ Event.codec mask (if s.count = 0 then out_buf else temp_buf)
            out_size s.in_buf s.in_size
            (dec s.mem (if s.count = 0 then out_buf else temp_buf) out_size
              s.in_buf s.in_size).1 :: free_temp temp_buf } := by
  simp only [apply_loop, ne_eq, hm, not_false_eq_true, if_true, hneg]

theorem apply_loop_ok (flag : Nat) (out_buf : Ptr) (out_size : Int) (temp_buf : Ptr)
    (mask : Nat) (dec : Codec) (rest : List (Nat × Codec)) (s : LoopState)
    (hm : flag &&& mask ≠ 0)
    (hneg : ¬ (dec s.mem (if s.count = 0 then out_buf else temp_buf) out_size
      s.in_buf s.in_size).1 < 0) :
    apply_loop flag out_buf out_size temp_buf ((mask, dec) :: rest) s
      = apply_loop flag out_buf out_size temp_buf rest
        { mem := (dec s.mem (if s.count = 0 then out_buf else temp_buf) out_size
            s.in_buf s.in_size).2,
          in_buf := if s.count = 0 then out_buf else temp_buf,
          in_size := out_size,
          work_buf := some (if s.count = 0 then out_buf else temp_buf),
          count := s.count + 1,
          tb := (dec s.mem (if s.count = 0 then out_buf else temp_buf) out_size
            s.in_buf s.in_size).1,
          trace := s.trace ++ [Event.codec mask
            (if s.count = 0 then out_buf else temp_buf) out_size s.in_buf s.in_size
            (dec s.mem (if s.count = 0 then out_buf else temp_buf) out_size
              s.in_buf s.in_size).1] } := by
  simp only [apply_loop, ne_eq, hm, not_false_eq_true, if_true, hneg, if_false]

/-- The second loop run on two related states, with two method bytes that agree on
every mask of the table, leaves by the same exit with related states. -/
theorem apply_loop_same_but (b o f1 f2 : Nat) (out_buf : Ptr) (out_size : Int)
    (temp_buf : Ptr) (hout : Ptr.outside b out_buf) (htemp : Ptr.outside b temp_buf)
    (l : List (Nat × Codec))
    (hl : ∀ e ∈ l, f1 &&& e.1 = f2 &&& e.1 ∧ codec_blind b o e.2)
    (s1 s2 : LoopState) (hrel : loop_rel b o s1 s2) :
    (∃ t1 t2, apply_loop f1 out_buf out_size temp_buf l s1 = Sum.inl t1 ∧
        apply_loop f2 out_buf out_size temp_buf l s2 = Sum.inl t2 ∧ loop_rel b o t1 t2) ∨
    (∃ t1 t2, apply_loop f1 out_buf out_size temp_buf l s1 = Sum.inr t1 ∧
        apply_loop f2 out_buf out_size temp_buf l s2 = Sum.inr t2 ∧ loop_rel b o t1 t2) := by
  induction l generalizing s1 s2 with
  | nil => exact Or.inr ⟨s1, s2, rfl, rfl, hrel⟩
  | cons e rest ih =>
    obtain ⟨mask, dec⟩ := e
    obtain ⟨hflag, hblind⟩ := hl (mask, dec) (by simp)
    have hrest : ∀ e ∈ rest, f1 &&& e.1 = f2 &&& e.1 ∧ codec_blind b o e.2 :=
      fun e he => hl e (by simp [he])
    simp only at hflag hblind
    by_cases hm : f1 &&& mask = 0
    · have hm2 : f2 &&& mask = 0 := by rw [← hflag]; exact hm
      rw [apply_loop_skip f1 _ _ _ _ _ _ _ hm, apply_loop_skip f2 _ _ _ _ _ _ _ hm2]
      exact ih hrest s1 s2 hrel
    · have hm2 : f2 &&& mask ≠ 0 := by rw [← hflag]; exact hm
      obtain ⟨m1, ib1, is1, wb1, c1, tb1, tr1⟩ := s1
      obtain ⟨m2, ib2, is2, wb2, c2, tb2, tr2⟩ := s2
      obtain ⟨hmem, hib, his, hwb, hc, htb, htr, hpast⟩ := hrel
      simp only at hmem hib his hwb hc htb htr hpast
      subst hib his hwb hc htb
      have hw : Ptr.outside b (if c1 = 0 then out_buf else temp_buf) := by
        split
        · exact hout
        · exact htemp
      obtain ⟨hret, hmem2⟩ := hblind m1 m2 (if c1 = 0 then out_buf else temp_buf) out_size
        ib1 is1 hmem hw hpast
      by_cases hneg : (dec m1 (if c1 = 0 then out_buf else temp_buf) out_size ib1 is1).1 < 0
      · have hneg2 : (dec m2 (if c1 = 0 then out_buf else temp_buf) out_size ib1 is1).1 < 0 := by
          rw [← hret]; exact hneg
        left
        rw [apply_loop_fail f1 _ _ _ _ _ _ _ hm hneg, apply_loop_fail f2 _ _ _ _ _ _ _ hm2 hneg2]
        refine ⟨_, _, rfl, rfl, hmem2, rfl, rfl, rfl, rfl, hret, ?_, hpast⟩
        simp only [codecMasks_append, codecMasks, htr]
      · have hneg2 : ¬ (dec m2 (if c1 = 0 then out_buf else temp_buf) out_size ib1 is1).1 < 0 := by
          rw [← hret]; exact hneg
        rw [apply_loop_ok f1 _ _ _ _ _ _ _ hm hneg, apply_loop_ok f2 _ _ _ _ _ _ _ hm2 hneg2]
        apply ih hrest
        refine ⟨hmem2, rfl, rfl, rfl, rfl, hret, ?_, Ptr.past_of_outside b o _ hw⟩
        simp only [codecMasks_append, codecMasks, htr]

/-- The second loop with its exits, run on two related states: the values
returned are equal, the memories left are related, the routines called are the
same. -/
theorem run_chain_same_but (b o f1 f2 : Nat) (c : Codecs) (out_buf : Ptr) (out_size : Int)
    (temp_buf : Ptr) (hout : Ptr.outside b out_buf) (htemp : Ptr.outside b temp_buf)
    (hl : ∀ e ∈ dcmp_table c, f1 &&& e.1 = f2 &&& e.1 ∧ codec_blind b o e.2)
    (s1 s2 : LoopState) (hrel : loop_rel b o s1 s2) :
    (run_chain c f1 out_buf out_size temp_buf s1).ret
      = (run_chain c f2 out_buf out_size temp_buf s2).ret ∧
    same_but b o (run_chain c f1 out_buf out_size temp_buf s1).mem
      (run_chain c f2 out_buf out_size temp_buf s2).mem ∧
    codecMasks (run_chain c f1 out_buf out_size temp_buf s1).trace
      = codecMasks (run_chain c f2 out_buf out_size temp_buf s2).trace := by
  unfold run_chain
  rcases apply_loop_same_but b o f1 f2 out_buf out_size temp_buf hout htemp (dcmp_table c) hl
    s1 s2 hrel with ⟨t1, t2, h1, h2, hr⟩ | ⟨t1, t2, h1, h2, hr⟩
  · rw [h1, h2]
    exact ⟨hr.2.2.2.2.2.1, hr.1, hr.2.2.2.2.2.2.1⟩
  · rw [h1, h2]
    obtain ⟨m1, ib1, is1, wb1, c1, tb1, tr1⟩ := t1
    obtain ⟨m2, ib2, is2, wb2, c2, tb2, tr2⟩ := t2
    obtain ⟨hmem, hib, his, hwb, hc, htb, htr, hpast⟩ := hr
    simp only at hmem hib his hwb hc htb htr hpast
    subst hib his hwb hc htb
    simp only [finish_multi]
    cases wb1 with
    | none =>
      exact ⟨by trivial, hmem, by simp only [codecMasks_append, htr]⟩
    | some w =>
      by_cases hw : w = out_buf
      · simp only [hw, ne_eq, not_true_eq_false, if_false]
        exact ⟨by trivial, hmem, by simp only [codecMasks_append, htr]⟩
      · simp only [ne_eq, hw, not_false_eq_true, if_true]
        exact ⟨by trivial, memcpy_same_but b o m1 m2 out_buf ib1 out_size hmem hout hpast,
          by simp only [codecMasks_append, codecMasks, htr]⟩

/-- C23: take two memories that differ at most in the method byte, at offset `o`
of block `b`, and there only in the bits `0x04` and `0x20`; an output buffer and a
temporary buffer outside block `b`; and routines that do not look at the method
byte. Then for `in_size != out_size` the two runs of `libmpq__decompress_multi`
return the same value, call the same routines, and leave memories that differ at
most in the method byte, so that the output buffers hold the same bytes. -/
theorem decompress_multi_undefined_bits (K : MpqH) (c : Codecs) (malloc : Ptr)
    (mem1 mem2 : Mem) (out_buf : Ptr) (out_size : Int) (b o : Nat) (in_size : Int)
    (hsize : in_size ≠ out_size)
    (hmem : same_but b o mem1 mem2)
    (hbits : readByte mem1 (Ptr.block b o) &&& 0xDB = readByte mem2 (Ptr.block b o) &&& 0xDB)
    (hout : Ptr.outside b out_buf) (htemp : Ptr.outside b malloc)
    (hcodecs : ∀ e ∈ dcmp_table c, codec_blind b o e.2) :
    (libmpq__decompress_multi K c malloc mem1 out_buf out_size (Ptr.block b o) in_size).ret
      = (libmpq__decompress_multi K c malloc mem2 out_buf out_size (Ptr.block b o) in_size).ret ∧
    same_but b o
      (libmpq__decompress_multi K c malloc mem1 out_buf out_size (Ptr.block b o) in_size).mem
      (libmpq__decompress_multi K c malloc mem2 out_buf out_size (Ptr.block b o) in_size).mem ∧
    (∀ n, readBytes
        (libmpq__decompress_multi K c malloc mem1 out_buf out_size (Ptr.block b o) in_size).mem
        out_buf n
      = readBytes
        (libmpq__decompress_multi K c malloc mem2 out_buf out_size (Ptr.block b o) in_size).mem
        out_buf n) ∧
    codecMasks
        (libmpq__decompress_multi K c malloc mem1 out_buf out_size (Ptr.block b o) in_size).trace
      = codecMasks
        (libmpq__decompress_multi K c malloc mem2 out_buf out_size (Ptr.block b o) in_size).trace := by
  have hl : ∀ e ∈ dcmp_table c,
      readByte mem1 (Ptr.block b o) &&& e.1 = readByte mem2 (Ptr.block b o) &&& e.1 ∧
        codec_blind b o e.2 := by
    intro e he
    refine ⟨?_, hcodecs e he⟩
    simp only [dcmp_table, List.mem_cons, List.mem_singleton, List.not_mem_nil, or_false] at he
    rcases he with rfl | rfl | rfl | rfl | rfl | rfl
    · exact land_congr_of_land_mask _ _ 0x01 0xDB (by decide) hbits
    · exact land_congr_of_land_mask _ _ 0x02 0xDB (by decide) hbits
    · exact land_congr_of_land_mask _ _ 0x08 0xDB (by decide) hbits
    · exact land_congr_of_land_mask _ _ 0x10 0xDB (by decide) hbits
    · exact land_congr_of_land_mask _ _ 0x40 0xDB (by decide) hbits
    · exact land_congr_of_land_mask _ _ 0x80 0xDB (by decide) hbits
  have hcount : count_loop (readByte mem1 (Ptr.block b o)) (dcmp_table c) 0
      = count_loop (readByte mem2 (Ptr.block b o)) (dcmp_table c) 0 :=
    count_loop_congr _ _ _ (fun e he => (hl e he).1) 0
  have hmain :
      (libmpq__decompress_multi K c malloc mem1 out_buf out_size (Ptr.block b o) in_size).ret
        = (libmpq__decompress_multi K c malloc mem2 out_buf out_size (Ptr.block b o)
            in_size).ret ∧
      same_but b o
        (libmpq__decompress_multi K c malloc mem1 out_buf out_size (Ptr.block b o) in_size).mem
        (libmpq__decompress_multi K c malloc mem2 out_buf out_size (Ptr.block b o) in_size).mem ∧
      codecMasks
          (libmpq__decompress_multi K c malloc mem1 out_buf out_size (Ptr.block b o)
            in_size).trace
        = codecMasks
          (libmpq__decompress_multi K c malloc mem2 out_buf out_size (Ptr.block b o)
            in_size).trace := by
    by_cases h0 : count_loop (readByte mem2 (Ptr.block b o)) (dcmp_table c) 0 = 0
    · simp only [libmpq__decompress_multi, hsize, if_false, hcount, h0, if_true]
      exact ⟨by trivial, hmem, by simp [codecMasks]⟩
    · by_cases h1 : 1 < count_loop (readByte mem2 (Ptr.block b o)) (dcmp_table c) 0
      · by_cases hm : malloc = Ptr.null
        · simp only [libmpq__decompress_multi, hsize, if_false, hcount, h0, h1, hm, if_true]
          exact ⟨by trivial, hmem, by simp [codecMasks]⟩
        · simp only [libmpq__decompress_multi, hsize, if_false, hcount, h0, h1, hm, if_true]
          apply run_chain_same_but b o _ _ c out_buf out_size malloc hout htemp hl
          exact ⟨memset_zero_same_but b o mem1 mem2 malloc out_size hmem htemp, rfl, rfl, rfl,
            rfl, rfl, rfl, Or.inr (Nat.lt_succ_self o)⟩
      · simp only [libmpq__decompress_multi, hsize, if_false, hcount, h0, h1]
        apply run_chain_same_but b o _ _ c out_buf out_size Ptr.null hout trivial hl
        exact ⟨hmem, rfl, rfl, rfl, rfl, rfl, rfl, Or.inr (Nat.lt_succ_self o)⟩
  refine ⟨hmain.1, hmain.2.1, fun n => ?_, hmain.2.2⟩
  cases out_buf with
  | null => rfl
  | block b2 o2 =>
    simp only [readBytes]
    rw [hmain.2.1.1 b2 hout]

theorem sampleMem_same_but (M1 M2 : Nat) : same_but 0 0 (sampleMem M1) (sampleMem M2) := by
  refine ⟨fun b2 h => ?_, rfl, fun i hi => ?_⟩
  · simp [sampleMem, h]
  · cases i with
    | zero => exact absurd rfl hi
    | succ j => simp [sampleMem]

theorem sampleCodecs_blind (b o : Nat) :
    ∀ e ∈ dcmp_table sampleCodecs, codec_blind b o e.2 := by
  intro e he
  simp only [dcmp_table, sampleCodecs, List.mem_cons, List.mem_singleton, List.not_mem_nil,
    or_false] at he
  rcases he with rfl | rfl | rfl | rfl | rfl | rfl
  · exact copyCodec_blind b o
  · exact copyCodec_blind b o
  · exact copyCodec_blind b o
  · exact failCodec_blind b o _
  · exact copyCodec_blind b o
  · exact copyCodec_blind b o

/-- C23 on the sample memory with the method bytes `0x03` and `0x27`, which differ
in the bits `0x04` and `0x20` only: both runs return 8 and leave the same bytes in
the output buffer. -/
theorem decompress_multi_undefined_bits_witness :
    readByte (sampleMem 0x03) (Ptr.block 0 0) &&& 0xDB
      = readByte (sampleMem 0x27) (Ptr.block 0 0) &&& 0xDB ∧
    readByte (sampleMem 0x03) (Ptr.block 0 0) ≠ readByte (sampleMem 0x27) (Ptr.block 0 0) ∧
    (libmpq__decompress_multi mpqh sampleCodecs (Ptr.block 2 0) (sampleMem 0x27)
        (Ptr.block 1 0) 8 (Ptr.block 0 0) 4).ret = 8 ∧
    (libmpq__decompress_multi mpqh sampleCodecs (Ptr.block 2 0) (sampleMem 0x03)
        (Ptr.block 1 0) 8 (Ptr.block 0 0) 4).ret
      = (libmpq__decompress_multi mpqh sampleCodecs (Ptr.block 2 0) (sampleMem 0x27)
        (Ptr.block 1 0) 8 (Ptr.block 0 0) 4).ret ∧
    ∀ n, readBytes (libmpq__decompress_multi mpqh sampleCodecs (Ptr.block 2 0) (sampleMem 0x03)
        (Ptr.block 1 0) 8 (Ptr.block 0 0) 4).mem (Ptr.block 1 0) n
      = readBytes (libmpq__decompress_multi mpqh sampleCodecs (Ptr.block 2 0) (sampleMem 0x27)
        (Ptr.block 1 0) 8 (Ptr.block 0 0) 4).mem (Ptr.block 1 0) n := by
  have h := decompress_multi_undefined_bits mpqh sampleCodecs (Ptr.block 2 0)
    (sampleMem 0x03) (sampleMem 0x27) (Ptr.block 1 0) 8 0 0 4 (by decide)
    (sampleMem_same_but 0x03 0x27) (by decide) (by simp [Ptr.outside]) (by simp [Ptr.outside])
    (sampleCodecs_blind 0 0)
  exact ⟨by decide, by decide, by decide, h.1, h.2.2.1⟩

/-! ### The lengths handed along the chain -/

theorem codecCalls_append (a b : List Event) :
    codecCalls (a ++ b) = codecCalls a ++ codecCalls b := by
  induction a with
  | nil => rfl
  | cons e es ih => cases e <;> simp [codecCalls, ih]

theorem codecCalls_free_temp (p : Ptr) : codecCalls (free_temp p) = [] := by
  unfold free_temp
  split <;> rfl

/-- The routine calls the second loop adds to the trace: the first of them gets
the input length the loop was entered with, every later one gets `out_size`, and
`tb` is left holding the value of the last of them. -/
theorem apply_loop_calls (flag : Nat) (out_buf : Ptr) (out_size : Int) (temp_buf : Ptr)
    (l : List (Nat × Codec)) (s : LoopState) :
    ∀ s1, (apply_loop flag out_buf out_size temp_buf l s = Sum.inl s1 ∨
        apply_loop flag out_buf out_size temp_buf l s = Sum.inr s1) →
      ∃ new : List (Int × Int), codecCalls s1.trace = codecCalls s.trace ++ new ∧
        (∀ p ∈ new.tail, p.1 = out_size) ∧
        (∀ p, new.head? = some p → p.1 = s.in_size) ∧
        (new = [] → s1.tb = s.tb) ∧
        (∀ p, new.getLast? = some p → s1.tb = p.2) := by
  induction l generalizing s with
  | nil =>
    intro s1 h
    have hs : s1 = s := by
      rcases h with h | h
      · simp [apply_loop] at h
      · simp only [apply_loop, Sum.inr.injEq] at h
        exact h.symm
    subst hs
    exact ⟨[], by simp, by simp, by simp, fun _ => rfl, by simp⟩
  | cons e rest ih =>
    obtain ⟨mask, dec⟩ := e
    by_cases hm : flag &&& mask = 0
    · have hstep : apply_loop flag out_buf out_size temp_buf ((mask, dec) :: rest) s
          = apply_loop flag out_buf out_size temp_buf rest s := by
        simp [apply_loop, hm]
      rw [hstep]
      exact ih s
    · by_cases hneg : (dec s.mem (if s.count = 0 then out_buf else temp_buf) out_size
          s.in_buf s.in_size).1 < 0
      · intro s1 h
        have hs : s1 = { s with
            mem := (dec s.mem (if s.count = 0 then out_buf else temp_buf) out_size
              s.in_buf s.in_size).2,
            work_buf := some (if s.count = 0 then out_buf else temp_buf),
            tb := (dec s.mem (if s.count = 0 then out_buf else temp_buf) out_size
              s.in_buf s.in_size).1,
            trace := s.trace ++ Event.codec mask (if s.count = 0 then out_buf else temp_buf)
              out_size s.in_buf s.in_size
              (dec s.mem (if s.count = 0 then out_buf else temp_buf) out_size
                s.in_buf s.in_size).1 :: free_temp temp_buf } := by
          rcases h with h | h
          · simp only [apply_loop, ne_eq, hm, not_false_eq_true, if_true, hneg,
              Sum.inl.injEq] at h
            exact h.symm
          · simp [apply_loop, hm, hneg] at h
        subst hs
        refine ⟨[(s.in_size, (dec s.mem (if s.count = 0 then out_buf else temp_buf) out_size
          s.in_buf s.in_size).1)], ?_, by simp, by simp, by simp, by simp⟩
        simp [codecCalls_append, codecCalls, codecCalls_free_temp]
      · have hstep : ∃ s2, apply_loop flag out_buf out_size temp_buf ((mask, dec) :: rest) s
            = apply_loop flag out_buf out_size temp_buf rest s2 ∧
            s2.trace = s.trace ++ [Event.codec mask
              (if s.count = 0 then out_buf else temp_buf) out_size s.in_buf s.in_size
              (dec s.mem (if s.count = 0 then out_buf else temp_buf) out_size
                s.in_buf s.in_size).1] ∧
            s2.in_size = out_size ∧
            s2.tb = (dec s.mem (if s.count = 0 then out_buf else temp_buf) out_size
                s.in_buf s.in_size).1 := by
          refine ⟨
              { mem := (dec s.mem (if s.count = 0 then out_buf else temp_buf) out_size
                  s.in_buf s.in_size).2,
                in_buf := if s.count = 0 then out_buf else temp_buf,
                in_size := out_size,
                work_buf := some (if s.count = 0 then out_buf else temp_buf),
                count := s.count + 1,
                tb := (dec s.mem (if s.count = 0 then out_buf else temp_buf) out_size
                  s.in_buf s.in_size).1,
                trace := s.trace ++ [Event.codec mask
                  (if s.count = 0 then out_buf else temp_buf) out_size s.in_buf s.in_size
                  (dec s.mem (if s.count = 0 then out_buf else temp_buf) out_size
                    s.in_buf s.in_size).1] }, ?_, rfl, rfl, rfl⟩
          simp [apply_loop, hm, hneg]
        obtain ⟨s2, hstep, htr, hin, htb⟩ := hstep
        rw [hstep]
        intro s1 h
        obtain ⟨new, hcalls, htail, hhead, hnil, hlast⟩ := ih s2 s1 h
        have hall : ∀ p ∈ new, p.1 = out_size := by
          intro p hp
          cases new with
          | nil => simp at hp
          | cons q t =>
            rcases List.mem_cons.mp hp with h1 | h1
            · subst h1
              rw [hhead p (by simp), hin]
            · exact htail p (by simpa using h1)
        refine ⟨(s.in_size, s2.tb) :: new, ?_, by simpa using hall, by simp, by simp, ?_⟩
        · rw [hcalls, htr, htb]
          simp [codecCalls_append, codecCalls]
        · intro p hp
          cases new with
          | nil =>
            simp at hp
            rw [hnil rfl, ← hp]
          | cons q t =>
            rw [List.getLast?_cons_cons] at hp
            exact hlast p hp

/-- The routine calls of the second loop with its two exits: the same as for the
loop, the value returned being that of the last call. -/
theorem run_chain_calls (c : Codecs) (flag : Nat) (out_buf : Ptr) (out_size : Int)
    (temp_buf : Ptr) (s0 : LoopState) :
    ∃ new : List (Int × Int),
      codecCalls (run_chain c flag out_buf out_size temp_buf s0).trace
        = codecCalls s0.trace ++ new ∧
      (∀ p ∈ new.tail, p.1 = out_size) ∧
      (∀ p, new.head? = some p → p.1 = s0.in_size) ∧
      (∀ p, new.getLast? = some p →
        (run_chain c flag out_buf out_size temp_buf s0).ret = p.2) := by
  have hloop := apply_loop_calls flag out_buf out_size temp_buf (dcmp_table c) s0
  unfold run_chain
  cases happ : apply_loop flag out_buf out_size temp_buf (dcmp_table c) s0 with
  | inl s1 =>
    obtain ⟨new, h1, h2, h3, _, h5⟩ := hloop s1 (Or.inl happ)
    exact ⟨new, h1, h2, h3, h5⟩
  | inr s1 =>
    obtain ⟨new, h1, h2, h3, _, h5⟩ := hloop s1 (Or.inr happ)
    refine ⟨new, ?_, h2, h3, ?_⟩
    · simp only [finish_multi]
      split
      · simp [codecCalls_append, codecCalls_free_temp, h1]
      · split
        · simp [codecCalls_append, codecCalls, codecCalls_free_temp, h1]
        · simp [codecCalls_append, codecCalls_free_temp, h1]
    · intro p hp
      have := h5 p hp
      simp only [finish_multi]
      split
      · exact this
      · split
        · exact this
        · exact this

/-- C24: in every run of `libmpq__decompress_multi`, the first routine called
gets the input length `in_size - 1`, every routine called after the first gets the
input length `out_size`, whatever the routine before it returned, and whenever a
routine was called the value returned is the one the last routine called
returned. -/
theorem decompress_multi_chain_lengths (K : MpqH) (c : Codecs) (malloc : Ptr) (mem : Mem)
    (out_buf : Ptr) (out_size : Int) (in_buf : Ptr) (in_size : Int) :
    (∀ p, (codecCalls (libmpq__decompress_multi K c malloc mem out_buf out_size
        in_buf in_size).trace).head? = some p → p.1 = in_size - 1) ∧
    (∀ p ∈ (codecCalls (libmpq__decompress_multi K c malloc mem out_buf out_size
        in_buf in_size).trace).tail, p.1 = out_size) ∧
    (∀ p, (codecCalls (libmpq__decompress_multi K c malloc mem out_buf out_size
        in_buf in_size).trace).getLast? = some p →
      (libmpq__decompress_multi K c malloc mem out_buf out_size in_buf in_size).ret = p.2) := by
  by_cases hsize : in_size = out_size
  · by_cases hp : in_buf = out_buf <;>
      simp [libmpq__decompress_multi, hsize, hp, codecCalls]
  · by_cases h0 : count_loop (readByte mem in_buf) (dcmp_table c) 0 = 0
    · simp [libmpq__decompress_multi, hsize, h0, codecCalls]
    · by_cases h1 : 1 < count_loop (readByte mem in_buf) (dcmp_table c) 0
      · by_cases hm : malloc = Ptr.null
        · simp [libmpq__decompress_multi, hsize, h0, h1, hm, codecCalls]
        · obtain ⟨new, hc, ht, hh, hl⟩ :=
            run_chain_calls c (readByte mem in_buf) out_buf out_size malloc
              { mem := memset_zero mem malloc out_size, in_buf := in_buf.add 1,
                in_size := in_size - 1, work_buf := none, count := 0, tb := 0,
                trace := [Event.method in_buf (readByte mem in_buf),
                  Event.malloc out_size malloc] }
          simp only [libmpq__decompress_multi, hsize, h0, h1, hm, if_false, if_true,
            List.singleton_append]
          rw [hc]
          simp only [codecCalls, List.nil_append]
          exact ⟨hh, ht, hl⟩
      · obtain ⟨new, hc, ht, hh, hl⟩ :=
          run_chain_calls c (readByte mem in_buf) out_buf out_size Ptr.null
            { mem := mem, in_buf := in_buf.add 1,
              in_size := in_size - 1, work_buf := none, count := 0, tb := 0,
              trace := [Event.method in_buf (readByte mem in_buf)] }
        simp only [libmpq__decompress_multi, hsize, h0, h1, if_false]
        rw [hc]
        simp only [codecCalls, List.nil_append]
        exact ⟨hh, ht, hl⟩

/-- C24 on the sample memory with the method byte `0x03`: the first routine gets
3 input bytes and reports 3, the second is handed the length 8, the value of
`out_size`, and the function returns the 8 the second reports. -/
theorem decompress_multi_chain_lengths_witness :
    codecCalls (libmpq__decompress_multi mpqh sampleCodecs (Ptr.block 2 0) (sampleMem 0x03)
        (Ptr.block 1 0) 8 (Ptr.block 0 0) 4).trace = [(3, 3), (8, 8)] ∧
    (∀ p ∈ (codecCalls (libmpq__decompress_multi mpqh sampleCodecs (Ptr.block 2 0)
        (sampleMem 0x03) (Ptr.block 1 0) 8 (Ptr.block 0 0) 4).trace).tail, p.1 = 8) ∧
    (∀ p, (codecCalls (libmpq__decompress_multi mpqh sampleCodecs (Ptr.block 2 0)
        (sampleMem 0x03) (Ptr.block 1 0) 8 (Ptr.block 0 0) 4).trace).getLast? = some p →
      (libmpq__decompress_multi mpqh sampleCodecs (Ptr.block 2 0) (sampleMem 0x03)
        (Ptr.block 1 0) 8 (Ptr.block 0 0) 4).ret = p.2) :=
  ⟨by decide,
   (decompress_multi_chain_lengths mpqh sampleCodecs (Ptr.block 2 0) (sampleMem 0x03)
      (Ptr.block 1 0) 8 (Ptr.block 0 0) 4).2⟩

end Libmpq
